import Mathlib

/-!
# Shard creation in `master_create_shards.c`

A shallow embedding of `CreateShardsWithRoundRobinPolicy`,
`CreateColocatedShards` and `CreateReferenceTableShard` together with the
properties of the hash-space split, the precondition checks and the order of
the metadata writes.

Machine integers are mathematical integers with explicit reductions modulo
`2^32` and `2^64` at the places where the C code converts between types.
-/

namespace CitusShards

/-! ## Machine arithmetic -/

/-- Smallest `int32` value. -/
def INT32_MIN : Int := -2147483648

/-- Largest `int32` value. -/
def INT32_MAX : Int := 2147483647

/-- Modelled from the spec: the macro `HASH_TOKEN_COUNT` is declared in a header
that is not part of the sources; the spec gives `TOTAL_RANGE = 2^32`. It is an
`int64` constant. -/
def HASH_TOKEN_COUNT : Int := 4294967296

/-- Conversion of an integer value to `uint64` (reduction modulo `2^64`). -/
def toUInt64 (x : Int) : Nat := (x % 18446744073709551616).toNat

/-- Conversion of an integer value to `uint32` (reduction modulo `2^32`). -/
def toUInt32 (x : Int) : Nat := (x % 4294967296).toNat

/-- Conversion of an unsigned value to `int32`: the low 32 bits, read as a
two's complement number. -/
def toInt32 (x : Nat) : Int :=
  if x % 4294967296 < 2147483648 then (x % 4294967296 : Nat)
  else ((x % 4294967296 : Nat) : Int) - 4294967296

/-- Addition of two `uint64` values. -/
def addUInt64 (a b : Nat) : Nat := (a + b) % 18446744073709551616

/-- Multiplication of two `uint64` values. -/
def mulUInt64 (a b : Nat) : Nat := (a * b) % 18446744073709551616

/-- Subtraction of two `uint64` values. -/
def subUInt64 (a b : Nat) : Nat :=
  (a + 18446744073709551616 - b % 18446744073709551616) % 18446744073709551616

/-! ## The split of the hash space (lines 143 and 182-190) -/

/-- Line 143: `hashTokenIncrement = HASH_TOKEN_COUNT / shardCount`, an `int64`
division (truncating) whose result is stored in a `uint64`. -/
def hashTokenIncrement (shardCount : Int) : Nat :=
  toUInt64 (Int.tdiv HASH_TOKEN_COUNT shardCount)

/-- Line 182: `int32 shardMinHashToken = INT32_MIN + (shardIndex * hashTokenIncrement)`.
The `int64` index and the `int` constant are converted to `uint64`, the sum is
truncated to `int32`. -/
def shardMinHashToken (hashTokenIncrement : Nat) (shardIndex : Int) : Int :=
  toInt32 (addUInt64 (toUInt64 INT32_MIN)
    (mulUInt64 (toUInt64 shardIndex) hashTokenIncrement))

/-- Lines 183 and 187-190: `shardMaxHashToken = shardMinHashToken + (hashTokenIncrement - 1)`,
overwritten with `INT32_MAX` for the last shard. -/
def shardMaxHashToken (hashTokenIncrement : Nat) (shardCount shardIndex : Int) : Int :=
  if shardIndex = shardCount - 1 then INT32_MAX
  else toInt32 (addUInt64 (toUInt64 (shardMinHashToken hashTokenIncrement shardIndex))
    (subUInt64 hashTokenIncrement 1))

/-- The `(min, max)` pairs computed by the loop of line 175 for the shard
indexes `0 .. shardCount - 1`, in loop order. -/
def hashTokenRanges (shardCount : Int) : List (Int × Int) :=
  (List.range shardCount.toNat).map
    (fun (i : Nat) =>
      (shardMinHashToken (hashTokenIncrement shardCount) (i : Int),
        shardMaxHashToken (hashTokenIncrement shardCount) shardCount (i : Int)))

/-- Line 177: `uint32 roundRobinNodeIndex = shardIndex % workerNodeCount`. The
remainder is an `int64` remainder (truncating); it is undefined for a zero
divisor, which is reported as `none`. -/
def roundRobinNodeIndex (shardIndex workerNodeCount : Int) : Option Nat :=
  if workerNodeCount = 0 then none
  else some (toUInt32 (Int.tmod shardIndex workerNodeCount))

/-! ## Data model -/

/-- Object identifier of a relation. -/
abbrev Oid := Nat

/-- A pass-by-value datum (a machine word). -/
abbrev Datum := Nat

/-- `Int32GetDatum`: an `int32` widened to a machine word. -/
def Int32GetDatum (x : Int) : Datum := toUInt64 x

/-- `DatumGetInt32`: the low 32 bits of a datum read as `int32`. -/
def DatumGetInt32 (x : Datum) : Int := toInt32 x

/-- Partition method code of hash-partitioned tables. The constant is declared
in a header that is not part of the sources; only its being one fixed code
matters. -/
def DISTRIBUTE_BY_HASH : Char := 'h'

/-- Placement id that asks for no particular id (declared in a header that is
not part of the sources; the value plays no role). -/
def INVALID_PLACEMENT_ID : Nat := 0

/-- Shard id that denotes no shard (declared in a header that is not part of
the sources; the value plays no role). -/
def INVALID_SHARD_ID : Nat := 0

/-- Shard state of a finalized placement, the state `finalized` of the spec
(declared in a header that is not part of the sources). -/
def FILE_FINALIZED : Nat := 1

/-- A worker node of the cluster. -/
structure WorkerNode where
  workerName : String
  workerPort : Nat
  deriving DecidableEq, Repr

/-- A row of `pg_dist_shard`. The minimum and maximum are `text` values and
may be NULL. -/
structure ShardRow where
  relationId : Oid
  shardId : Nat
  storageType : Char
  shardMinValue : Option String
  shardMaxValue : Option String
  deriving DecidableEq, Repr

/-- A row of `pg_dist_shard_placement`; also the `ShardPlacement` struct that
`ShardPlacementList` hands out. -/
structure ShardPlacement where
  shardId : Nat
  placementId : Nat
  shardState : Nat
  shardLength : Nat
  nodeName : String
  nodePort : Nat
  deriving DecidableEq, Repr

/-- The `ShardInterval` struct: a shard row with its bounds as datums. -/
structure ShardInterval where
  relationId : Oid
  storageType : Char
  minValueExists : Bool
  maxValueExists : Bool
  minValue : Datum
  maxValue : Datum
  shardId : Nat
  deriving DecidableEq, Repr

/-- Error codes raised in this file, and the ones of the modelled helpers. -/
inductive SqlErrorCode where
  | ERRCODE_OBJECT_NOT_IN_PREREQUISITE_STATE
  | ERRCODE_INVALID_PARAMETER_VALUE
  | ERRCODE_FEATURE_NOT_SUPPORTED
  | ERRCODE_INSUFFICIENT_PRIVILEGE
  | ERRCODE_INTERNAL_ERROR
  deriving DecidableEq, Repr

/-- The payload of an `ereport(ERROR, ...)`. -/
structure ErrorData where
  sqlerrcode : SqlErrorCode
  message : String
  hint : Option String
  deriving DecidableEq, Repr

/-- Lock modes used in this file. -/
inductive LockMode where
  | AccessShareLock
  | ShareLock
  | ExclusiveLock
  deriving DecidableEq, Repr

/-- What a lock is taken on. -/
inductive LockTag where
  | relationDistributionMetadata (relationId : Oid)
  | shardDistributionMetadata (shardId : Nat)
  | relation (relationId : Oid)
  deriving DecidableEq, Repr

/-- A DDL replay sent to a worker by `WorkerCreateShard`. -/
structure WorkerCommand where
  nodeName : String
  nodePort : Nat
  relationId : Oid
  shardId : Nat
  shardIndex : Int
  owner : String
  ddlCommandList : List String
  foreignConstraintCommandList : List String
  deriving DecidableEq, Repr

/-- The arguments of one call of `CreateShardPlacements` (kept as a trace). -/
structure PlacementCall where
  shardId : Nat
  workerStartIndex : Int
  replicationFactor : Int
  deriving DecidableEq, Repr

/-- The content of the two metadata catalogs at one moment. -/
structure Metadata where
  shardRows : List ShardRow
  placementRows : List ShardPlacement
  deriving DecidableEq, Repr

/-- Everything the three operations read and write: the two catalogs, the
shard id sequence, the commands sent to workers, the locks taken, the
interrupt bookkeeping of the backend, and two traces (the calls of
`CreateShardPlacements` and the catalog content after each catalog write). -/
structure State where
  shardRows : List ShardRow
  placementRows : List ShardPlacement
  nextShardId : Nat
  workerCommands : List WorkerCommand
  placementCalls : List PlacementCall
  locks : List (LockTag × LockMode)
  InterruptHoldoffCount : Nat
  QueryCancelPending : Bool
  warnings : List String
  history : List Metadata
  deriving DecidableEq, Repr

/-- What the operations only read: catalog facts about tables, the worker
roster, the answers of the workers and the arrival of cancel requests. -/
structure Env where
  /-- `PartitionMethod(relationId)`. -/
  PartitionMethod : Oid → Char
  /-- Whether the calling user owns the relation. -/
  callerOwns : Oid → Bool
  /-- `get_rel_name(relationId)`. -/
  get_rel_name : Oid → String
  /-- `TableOwner(relationId)`. -/
  TableOwner : Oid → String
  /-- `ShardStorageType(relationId)`. -/
  ShardStorageType : Oid → Char
  /-- `GetTableDDLEvents(relationId)`. -/
  GetTableDDLEvents : Oid → List String
  /-- `GetTableForeignConstraintCommands(relationId)`. -/
  GetTableForeignConstraintCommands : Oid → List String
  /-- The active worker nodes, in storage order. -/
  workerNodes : List WorkerNode
  /-- Whether replaying the DDL for a shard on a node succeeds. -/
  shardCreated : String → Nat → Nat → Bool
  /-- Whether a cancel request arrives while the shard with this index is created. -/
  cancelRequested : Int → Bool

/-- The result of running an operation: normal return, `ereport(ERROR)` with
the state at the point of the report, or undefined behaviour of the C code. -/
inductive Outcome (α : Type) where
  | ok (val : α) (s : State)
  | error (e : ErrorData) (s : State)
  | undefined (s : State)
  deriving DecidableEq

/-- The state an outcome ends in. -/
def Outcome.state {α : Type} : Outcome α → State
  | .ok _ s => s
  | .error _ s => s
  | .undefined s => s

/-- The catalog content of a state. -/
def State.metadata (s : State) : Metadata :=
  { shardRows := s.shardRows, placementRows := s.placementRows }

/-! ## Collaborators that are not part of the sources -/

/-- Modelled from the spec: `GetNextShardId() -> uint64`, globally unique and
monotonic; the function is not part of the sources. -/
def GetNextShardId (s : State) : Nat × State :=
  (s.nextShardId, { s with nextShardId := s.nextShardId + 1 })

/-- Modelled from the spec: `InsertShard(table, shard)` of the metadata writer,
which persists one shard row; the function is not part of the sources. -/
def InsertShardRow (relationId : Oid) (shardId : Nat) (storageType : Char)
    (shardMinValue shardMaxValue : Option String) (s : State) : State :=
  { s with
    shardRows := s.shardRows ++ [⟨relationId, shardId, storageType, shardMinValue, shardMaxValue⟩]
    history := s.history ++
      [⟨s.shardRows ++ [⟨relationId, shardId, storageType, shardMinValue, shardMaxValue⟩],
        s.placementRows⟩] }

/-- Modelled from the spec: `InsertPlacement(shard, node, state, size)` of the
metadata writer, which persists one placement row; the function is not part of
the sources. -/
def InsertShardPlacementRow (shardId placementId shardState shardLength : Nat)
    (nodeName : String) (nodePort : Nat) (s : State) : State :=
  { s with
    placementRows :=
      s.placementRows ++ [⟨shardId, placementId, shardState, shardLength, nodeName, nodePort⟩]
    history := s.history ++
      [⟨s.shardRows,
        s.placementRows ++ [⟨shardId, placementId, shardState, shardLength, nodeName, nodePort⟩]⟩] }

/-- Modelled from the spec: `LoadShardList(tableId)`, the ids of the shards of
a table; the function is not part of the sources. -/
def LoadShardList (s : State) (relationId : Oid) : List Nat :=
  (s.shardRows.filter (fun r => r.relationId = relationId)).map (fun r => r.shardId)

/-- Modelled from the spec: part of `LoadShardIntervalList`, which is not part
of the sources; the value of a decimal digit. -/
def digitValue (c : Char) : Option Nat :=
  if 48 ≤ c.toNat ∧ c.toNat ≤ 57 then some (c.toNat - 48) else none

/-- Modelled from the spec: part of `LoadShardIntervalList`, which is not part
of the sources; reads a run of decimal digits. -/
def parseDigits : List Char → Nat → Option Nat
  | [], acc => some acc
  | c :: cs, acc =>
    match digitValue c with
    | some d => parseDigits cs (acc * 10 + d)
    | none => none

/-- Modelled from the spec: part of `LoadShardIntervalList`, which is not part
of the sources; reads the decimal text of a signed 32-bit bound. -/
def parseIntegerText (t : String) : Option Int :=
  match t.data with
  | [] => none
  | '-' :: cs => if cs = [] then none else (parseDigits cs 0).map (fun n => -(n : Int))
  | cs => (parseDigits cs 0).map (fun n => (n : Int))

/-- Modelled from the spec: part of `LoadShardIntervalList`, which is not part
of the sources; the bound of a shard row as a datum, the integer value of its
text. -/
def boundDatum (t : Option String) : Datum :=
  match t with
  | none => 0
  | some txt =>
    match parseIntegerText txt with
    | some v => Int32GetDatum v
    | none => 0

/-- Modelled from the spec: part of `LoadShardIntervalList`, which is not part
of the sources; whether a shard row has a readable bound. -/
def boundExists (t : Option String) : Bool :=
  match t with
  | none => false
  | some txt => (parseIntegerText txt).isSome

/-- Modelled from the spec: `LoadShardIntervalList(tableId)`, the shards of a
table in their existing order, with the bounds as datums; the function is not
part of the sources. -/
def LoadShardIntervalList (s : State) (relationId : Oid) : List ShardInterval :=
  (s.shardRows.filter (fun r => r.relationId = relationId)).map
    (fun r => ⟨r.relationId, r.storageType, boundExists r.shardMinValue,
      boundExists r.shardMaxValue, boundDatum r.shardMinValue, boundDatum r.shardMaxValue,
      r.shardId⟩)

/-- Modelled from the spec: `ShardPlacementList(shardId)`, the placements of a
shard; the function is not part of the sources. -/
def ShardPlacementList (s : State) (shardId : Nat) : List ShardPlacement :=
  s.placementRows.filter (fun p => p.shardId = shardId)

/-- Modelled from the spec: part of the total order on worker nodes
(`CompareWorkerNodes` is not part of the sources); whether the first host name
comes strictly before the second, character by character. -/
def nameBefore : List Char → List Char → Bool
  | [], [] => false
  | [], _ :: _ => true
  | _ :: _, [] => false
  | a :: as, b :: bs =>
    decide (a.toNat < b.toNat) || (decide (a.toNat = b.toNat) && nameBefore as bs)

/-- Modelled from the spec: the total order on worker nodes, host then port
(`CompareWorkerNodes` is not part of the sources). -/
def WorkerNodeLE (a b : WorkerNode) : Prop :=
  nameBefore a.workerName.data b.workerName.data = true ∨
    (a.workerName = b.workerName ∧ a.workerPort ≤ b.workerPort)

instance : DecidableRel WorkerNodeLE := fun a b =>
  inferInstanceAs (Decidable (nameBefore a.workerName.data b.workerName.data = true ∨
    (a.workerName = b.workerName ∧ a.workerPort ≤ b.workerPort)))

/-- Modelled from the spec: `SortList(workerNodeList, CompareWorkerNodes)`, the
roster in its deterministic order; the function is not part of the sources. -/
def SortList (workerNodeList : List WorkerNode) : List WorkerNode :=
  workerNodeList.insertionSort WorkerNodeLE

/-- Modelled from the spec: `WorkerNodeList()`, the active workers; the
function is not part of the sources. -/
def WorkerNodeList (env : Env) : List WorkerNode := env.workerNodes

/-- Modelled from the spec: the locking functions
(`LockRelationDistributionMetadata`, `LockShardDistributionMetadata`,
`LockRelationOid`), which are not part of the sources; the lock of section 5 is
recorded as taken. -/
def AcquireLock (tag : LockTag) (mode : LockMode) (s : State) : State :=
  { s with locks := s.locks ++ [(tag, mode)] }

/-- Modelled from the spec: `LockShardListMetadata(shardIntervalList, lockMode)`,
which is not part of the sources; "a shared lock over the source's shard list",
one shard metadata lock per interval. -/
def LockShardListMetadata (shardIntervalList : List ShardInterval) (mode : LockMode)
    (s : State) : State :=
  { s with locks := s.locks ++
      shardIntervalList.map (fun iv => (LockTag.shardDistributionMetadata iv.shardId, mode)) }

/-- The macro `HOLD_INTERRUPTS()` of the database server: interrupts are not
processed while the hold-off count is positive. -/
def HOLD_INTERRUPTS (s : State) : State :=
  { s with InterruptHoldoffCount := s.InterruptHoldoffCount + 1 }

/-- The macro `RESUME_INTERRUPTS()` of the database server. -/
def RESUME_INTERRUPTS (s : State) : State :=
  { s with InterruptHoldoffCount := s.InterruptHoldoffCount - 1 }

/-- The arrival of a cancel request: the signal handler of the database server
sets `QueryCancelPending`. -/
def ReceiveCancelRequest (arrived : Bool) (s : State) : State :=
  { s with QueryCancelPending := s.QueryCancelPending || arrived }

/-- Modelled from the spec: `EnsureTableOwner`, "caller owns table (else
`PermissionDenied`)"; the function is not part of the sources. -/
def EnsureTableOwner (env : Env) (relationId : Oid) (s : State) : Outcome Unit :=
  if env.callerOwns relationId then .ok () s
  else .error ⟨.ERRCODE_INSUFFICIENT_PRIVILEGE,
    "must be owner of relation " ++ env.get_rel_name relationId, none⟩ s

/-- Modelled from the spec: `WorkerCreateShard(node, ddl, owner) -> bool`,
"true iff the shard was fully materialized on that node"; the function is not
part of the sources. The replay is recorded in `workerCommands`. -/
def WorkerCreateShard (env : Env) (relationId : Oid) (nodeName : String) (nodePort : Nat)
    (shardIndex : Int) (shardId : Nat) (newShardOwner : String) (ddlCommandList : List String)
    (foreignConstraintCommandList : List String) (s : State) : Bool × State :=
  (env.shardCreated nodeName nodePort shardId,
    { s with workerCommands := s.workerCommands ++
        [⟨nodeName, nodePort, relationId, shardId, shardIndex, newShardOwner, ddlCommandList,
          foreignConstraintCommandList⟩] })

/-- Modelled from the spec: `ShardIndex(shardInterval)`, the position of a shard
among the shards of its table ("matching shard index"); the function is not part
of the sources. -/
def ShardIndex (s : State) (shardInterval : ShardInterval) : Int :=
  ((LoadShardList s shardInterval.relationId).indexOf shardInterval.shardId : Nat)

/-- Modelled from the spec: part of `CreateShardPlacements`, which is not part
of the sources; the workers tried for one shard, the roster walked cyclically
from the start index, as many as the attempt budget of section 4.3 allows. -/
def placementCandidates (workerNodeList : List WorkerNode) (workerStartIndex : Int)
    (replicationFactor : Int) : List WorkerNode :=
  (workerNodeList.rotate workerStartIndex.toNat).take
    (if (workerNodeList.length : Int) > replicationFactor then replicationFactor.toNat + 1
     else replicationFactor.toNat)

/-- Modelled from the spec: part of `CreateShardPlacements`, which is not part
of the sources; the walk over the candidates of section 4.4. Each candidate
gets the DDL replayed until enough replicas exist; a failing worker is skipped
with a warning. Returns the workers on which the shard was created. -/
def attemptPlacements (env : Env) (relationId : Oid) (shardId : Nat)
    (ddlEventList : List String) (newPlacementOwner : String) (required : Nat) :
    List WorkerNode → List WorkerNode → State → List WorkerNode × State
  | [], created, s => (created, s)
  | w :: rest, created, s =>
    if required ≤ created.length then (created, s)
    else
      match WorkerCreateShard env relationId w.workerName w.workerPort (-1) shardId
          newPlacementOwner ddlEventList (env.GetTableForeignConstraintCommands relationId) s with
      | (true, s1) =>
        attemptPlacements env relationId shardId ddlEventList newPlacementOwner required rest
          (created ++ [w]) s1
      | (false, s1) =>
        attemptPlacements env relationId shardId ddlEventList newPlacementOwner required rest
          created
          { s1 with warnings := s1.warnings ++
              ["could not create shard on \"" ++ w.workerName ++ ":" ++ toString w.workerPort
                ++ "\""] }

/-- Modelled from the spec: part of `CreateShardPlacements`, which is not part
of the sources; writes one finalized, empty placement row per worker. -/
def insertPlacementRows (shardId : Nat) : List WorkerNode → State → State
  | [], s => s
  | w :: rest, s =>
    insertPlacementRows shardId rest
      (InsertShardPlacementRow shardId INVALID_PLACEMENT_ID FILE_FINALIZED 0 w.workerName
        w.workerPort s)

/-- Modelled from the spec: the shard physical creator (section 4.4), called
`CreateShardPlacements` in the sources but not part of them. Starting at the
start index the roster is walked cyclically; the attempt budget is the
replication factor plus one backup attempt when there are more workers than
replicas (section 4.3). With fewer than `replicationFactor` successes the call
fails and no placement row is written; otherwise one placement row is written
for each successful replica. -/
def CreateShardPlacements (env : Env) (relationId : Oid) (shardId : Nat)
    (ddlEventList : List String) (newPlacementOwner : String)
    (workerNodeList : List WorkerNode) (workerStartIndex : Int) (replicationFactor : Int)
    (s : State) : Outcome Unit :=
  match attemptPlacements env relationId shardId ddlEventList newPlacementOwner
      replicationFactor.toNat
      (placementCandidates workerNodeList workerStartIndex replicationFactor) []
      { s with placementCalls :=
          s.placementCalls ++ [⟨shardId, workerStartIndex, replicationFactor⟩] } with
  | (created, s1) =>
    if created.length < replicationFactor.toNat then
      .error ⟨.ERRCODE_INTERNAL_ERROR,
        "could only create " ++ toString created.length ++ " of " ++ toString replicationFactor
          ++ " of required shard replicas", none⟩ s1
    else .ok () (insertPlacementRows shardId created s1)

/-! ## The functions of `master_create_shards.c` -/

/-- Lines 418-428: `IntegerToText`, the `%d` rendering of an `int32`. -/
def IntegerToText (value : Int) : Option String := some (toString value)

/-- Lines 405-414: `CheckHashPartitionedTable`. -/
def CheckHashPartitionedTable (env : Env) (distributedTableId : Oid) (s : State) :
    Outcome Unit :=
  if env.PartitionMethod distributedTableId ≠ DISTRIBUTE_BY_HASH then
    .error ⟨.ERRCODE_FEATURE_NOT_SUPPORTED,
      "unsupported table partition type: " ++ (env.PartitionMethod distributedTableId).toString,
      none⟩ s
  else .ok () s

/-- The error of lines 120-126, 260-266 and 362-368. -/
def alreadyShardedError (tableName : String) : ErrorData :=
  ⟨.ERRCODE_OBJECT_NOT_IN_PREREQUISITE_STATE,
    "table \"" ++ tableName ++ "\" has already had shards created for it", none⟩

/-- The error of lines 129-133. -/
def shardCountError : ErrorData :=
  ⟨.ERRCODE_INVALID_PARAMETER_VALUE, "shard_count must be positive", none⟩

/-- The error of lines 136-140. -/
def replicationFactorError : ErrorData :=
  ⟨.ERRCODE_INVALID_PARAMETER_VALUE, "replication_factor must be positive", none⟩

/-- The error of lines 156-163. -/
def insufficientWorkersError (replicationFactor workerNodeCount : Int) : ErrorData :=
  ⟨.ERRCODE_INVALID_PARAMETER_VALUE,
    "replication_factor (" ++ toString replicationFactor ++ ") exceeds number of worker nodes ("
      ++ toString workerNodeCount ++ ")",
    some "Add more worker nodes or try again with a lower replication factor."⟩

/-- The error of lines 310-314. -/
def colocationError (targetRelationName sourceRelationName : String) : ErrorData :=
  ⟨.ERRCODE_OBJECT_NOT_IN_PREREQUISITE_STATE,
    "table \"" ++ targetRelationName ++ "\" could not be colocated with " ++ sourceRelationName,
    none⟩

/-- Lines 175-209: the loop over the shard indexes. `remaining` is the number
of iterations still to run, `shardCount - shardIndex`. A cancel request that
arrives while a shard is created only sets `QueryCancelPending`: interrupts are
held since line 150. -/
def roundRobinShardLoop (env : Env) (distributedTableId : Oid) (shardCount : Int)
    (replicationFactor : Int) (hashTokenIncrement : Nat) (ddlCommandList : List String)
    (relationOwner : String) (workerNodeList : List WorkerNode) (workerNodeCount : Int)
    (shardStorageType : Char) : Nat → Int → State → Outcome Unit
  | 0, _, s => .ok () s
  | remaining + 1, shardIndex, s =>
    match roundRobinNodeIndex shardIndex workerNodeCount with
    | none => .undefined s
    | some roundRobinNodeIndex =>
      let s0 := ReceiveCancelRequest (env.cancelRequested shardIndex) s
      let shardMinHashToken := shardMinHashToken hashTokenIncrement shardIndex
      let shardMaxHashToken := shardMaxHashToken hashTokenIncrement shardCount shardIndex
      match GetNextShardId s0 with
      | (shardId, s1) =>
        let minHashTokenText := IntegerToText shardMinHashToken
        let maxHashTokenText := IntegerToText shardMaxHashToken
        let s2 := AcquireLock (.shardDistributionMetadata shardId) .ExclusiveLock s1
        match CreateShardPlacements env distributedTableId shardId ddlCommandList relationOwner
            workerNodeList (toInt32 roundRobinNodeIndex) replicationFactor s2 with
        | .error e s3 => .error e s3
        | .undefined s3 => .undefined s3
        | .ok _ s3 =>
          roundRobinShardLoop env distributedTableId shardCount replicationFactor
            hashTokenIncrement ddlCommandList relationOwner workerNodeList workerNodeCount
            shardStorageType remaining (shardIndex + 1)
            (InsertShardRow distributedTableId shardId shardStorageType minHashTokenText
              maxHashTokenText s3)

/-- Lines 211-217, reached when the loop ends normally: a pending cancel
request is turned into a warning and cleared, then interrupts are resumed. An
error of the loop leaves the function at the point of the report. -/
def finishRoundRobin : Outcome Unit → Outcome Unit
  | .error e s5 => .error e s5
  | .undefined s5 => .undefined s5
  | .ok _ s5 =>
    let s6 :=
      if s5.QueryCancelPending then
        { s5 with
          warnings := s5.warnings ++ ["cancel requests are ignored during shard creation"]
          QueryCancelPending := false }
      else s5
    .ok () (RESUME_INTERRUPTS s6)

/-- Lines 88-218: `CreateShardsWithRoundRobinPolicy`. The variable
`placementAttemptCount` of lines 165-170 is assigned and never read; it has no
counterpart here. -/
def CreateShardsWithRoundRobinPolicy (env : Env) (distributedTableId : Oid)
    (shardCount replicationFactor : Int) (s : State) : Outcome Unit :=
  match CheckHashPartitionedTable env distributedTableId s with
  | .error e s1 => .error e s1
  | .undefined s1 => .undefined s1
  | .ok _ s1 =>
  match EnsureTableOwner env distributedTableId s1 with
  | .error e s2 => .error e s2
  | .undefined s2 => .undefined s2
  | .ok _ s2 =>
  let s3 := AcquireLock (.relationDistributionMetadata distributedTableId) .ExclusiveLock s2
  let relationOwner := env.TableOwner distributedTableId
  let existingShardList := LoadShardList s3 distributedTableId
  if existingShardList ≠ [] then
    .error (alreadyShardedError (env.get_rel_name distributedTableId)) s3
  else if shardCount ≤ 0 then .error shardCountError s3
  else if replicationFactor ≤ 0 then .error replicationFactorError s3
  else
    let hashTokenIncrement := hashTokenIncrement shardCount
    let workerNodeList := SortList (WorkerNodeList env)
    let s4 := HOLD_INTERRUPTS s3
    let ddlCommandList := env.GetTableDDLEvents distributedTableId
    let workerNodeCount : Int := workerNodeList.length
    if replicationFactor > workerNodeCount then
      .error (insufficientWorkersError replicationFactor workerNodeCount) s4
    else
      let shardStorageType := env.ShardStorageType distributedTableId
      finishRoundRobin
        (roundRobinShardLoop env distributedTableId shardCount replicationFactor
          hashTokenIncrement ddlCommandList relationOwner workerNodeList workerNodeCount
          shardStorageType shardCount.toNat 0 s4)

/-- Lines 288-316: the loop over the placements of one source shard. -/
def colocatedPlacementLoop (env : Env) (targetRelationId sourceRelationId : Oid)
    (sourceShardIndex : Int) (newShardId : Nat) (targetTableRelationOwner : String)
    (targetTableDDLEvents targetTableForeignConstraintCommands : List String) :
    List ShardPlacement → State → Outcome Unit
  | [], s => .ok () s
  | sourcePlacement :: rest, s =>
    match WorkerCreateShard env targetRelationId sourcePlacement.nodeName
        sourcePlacement.nodePort sourceShardIndex newShardId targetTableRelationOwner
        targetTableDDLEvents targetTableForeignConstraintCommands s with
    | (true, s1) =>
      colocatedPlacementLoop env targetRelationId sourceRelationId sourceShardIndex newShardId
        targetTableRelationOwner targetTableDDLEvents targetTableForeignConstraintCommands rest
        (InsertShardPlacementRow newShardId INVALID_PLACEMENT_ID FILE_FINALIZED 0
          sourcePlacement.nodeName sourcePlacement.nodePort s1)
    | (false, s1) =>
      .error (colocationError (env.get_rel_name targetRelationId)
        (env.get_rel_name sourceRelationId)) s1

/-- Lines 274-320: the loop over the shard intervals of the source table. -/
def colocatedShardLoop (env : Env) (targetRelationId sourceRelationId : Oid)
    (targetTableRelationOwner : String)
    (targetTableDDLEvents targetTableForeignConstraintCommands : List String)
    (targetShardStorageType : Char) : List ShardInterval → State → Outcome Unit
  | [], s => .ok () s
  | sourceShardInterval :: rest, s =>
    let sourceShardId := sourceShardInterval.shardId
    match GetNextShardId s with
    | (newShardId, s1) =>
      let sourceShardIndex := ShardIndex s1 sourceShardInterval
      let shardMinValue := DatumGetInt32 sourceShardInterval.minValue
      let shardMaxValue := DatumGetInt32 sourceShardInterval.maxValue
      let shardMinValueText := IntegerToText shardMinValue
      let shardMaxValueText := IntegerToText shardMaxValue
      let sourceShardPlacementList := ShardPlacementList s1 sourceShardId
      match colocatedPlacementLoop env targetRelationId sourceRelationId sourceShardIndex
          newShardId targetTableRelationOwner targetTableDDLEvents
          targetTableForeignConstraintCommands sourceShardPlacementList s1 with
      | .error e s2 => .error e s2
      | .undefined s2 => .undefined s2
      | .ok _ s2 =>
        colocatedShardLoop env targetRelationId sourceRelationId targetTableRelationOwner
          targetTableDDLEvents targetTableForeignConstraintCommands targetShardStorageType rest
          (InsertShardRow targetRelationId newShardId targetShardStorageType shardMinValueText
            shardMaxValueText s2)

/-- Lines 225-321: `CreateColocatedShards`. -/
def CreateColocatedShards (env : Env) (targetRelationId sourceRelationId : Oid) (s : State) :
    Outcome Unit :=
  match CheckHashPartitionedTable env targetRelationId s with
  | .error e s1 => .error e s1
  | .undefined s1 => .undefined s1
  | .ok _ s1 =>
  match CheckHashPartitionedTable env sourceRelationId s1 with
  | .error e s2 => .error e s2
  | .undefined s2 => .undefined s2
  | .ok _ s2 =>
  match EnsureTableOwner env targetRelationId s2 with
  | .error e s3 => .error e s3
  | .undefined s3 => .undefined s3
  | .ok _ s3 =>
  let s4 := AcquireLock (.relationDistributionMetadata targetRelationId) .ExclusiveLock s3
  let s5 := AcquireLock (.relation sourceRelationId) .AccessShareLock s4
  let sourceShardIntervalList := LoadShardIntervalList s5 sourceRelationId
  let s6 := LockShardListMetadata sourceShardIntervalList .ShareLock s5
  let existingShardList := LoadShardList s6 targetRelationId
  if existingShardList ≠ [] then
    .error (alreadyShardedError (env.get_rel_name targetRelationId)) s6
  else
    let targetTableRelationOwner := env.TableOwner targetRelationId
    let targetTableDDLEvents := env.GetTableDDLEvents targetRelationId
    let targetTableForeignConstraintCommands :=
      env.GetTableForeignConstraintCommands targetRelationId
    let targetShardStorageType := env.ShardStorageType targetRelationId
    colocatedShardLoop env targetRelationId sourceRelationId targetTableRelationOwner
      targetTableDDLEvents targetTableForeignConstraintCommands targetShardStorageType
      sourceShardIntervalList s6

/-- Lines 329-397: `CreateReferenceTableShard`. -/
def CreateReferenceTableShard (env : Env) (distributedTableId : Oid) (s : State) :
    Outcome Unit :=
  let workerStartIndex : Int := 0
  let shardMinValue : Option String := none
  let shardMaxValue : Option String := none
  match EnsureTableOwner env distributedTableId s with
  | .error e s1 => .error e s1
  | .undefined s1 => .undefined s1
  | .ok _ s1 =>
  let s2 := AcquireLock (.relationDistributionMetadata distributedTableId) .ExclusiveLock s1
  let relationOwner := env.TableOwner distributedTableId
  let shardStorageType := env.ShardStorageType distributedTableId
  let existingShardList := LoadShardList s2 distributedTableId
  if existingShardList ≠ [] then
    .error (alreadyShardedError (env.get_rel_name distributedTableId)) s2
  else
    let workerNodeList := SortList (WorkerNodeList env)
    match GetNextShardId s2 with
    | (shardId, s3) =>
      let ddlCommandList := env.GetTableDDLEvents distributedTableId
      let workerNodeCount : Int := workerNodeList.length
      let replicationFactor := workerNodeCount
      let s4 := AcquireLock (.shardDistributionMetadata shardId) .ExclusiveLock s3
      match CreateShardPlacements env distributedTableId shardId ddlCommandList relationOwner
          workerNodeList workerStartIndex replicationFactor s4 with
      | .error e s5 => .error e s5
      | .undefined s5 => .undefined s5
      | .ok _ s5 =>
        .ok () (InsertShardRow distributedTableId shardId shardStorageType shardMinValue
          shardMaxValue s5)

/-! ## Concrete clusters used to evaluate the operations -/

/-- A cluster with two workers in which every table is hash partitioned and
owned by the caller, and every worker creates every shard. -/
def exampleEnv : Env :=
  { PartitionMethod := fun _ => 'h'
    callerOwns := fun _ => true
    get_rel_name := fun r => if r = 1 then "orders" else "customers"
    TableOwner := fun _ => "postgres"
    ShardStorageType := fun _ => 't'
    GetTableDDLEvents := fun _ => ["CREATE TABLE t (k int)"]
    GetTableForeignConstraintCommands := fun _ => []
    workerNodes := [⟨"worker-b", 5432⟩, ⟨"worker-a", 5432⟩]
    shardCreated := fun _ _ _ => true
    cancelRequested := fun _ => false }

/-- A coordinator without any shard, whose shard id sequence stands at 100. -/
def emptyState : State :=
  { shardRows := [], placementRows := [], nextShardId := 100, workerCommands := [],
    placementCalls := [], locks := [], InterruptHoldoffCount := 0, QueryCancelPending := false,
    warnings := [], history := [] }

/-- A coordinator on which table 1 already has one shard with one placement. -/
def shardedState : State :=
  { emptyState with
    shardRows := [⟨1, 99, 't', some "-2147483648", some "2147483647"⟩]
    placementRows := [⟨99, 0, 1, 0, "worker-a", 5432⟩]
    history := [⟨[], [⟨99, 0, 1, 0, "worker-a", 5432⟩]⟩,
      ⟨[⟨1, 99, 't', some "-2147483648", some "2147483647"⟩], [⟨99, 0, 1, 0, "worker-a", 5432⟩]⟩] }

/-- The coordinator after table 1 got two shards with two replicas each. -/
def sourceState : State :=
  (CreateShardsWithRoundRobinPolicy exampleEnv 1 2 2 emptyState).state

/-- The cluster of `exampleEnv` on which only `worker-a` manages to create
shards. -/
def failingEnv : Env :=
  { exampleEnv with shardCreated := fun nodeName _ _ => decide (nodeName = "worker-a") }

/-- The state in which the checks of lines 118-140 fail: only the metadata lock
of the table has been taken. -/
def lockedState (distributedTableId : Oid) (s : State) : State :=
  AcquireLock (.relationDistributionMetadata distributedTableId) .ExclusiveLock s

/-- The catalogs, the shard id sequence and the commands sent to workers are
the same in both states: no shard id was allocated, no DDL was issued and no
row was written in between. -/
def Untouched (s s' : State) : Prop :=
  s'.shardRows = s.shardRows ∧ s'.placementRows = s.placementRows ∧
    s'.nextShardId = s.nextShardId ∧ s'.workerCommands = s.workerCommands ∧
    s'.placementCalls = s.placementCalls ∧ s'.history = s.history

instance (s s' : State) : Decidable (Untouched s s') :=
  inferInstanceAs (Decidable (_ ∧ _))

/-! ## Descriptions of what the physical creator writes -/

/-- The placement row written for a shard on a worker. -/
def placementRowOf (shardId : Nat) (w : WorkerNode) : ShardPlacement :=
  ⟨shardId, INVALID_PLACEMENT_ID, FILE_FINALIZED, 0, w.workerName, w.workerPort⟩

/-- The catalog contents seen while the placement rows of one shard are written
one after the other. -/
def placementSnapshots (shardRows : List ShardRow) (shardId : Nat) :
    List ShardPlacement → List WorkerNode → List Metadata
  | _, [] => []
  | placementRows, w :: rest =>
    ⟨shardRows, placementRows ++ [placementRowOf shardId w]⟩ ::
      placementSnapshots shardRows shardId (placementRows ++ [placementRowOf shardId w]) rest

/-- What a successful call of `CreateShardPlacements` leaves behind. -/
structure PlacementsCreated (shardId : Nat) (workerNodeList : List WorkerNode)
    (workerStartIndex replicationFactor : Int) (s s' : State) : Prop where
  shardRows : s'.shardRows = s.shardRows
  nextShardId : s'.nextShardId = s.nextShardId
  locks : s'.locks = s.locks
  holdoff : s'.InterruptHoldoffCount = s.InterruptHoldoffCount
  cancel : s'.QueryCancelPending = s.QueryCancelPending
  placementCalls :
    s'.placementCalls = s.placementCalls ++ [⟨shardId, workerStartIndex, replicationFactor⟩]
  workerCommands : ∃ cmds, s'.workerCommands = s.workerCommands ++ cmds
  written : ∃ created : List WorkerNode,
    created.length = replicationFactor.toNat ∧
    created.Sublist (placementCandidates workerNodeList workerStartIndex replicationFactor) ∧
    s'.placementRows = s.placementRows ++ created.map (placementRowOf shardId) ∧
    s'.history = s.history ++ placementSnapshots s.shardRows shardId s.placementRows created

/-- What a failed call of `CreateShardPlacements` leaves behind. -/
structure PlacementsFailed (shardId : Nat) (workerStartIndex replicationFactor : Int)
    (s s' : State) : Prop where
  shardRows : s'.shardRows = s.shardRows
  placementRows : s'.placementRows = s.placementRows
  history : s'.history = s.history
  nextShardId : s'.nextShardId = s.nextShardId
  placementCalls :
    s'.placementCalls = s.placementCalls ++ [⟨shardId, workerStartIndex, replicationFactor⟩]

/-- The state in which `CreateShardPlacements` is called for a shard index: a
cancel request may have arrived, the shard id has been taken from the sequence
and the shard metadata lock has been acquired (lines 175-202). -/
def beforePlacements (env : Env) (shardIndex : Int) (s : State) : State :=
  AcquireLock (.shardDistributionMetadata s.nextShardId) .ExclusiveLock
    (GetNextShardId (ReceiveCancelRequest (env.cancelRequested shardIndex) s)).2

/-- The shard row written for a shard index (lines 182-194 and 207-208). -/
def roundRobinShardRow (distributedTableId : Oid) (shardCount : Int) (hashTokenIncrement : Nat)
    (shardStorageType : Char) (shardId : Nat) (shardIndex : Int) : ShardRow :=
  ⟨distributedTableId, shardId, shardStorageType,
    IntegerToText (shardMinHashToken hashTokenIncrement shardIndex),
    IntegerToText (shardMaxHashToken hashTokenIncrement shardCount shardIndex)⟩

/-- The calls of `CreateShardPlacements` expected from `k` consecutive
iterations of the shard loop: consecutive shard ids, start index `i mod W`. -/
def roundRobinCalls (firstShardId : Nat) (firstIndex workerNodeCount replicationFactor : Int)
    (k : Nat) : List PlacementCall :=
  (List.range k).map
    (fun (j : Nat) =>
      ⟨firstShardId + j, (firstIndex + (j : Int)) % workerNodeCount, replicationFactor⟩)

/-! ## Descriptions of what `CreateColocatedShards` writes -/

/-- The node a placement lives on. -/
def placementNode (p : ShardPlacement) : WorkerNode := ⟨p.nodeName, p.nodePort⟩

/-- The shard row written for a source shard interval (lines 282-285, 318-319). -/
def colocatedShardRow (targetRelationId : Oid) (targetShardStorageType : Char)
    (newShardId : Nat) (sourceShardInterval : ShardInterval) : ShardRow :=
  ⟨targetRelationId, newShardId, targetShardStorageType,
    IntegerToText (DatumGetInt32 sourceShardInterval.minValue),
    IntegerToText (DatumGetInt32 sourceShardInterval.maxValue)⟩

/-- The shard rows written for a list of source shard intervals, with
consecutive new shard ids. -/
def colocatedShardRows (targetRelationId : Oid) (targetShardStorageType : Char) :
    Nat → List ShardInterval → List ShardRow
  | _, [] => []
  | newShardId, iv :: rest =>
    colocatedShardRow targetRelationId targetShardStorageType newShardId iv ::
      colocatedShardRows targetRelationId targetShardStorageType (newShardId + 1) rest

/-- The placement rows written for one source shard: one per placement of the
source shard, on the same node. -/
def colocatedPlacementRowsOf (catalog : List ShardPlacement) (newShardId : Nat)
    (sourceShardInterval : ShardInterval) : List ShardPlacement :=
  ((catalog.filter (fun p => p.shardId = sourceShardInterval.shardId)).map placementNode).map
    (placementRowOf newShardId)

/-- The placement rows written for a list of source shard intervals. -/
def colocatedPlacementRows (catalog : List ShardPlacement) :
    Nat → List ShardInterval → List ShardPlacement
  | _, [] => []
  | newShardId, iv :: rest =>
    colocatedPlacementRowsOf catalog newShardId iv ++
      colocatedPlacementRows catalog (newShardId + 1) rest

/-- What the placement loop of one source shard leaves behind when it has
created the shard on the given nodes. -/
structure ColocatedPlacementsWritten (newShardId : Nat) (nodes : List WorkerNode)
    (s s' : State) : Prop where
  shardRows : s'.shardRows = s.shardRows
  nextShardId : s'.nextShardId = s.nextShardId
  placementCalls : s'.placementCalls = s.placementCalls
  placementRows : s'.placementRows = s.placementRows ++ nodes.map (placementRowOf newShardId)
  history : s'.history = s.history ++ placementSnapshots s.shardRows newShardId s.placementRows nodes

/-- The shard ids in use lie below the shard id sequence, so that the sequence
hands out ids that are new. -/
def FreshSequence (s : State) : Prop :=
  ∀ r ∈ s.shardRows, r.shardId < s.nextShardId

instance (s : State) : Decidable (FreshSequence s) :=
  inferInstanceAs (Decidable (∀ r ∈ s.shardRows, r.shardId < s.nextShardId))

/-- Every node holding a placement of a source shard creates the matching new
shard. -/
def AllCreated (env : Env) (catalog : List ShardPlacement) :
    Nat → List ShardInterval → Prop
  | _, [] => True
  | newShardId, iv :: rest =>
    (∀ p ∈ catalog.filter (fun p => p.shardId = iv.shardId),
      env.shardCreated p.nodeName p.nodePort newShardId = true) ∧
    AllCreated env catalog (newShardId + 1) rest

/-- What the loop over the source shard intervals leaves behind when it ends
normally. -/
structure ColocatedDone (env : Env) (targetRelationId : Oid) (storageType : Char)
    (intervals : List ShardInterval) (s s' : State) : Prop where
  allCreated : AllCreated env s.placementRows s.nextShardId intervals
  shardRows : s'.shardRows
    = s.shardRows ++ colocatedShardRows targetRelationId storageType s.nextShardId intervals
  placementRows : s'.placementRows
    = s.placementRows ++ colocatedPlacementRows s.placementRows s.nextShardId intervals
  nextShardId : s'.nextShardId = s.nextShardId + intervals.length

/-- What the loop over the source shard intervals leaves behind when a node
fails: the shards `done` are complete, the shard for `iv` has been created on
the nodes of `pre` and has failed on the node of `p`. -/
structure ColocatedStopped (env : Env) (targetRelationId : Oid) (storageType : Char)
    (intervals : List ShardInterval) (s s' : State) (done : List ShardInterval)
    (iv : ShardInterval) (rest : List ShardInterval) (pre : List ShardPlacement)
    (p : ShardPlacement) (post : List ShardPlacement) : Prop where
  split : intervals = done ++ iv :: rest
  placements : s.placementRows.filter (fun q => q.shardId = iv.shardId) = pre ++ p :: post
  created : ∀ q ∈ pre, env.shardCreated q.nodeName q.nodePort (s.nextShardId + done.length) = true
  failed : env.shardCreated p.nodeName p.nodePort (s.nextShardId + done.length) = false
  shardRows : s'.shardRows
    = s.shardRows ++ colocatedShardRows targetRelationId storageType s.nextShardId done
  placementRows : s'.placementRows
    = s.placementRows ++ (colocatedPlacementRows s.placementRows s.nextShardId done
        ++ (pre.map placementNode).map (placementRowOf (s.nextShardId + done.length)))
  nextShardId : s'.nextShardId = s.nextShardId + done.length + 1

/-- The state in which the loop of `CreateColocatedShards` starts, and in which
its existing-shards check fails: the locks of lines 248-256 have been taken. -/
def colocationLockedState (targetRelationId sourceRelationId : Oid) (s : State) : State :=
  LockShardListMetadata (LoadShardIntervalList s sourceRelationId) .ShareLock
    (AcquireLock (.relation sourceRelationId) .AccessShareLock
      (AcquireLock (.relationDistributionMetadata targetRelationId) .ExclusiveLock s))

/-! ## The order of the catalog writes -/

/-- In the catalog content `m`, every shard row written by the operation (those
after the first `firstNew` rows) has all the placement rows that `final`
holds for its shard id. -/
def WriteOrdered (firstNew : Nat) (m : Metadata) (final : List ShardPlacement) : Prop :=
  ∀ r ∈ m.shardRows.drop firstNew,
    m.placementRows.filter (fun p => p.shardId = r.shardId)
      = final.filter (fun p => p.shardId = r.shardId)

/-- The catalog content `b` results from `a` by one write: one shard row or one
placement row is appended. -/
def OneWrite (a b : Metadata) : Prop :=
  (∃ r, b.shardRows = a.shardRows ++ [r] ∧ b.placementRows = a.placementRows) ∨
  (∃ p, b.placementRows = a.placementRows ++ [p] ∧ b.shardRows = a.shardRows)

/-- The list records the catalog contents that lead from `a` to `b`, one write
at a time: each entry results from the one before by one write (the first from
`a`), and the last one is `b` (`a` itself is `b` when nothing was written). -/
def RecordsWrites : Metadata → List Metadata → Metadata → Prop
  | a, [], b => a = b
  | a, m :: rest, b => OneWrite a m ∧ RecordsWrites m rest b

/-- The write-order property of a run from `s` that has reached `s'`: the
history since `s` records every catalog content the run went through, one write
at a time; in every such content, every shard row written by the run is a row
of `s'` and already has all the placement rows that `s'` holds for its shard
id; and for every shard row written by the run the placement rows written by
the run for its shard id form a full complement. -/
structure PlacementsPrecedeShardRows (full : List ShardPlacement → Prop) (s s' : State) :
    Prop where
  recorded : RecordsWrites s.metadata (s'.history.drop s.history.length) s'.metadata
  snapshots : ∀ m ∈ s'.history.drop s.history.length,
    (∀ r ∈ m.shardRows.drop s.shardRows.length, r ∈ s'.shardRows.drop s.shardRows.length) ∧
    WriteOrdered s.shardRows.length m s'.placementRows
  complement : ∀ r ∈ s'.shardRows.drop s.shardRows.length,
    full ((s'.placementRows.drop s.placementRows.length).filter
      (fun p => p.shardId = r.shardId))

/-- The write-order property at the head of a shard loop: the property of
`PlacementsPrecedeShardRows`, and all ids written so far lie below the shard
id sequence. -/
structure LoopInvariant (full : List ShardPlacement → Prop) (s0 s : State) : Prop where
  rowsLen : s0.shardRows.length ≤ s.shardRows.length
  placementsLen : s0.placementRows.length ≤ s.placementRows.length
  historyLen : s0.history.length ≤ s.history.length
  rowsBelow : ∀ r ∈ s.shardRows.drop s0.shardRows.length, r.shardId < s.nextShardId
  placementsBelow : ∀ p ∈ s.placementRows.drop s0.placementRows.length,
    p.shardId < s.nextShardId
  order : PlacementsPrecedeShardRows full s0 s

/-! ## Cancel requests -/

/-- The text of the warning of line 213. -/
def cancelWarning : String := "cancel requests are ignored during shard creation"

/-- The state with the cancel-pending flag replaced. -/
def State.withCancelPending (s : State) (pending : Bool) : State :=
  { s with QueryCancelPending := pending }

/-- The same cluster when no cancel request ever arrives. -/
def Env.withoutCancelRequests (env : Env) : Env :=
  { env with cancelRequested := fun _ => false }

/-- The outcome with a change applied to the state it ends in. -/
def Outcome.mapState {α : Type} (f : State → State) : Outcome α → Outcome α
  | .ok v s => .ok v (f s)
  | .error e s => .error e (f s)
  | .undefined s => .undefined (f s)

/-- The cluster of `exampleEnv` on which a cancel request arrives while the
second shard (index 1) is created. -/
def cancellingEnv : Env :=
  { exampleEnv with cancelRequested := fun shardIndex => decide (shardIndex = 1) }

/-- The state in which the shard loop ends when two shards with one replica are
created for table 1 on `cancellingEnv`, starting from `emptyState`. -/
def cancelledLoopState : State :=
  (roundRobinShardLoop cancellingEnv 1 2 1 (hashTokenIncrement 2)
    (cancellingEnv.GetTableDDLEvents 1) (cancellingEnv.TableOwner 1)
    (SortList (WorkerNodeList cancellingEnv))
    ((SortList (WorkerNodeList cancellingEnv)).length : Int)
    (cancellingEnv.ShardStorageType 1) 2 0
    (HOLD_INTERRUPTS (lockedState 1 emptyState))).state

/-! ## Exactness of the hash-space arithmetic -/

/-- For a positive shard count the stored increment is the integer quotient
`2^32 / shardCount`. -/
theorem hashTokenIncrement_eq (shardCount : Int) (h1 : 1 ≤ shardCount) :
    (hashTokenIncrement shardCount : Int) = 4294967296 / shardCount := by
  have hq : Int.tdiv HASH_TOKEN_COUNT shardCount = 4294967296 / shardCount := by
    unfold HASH_TOKEN_COUNT
    exact Int.tdiv_eq_ediv (by norm_num) (by omega)
  have h0 : (0 : Int) ≤ 4294967296 / shardCount := Int.ediv_nonneg (by norm_num) (by omega)
  have h2 : 4294967296 / shardCount * shardCount ≤ 4294967296 :=
    Int.ediv_mul_le _ (by omega)
  have h3 : 4294967296 / shardCount ≤ 4294967296 := by nlinarith
  unfold hashTokenIncrement toUInt64
  rw [hq]
  omega

/-- The products `i * increment` that occur in the loop stay below `2^32`. -/
theorem index_mul_increment_le (shardCount shardIndex : Int) (h1 : 1 ≤ shardCount)
    (hi : shardIndex < shardCount) :
    (shardIndex + 1) * (4294967296 / shardCount) ≤ 4294967296 := by
  have hq0 : (0 : Int) ≤ 4294967296 / shardCount := Int.ediv_nonneg (by norm_num) (by omega)
  have h2 : 4294967296 / shardCount * shardCount ≤ 4294967296 :=
    Int.ediv_mul_le _ (by omega)
  nlinarith

/-- The increment is at least two whenever the shard count fits in `int32`. -/
theorem two_le_increment (shardCount : Int) (h1 : 1 ≤ shardCount)
    (h2 : shardCount ≤ 2147483647) : 2 ≤ (4294967296 : Int) / shardCount := by
  have h3 : (4294967296 : Int) < (4294967296 / shardCount + 1) * shardCount :=
    Int.lt_ediv_add_one_mul_self _ (by omega)
  by_contra hc
  have hq0 : (0 : Int) ≤ 4294967296 / shardCount := Int.ediv_nonneg (by norm_num) (by omega)
  have h4 : 4294967296 / shardCount + 1 ≤ 2 := by omega
  nlinarith

/-- The stored minimum equals the exact integer formula. -/
theorem shardMinHashToken_eq (shardCount shardIndex : Int) (h1 : 1 ≤ shardCount)
    (h2 : shardCount ≤ 2147483647) (h0 : 0 ≤ shardIndex) (hi : shardIndex < shardCount) :
    shardMinHashToken (hashTokenIncrement shardCount) shardIndex
      = INT32_MIN + shardIndex * (4294967296 / shardCount) := by
  have hinc := hashTokenIncrement_eq shardCount h1
  have hq0 : (0 : Int) ≤ 4294967296 / shardCount := Int.ediv_nonneg (by norm_num) (by omega)
  have hle := index_mul_increment_le shardCount shardIndex h1 hi
  have hd2 := two_le_increment shardCount h1 h2
  have hp : 0 ≤ shardIndex * (4294967296 / shardCount) := Int.mul_nonneg h0 hq0
  have hexp : (shardIndex + 1) * (4294967296 / shardCount)
      = shardIndex * (4294967296 / shardCount) + 4294967296 / shardCount := by ring
  have hcast : ((shardIndex.toNat * hashTokenIncrement shardCount : Nat) : Int)
      = shardIndex * (4294967296 / shardCount) := by
    rw [Nat.cast_mul, hinc, Int.toNat_of_nonneg h0]
  have hidx : toUInt64 shardIndex = shardIndex.toNat := by
    unfold toUInt64
    have : shardIndex < 18446744073709551616 := by omega
    rw [Int.emod_eq_of_lt h0 this]
  unfold shardMinHashToken
  rw [hidx]
  unfold toInt32 addUInt64 mulUInt64 toUInt64 INT32_MIN
  generalize shardIndex.toNat * hashTokenIncrement shardCount = p at hcast
  generalize shardIndex * (4294967296 / shardCount) = q at *
  subst hcast
  split <;> omega

/-- The stored maximum equals the exact integer formula. -/
theorem shardMaxHashToken_eq (shardCount shardIndex : Int) (h1 : 1 ≤ shardCount)
    (h2 : shardCount ≤ 2147483647) (h0 : 0 ≤ shardIndex) (hi : shardIndex < shardCount - 1) :
    shardMaxHashToken (hashTokenIncrement shardCount) shardCount shardIndex
      = shardMinHashToken (hashTokenIncrement shardCount) shardIndex + 4294967296 / shardCount - 1 := by
  have hmin := shardMinHashToken_eq shardCount shardIndex h1 h2 h0 (by omega)
  have hd2 := two_le_increment shardCount h1 h2
  have hinc := hashTokenIncrement_eq shardCount h1
  have hq0 : (0 : Int) ≤ 4294967296 / shardCount := Int.ediv_nonneg (by norm_num) (by omega)
  have hle := index_mul_increment_le shardCount (shardIndex + 1) h1 (by omega)
  have hp : 0 ≤ shardIndex * (4294967296 / shardCount) := Int.mul_nonneg h0 hq0
  have hexp : (shardIndex + 1 + 1) * (4294967296 / shardCount)
      = shardIndex * (4294967296 / shardCount) + 4294967296 / shardCount
        + 4294967296 / shardCount := by ring
  have hne : shardIndex ≠ shardCount - 1 := by omega
  unfold shardMaxHashToken
  rw [if_neg hne, hmin]
  unfold toInt32 addUInt64 subUInt64 toUInt64 INT32_MIN
  generalize hashTokenIncrement shardCount = m at hinc
  generalize shardIndex * (4294967296 / shardCount) = q at *
  generalize (4294967296 : Int) / shardCount = d at *
  subst hinc
  split <;> omega

/-- The last shard ends at `INT32_MAX`. -/
theorem shardMaxHashToken_last (shardCount : Int) :
    shardMaxHashToken (hashTokenIncrement shardCount) shardCount (shardCount - 1) = INT32_MAX := by
  unfold shardMaxHashToken
  rw [if_pos rfl]

/-- Every stored minimum is a valid `int32`. -/
theorem shardMinHashToken_bounds (shardCount shardIndex : Int) (h1 : 1 ≤ shardCount)
    (h2 : shardCount ≤ 2147483647) (h0 : 0 ≤ shardIndex) (hi : shardIndex < shardCount) :
    INT32_MIN ≤ shardMinHashToken (hashTokenIncrement shardCount) shardIndex ∧
      shardMinHashToken (hashTokenIncrement shardCount) shardIndex ≤ INT32_MAX - 1 := by
  rw [shardMinHashToken_eq shardCount shardIndex h1 h2 h0 hi]
  have hd2 := two_le_increment shardCount h1 h2
  have hle := index_mul_increment_le shardCount shardIndex h1 hi
  have hp : 0 ≤ shardIndex * (4294967296 / shardCount) := Int.mul_nonneg h0 (by omega)
  have hexp : (shardIndex + 1) * (4294967296 / shardCount)
      = shardIndex * (4294967296 / shardCount) + 4294967296 / shardCount := by ring
  unfold INT32_MIN INT32_MAX
  omega

/-- The minima grow strictly with the shard index. -/
theorem shardMinHashToken_lt (shardCount i j : Int) (h1 : 1 ≤ shardCount)
    (h2 : shardCount ≤ 2147483647) (h0 : 0 ≤ i) (hij : i < j) (hj : j < shardCount) :
    shardMinHashToken (hashTokenIncrement shardCount) i < shardMinHashToken (hashTokenIncrement shardCount) j := by
  rw [shardMinHashToken_eq shardCount i h1 h2 h0 (by omega),
    shardMinHashToken_eq shardCount j h1 h2 (by omega) hj]
  have hd2 := two_le_increment shardCount h1 h2
  have : i * (4294967296 / shardCount) < j * (4294967296 / shardCount) :=
    Int.mul_lt_mul_of_pos_right hij (by omega)
  omega

/-- A range that is not the last one ends right before the next one starts. -/
theorem shardMaxHashToken_succ (shardCount i : Int) (h1 : 1 ≤ shardCount)
    (h2 : shardCount ≤ 2147483647) (h0 : 0 ≤ i) (hi : i + 1 < shardCount) :
    shardMinHashToken (hashTokenIncrement shardCount) (i + 1) = shardMaxHashToken (hashTokenIncrement shardCount) shardCount i + 1 := by
  rw [shardMaxHashToken_eq shardCount i h1 h2 h0 (by omega),
    shardMinHashToken_eq shardCount i h1 h2 h0 (by omega),
    shardMinHashToken_eq shardCount (i + 1) h1 h2 (by omega) hi]
  ring

/-- No range is empty. -/
theorem shardMin_le_shardMax (shardCount i : Int) (h1 : 1 ≤ shardCount)
    (h2 : shardCount ≤ 2147483647) (h0 : 0 ≤ i) (hi : i < shardCount) :
    shardMinHashToken (hashTokenIncrement shardCount) i ≤ shardMaxHashToken (hashTokenIncrement shardCount) shardCount i := by
  by_cases hl : i = shardCount - 1
  · subst hl
    rw [shardMaxHashToken_last]
    have := shardMinHashToken_bounds shardCount (shardCount - 1) h1 h2 h0 hi
    omega
  · rw [shardMaxHashToken_eq shardCount i h1 h2 h0 (by omega)]
    have hd2 := two_le_increment shardCount h1 h2
    omega

/-- Every stored maximum is at most `INT32_MAX`. -/
theorem shardMaxHashToken_le (shardCount i : Int) (h1 : 1 ≤ shardCount)
    (h2 : shardCount ≤ 2147483647) (h0 : 0 ≤ i) (hi : i < shardCount) :
    shardMaxHashToken (hashTokenIncrement shardCount) shardCount i ≤ INT32_MAX := by
  by_cases hl : i = shardCount - 1
  · subst hl
    rw [shardMaxHashToken_last]
  · have hs := shardMaxHashToken_succ shardCount i h1 h2 h0 (by omega)
    have := shardMinHashToken_bounds shardCount (i + 1) h1 h2 (by omega) (by omega)
    omega

/-- A range ends before every later range starts. -/
theorem shardMax_lt_shardMin (shardCount i j : Int) (h1 : 1 ≤ shardCount)
    (h2 : shardCount ≤ 2147483647) (h0 : 0 ≤ i) (hij : i < j) (hj : j < shardCount) :
    shardMaxHashToken (hashTokenIncrement shardCount) shardCount i < shardMinHashToken (hashTokenIncrement shardCount) j := by
  have hs := shardMaxHashToken_succ shardCount i h1 h2 h0 (by omega)
  by_cases he : i + 1 = j
  · subst he
    omega
  · have := shardMinHashToken_lt shardCount (i + 1) j h1 h2 (by omega) (by omega) hj
    omega

/-- Every `int32` value lies in the range of some shard index. -/
theorem exists_shard_of_token (shardCount v : Int) (h1 : 1 ≤ shardCount)
    (h2 : shardCount ≤ 2147483647) (hv0 : INT32_MIN ≤ v) (hv1 : v ≤ INT32_MAX) :
    ∃ i : Int, 0 ≤ i ∧ i < shardCount ∧
      shardMinHashToken (hashTokenIncrement shardCount) i ≤ v ∧ v ≤ shardMaxHashToken (hashTokenIncrement shardCount) shardCount i := by
  have hd2 := two_le_increment shardCount h1 h2
  have hdpos : (0 : Int) < 4294967296 / shardCount := by omega
  have hk0 : 0 ≤ (v - INT32_MIN) / (4294967296 / shardCount) :=
    Int.ediv_nonneg (by omega) (by omega)
  have hk1 : (v - INT32_MIN) / (4294967296 / shardCount) * (4294967296 / shardCount)
      ≤ v - INT32_MIN := Int.ediv_mul_le _ (by omega)
  have hk2 : v - INT32_MIN
      < ((v - INT32_MIN) / (4294967296 / shardCount) + 1) * (4294967296 / shardCount) :=
    Int.lt_ediv_add_one_mul_self _ hdpos
  by_cases hlast : (v - INT32_MIN) / (4294967296 / shardCount) < shardCount - 1
  · refine ⟨(v - INT32_MIN) / (4294967296 / shardCount), hk0, by omega, ?_, ?_⟩
    · rw [shardMinHashToken_eq shardCount _ h1 h2 hk0 (by omega)]
      omega
    · rw [shardMaxHashToken_eq shardCount _ h1 h2 hk0 hlast,
        shardMinHashToken_eq shardCount _ h1 h2 hk0 (by omega)]
      have hexp : ((v - INT32_MIN) / (4294967296 / shardCount) + 1) * (4294967296 / shardCount)
          = (v - INT32_MIN) / (4294967296 / shardCount) * (4294967296 / shardCount)
            + 4294967296 / shardCount := by ring
      omega
  · refine ⟨shardCount - 1, by omega, by omega, ?_, ?_⟩
    · rw [shardMinHashToken_eq shardCount _ h1 h2 (by omega) (by omega)]
      have : (shardCount - 1) * (4294967296 / shardCount)
          ≤ (v - INT32_MIN) / (4294967296 / shardCount) * (4294967296 / shardCount) :=
        Int.mul_le_mul_of_nonneg_right (by omega) (by omega)
      omega
    · rw [shardMaxHashToken_last]
      exact hv1

/-! ## The sequence of ranges -/

/-- The loop runs `shardCount` times. -/
theorem hashTokenRanges_length (shardCount : Int) :
    (hashTokenRanges shardCount).length = shardCount.toNat := by
  simp [hashTokenRanges]

/-- The entry for shard index `i`. -/
theorem hashTokenRanges_getElem (shardCount : Int) (i : Nat)
    (h : i < (hashTokenRanges shardCount).length) :
    (hashTokenRanges shardCount)[i]
      = (shardMinHashToken (hashTokenIncrement shardCount) i, shardMaxHashToken (hashTokenIncrement shardCount) shardCount i) := by
  simp [hashTokenRanges]

/-- The four ranges computed for `shardCount = 4`. -/
theorem hashTokenRanges_four : hashTokenIncrement 4 = 1073741824 ∧ hashTokenRanges 4 =
    [(-2147483648, -1073741825), (-1073741824, -1), (0, 1073741823), (1073741824, 2147483647)] := by
  decide

/-- Claim C1: for `1 ≤ shardCount ≤ 2^31 - 1` the sequence of `(min, max)` ranges
computed by the loop of `CreateShardsWithRoundRobinPolicy` has length
`shardCount`, is sorted by strictly increasing minimum, is pairwise disjoint,
starts at `INT32_MIN`, ends at `INT32_MAX`, each next minimum is the previous
maximum plus one, and the union of the ranges is exactly
`[INT32_MIN, INT32_MAX]`. -/
theorem hashTokenRanges_partition (shardCount : Int) (h1 : 1 ≤ shardCount)
    (h2 : shardCount ≤ 2147483647) :
    ((hashTokenRanges shardCount).length : Int) = shardCount ∧
    List.Pairwise (fun a b => a.1 < b.1) (hashTokenRanges shardCount) ∧
    List.Pairwise (fun a b => a.2 < b.1) (hashTokenRanges shardCount) ∧
    (∀ r ∈ hashTokenRanges shardCount, r.1 ≤ r.2) ∧
    (hashTokenRanges shardCount).head?.map Prod.fst = some INT32_MIN ∧
    (hashTokenRanges shardCount).getLast?.map Prod.snd = some INT32_MAX ∧
    (∀ (i : Nat) (h : i + 1 < (hashTokenRanges shardCount).length),
      ((hashTokenRanges shardCount).get ⟨i + 1, h⟩).1
        = ((hashTokenRanges shardCount).get ⟨i, by omega⟩).2 + 1) ∧
    (∀ v : Int, (INT32_MIN ≤ v ∧ v ≤ INT32_MAX) ↔
      ∃ r ∈ hashTokenRanges shardCount, r.1 ≤ v ∧ v ≤ r.2) := by
  have hlen : (hashTokenRanges shardCount).length = shardCount.toNat :=
    hashTokenRanges_length shardCount
  have hget : ∀ (i : Nat) (h : i < (hashTokenRanges shardCount).length),
      (hashTokenRanges shardCount)[i]
        = (shardMinHashToken (hashTokenIncrement shardCount) i,
            shardMaxHashToken (hashTokenIncrement shardCount) shardCount i) :=
    hashTokenRanges_getElem shardCount
  refine ⟨by omega, ?_, ?_, ?_, ?_, ?_, ?_, ?_⟩
  · rw [List.pairwise_iff_getElem]
    intro i j hi hj hij
    rw [hget i hi, hget j hj]
    exact shardMinHashToken_lt shardCount i j h1 h2 (by omega) (by omega) (by omega)
  · rw [List.pairwise_iff_getElem]
    intro i j hi hj hij
    rw [hget i hi, hget j hj]
    exact shardMax_lt_shardMin shardCount i j h1 h2 (by omega) (by omega) (by omega)
  · intro r hr
    obtain ⟨i, hi, rfl⟩ := List.mem_iff_getElem.mp hr
    rw [hget i hi]
    exact shardMin_le_shardMax shardCount i h1 h2 (by omega) (by omega)
  · have hpos : 0 < (hashTokenRanges shardCount).length := by omega
    rw [List.head?_eq_head (List.ne_nil_of_length_pos hpos)]
    have h0 : (hashTokenRanges shardCount).head (List.ne_nil_of_length_pos hpos)
        = (hashTokenRanges shardCount)[0] := by
      rw [List.head_eq_getElem]
    rw [h0, hget 0 hpos]
    have := shardMinHashToken_eq shardCount 0 h1 h2 (le_refl 0) (by omega)
    simp only [Option.map_some', Nat.cast_zero]
    rw [this]
    simp
  · have hpos : 0 < (hashTokenRanges shardCount).length := by omega
    have hne := List.ne_nil_of_length_pos hpos
    rw [List.getLast?_eq_getLast _ hne, List.getLast_eq_getElem]
    rw [hget _ (by omega)]
    simp only [Option.map_some']
    have hidx : (((hashTokenRanges shardCount).length - 1 : Nat) : Int) = shardCount - 1 := by
      omega
    rw [hidx, shardMaxHashToken_last]
  · intro i h
    simp only [List.get_eq_getElem]
    rw [hget (i + 1) h, hget i (by omega)]
    have := shardMaxHashToken_succ shardCount i h1 h2 (by omega) (by omega)
    simpa using this
  · intro v
    constructor
    · rintro ⟨hv0, hv1⟩
      obtain ⟨i, hi0, hi1, hlo, hhi⟩ := exists_shard_of_token shardCount v h1 h2 hv0 hv1
      have hlt : i.toNat < (hashTokenRanges shardCount).length := by omega
      refine ⟨(hashTokenRanges shardCount)[i.toNat], List.getElem_mem hlt, ?_⟩
      rw [hget _ hlt, Int.toNat_of_nonneg hi0]
      exact ⟨hlo, hhi⟩
    · rintro ⟨r, hr, hlo, hhi⟩
      obtain ⟨i, hi, rfl⟩ := List.mem_iff_getElem.mp hr
      rw [hget i hi] at hlo hhi
      have hb := shardMinHashToken_bounds shardCount i h1 h2 (by omega) (by omega)
      have hm := shardMaxHashToken_le shardCount i h1 h2 (by omega) (by omega)
      exact ⟨by omega, by omega⟩

/-- Witness for `hashTokenRanges_partition` at `shardCount = 4`. -/
theorem hashTokenRanges_partition_witness :
    (1 : Int) ≤ 4 ∧ (4 : Int) ≤ 2147483647 ∧
    ((hashTokenRanges 4).length : Int) = 4 ∧
    List.Pairwise (fun a b => a.1 < b.1) (hashTokenRanges 4) ∧
    (∀ v : Int, (INT32_MIN ≤ v ∧ v ≤ INT32_MAX) ↔
      ∃ r ∈ hashTokenRanges 4, r.1 ≤ v ∧ v ≤ r.2) :=
  ⟨by decide, by decide,
    (hashTokenRanges_partition 4 (by decide) (by decide)).1,
    (hashTokenRanges_partition 4 (by decide) (by decide)).2.1,
    (hashTokenRanges_partition 4 (by decide) (by decide)).2.2.2.2.2.2.2⟩

/-- Claim C2: for `1 ≤ shardCount ≤ 2^31 - 1` and a shard index `i` in
`[0, shardCount)` the stored increment is `2^32 / shardCount`, the stored
minimum is exactly `INT32_MIN + i * increment`, the stored maximum is exactly
`min + increment - 1` for every shard but the last, and `INT32_MAX` for the
last: the mixed 64-bit arithmetic and the truncation to 32 bits never wrap. -/
theorem hashToken_exact (shardCount shardIndex : Int) (h1 : 1 ≤ shardCount)
    (h2 : shardCount ≤ 2147483647) (h0 : 0 ≤ shardIndex) (hi : shardIndex < shardCount) :
    (hashTokenIncrement shardCount : Int) = 4294967296 / shardCount ∧
    shardMinHashToken (hashTokenIncrement shardCount) shardIndex
      = INT32_MIN + shardIndex * (4294967296 / shardCount) ∧
    (shardIndex < shardCount - 1 →
      shardMaxHashToken (hashTokenIncrement shardCount) shardCount shardIndex
        = shardMinHashToken (hashTokenIncrement shardCount) shardIndex
          + 4294967296 / shardCount - 1) ∧
    (shardIndex = shardCount - 1 →
      shardMaxHashToken (hashTokenIncrement shardCount) shardCount shardIndex = INT32_MAX) :=
  ⟨hashTokenIncrement_eq shardCount h1,
    shardMinHashToken_eq shardCount shardIndex h1 h2 h0 hi,
    fun hlt => shardMaxHashToken_eq shardCount shardIndex h1 h2 h0 hlt,
    fun heq => by rw [heq]; exact shardMaxHashToken_last shardCount⟩

/-- Witness for `hashToken_exact` at `shardCount = 4`, `shardIndex = 1`: the
range is `[-2^30, -1]`. -/
theorem hashToken_exact_witness :
    (1 : Int) ≤ 4 ∧ (4 : Int) ≤ 2147483647 ∧ (0 : Int) ≤ 1 ∧ (1 : Int) < 4 ∧
    ((hashTokenIncrement 4 : Int) = 4294967296 / 4 ∧
    shardMinHashToken (hashTokenIncrement 4) 1 = INT32_MIN + 1 * (4294967296 / 4) ∧
    ((1 : Int) < 4 - 1 →
      shardMaxHashToken (hashTokenIncrement 4) 4 1
        = shardMinHashToken (hashTokenIncrement 4) 1 + 4294967296 / 4 - 1) ∧
    ((1 : Int) = 4 - 1 → shardMaxHashToken (hashTokenIncrement 4) 4 1 = INT32_MAX)) :=
  ⟨by decide, by decide, by decide, by decide,
    hashToken_exact 4 1 (by decide) (by decide) (by decide) (by decide)⟩


/-! ## The precondition checks of `CreateShardsWithRoundRobinPolicy` -/

/-- With the partition type and the ownership checks passed, the function is
the cascade of checks of lines 118-163 followed by the shard loop. -/
theorem roundRobin_checked (env : Env) (distributedTableId : Oid)
    (shardCount replicationFactor : Int) (s : State)
    (hhash : env.PartitionMethod distributedTableId = DISTRIBUTE_BY_HASH)
    (hown : env.callerOwns distributedTableId = true) :
    CreateShardsWithRoundRobinPolicy env distributedTableId shardCount replicationFactor s
      = if LoadShardList s distributedTableId ≠ [] then
          .error (alreadyShardedError (env.get_rel_name distributedTableId))
            (lockedState distributedTableId s)
        else if shardCount ≤ 0 then .error shardCountError (lockedState distributedTableId s)
        else if replicationFactor ≤ 0 then
          .error replicationFactorError (lockedState distributedTableId s)
        else if replicationFactor > ((SortList (WorkerNodeList env)).length : Int) then
          .error (insufficientWorkersError replicationFactor
            ((SortList (WorkerNodeList env)).length : Int))
            (HOLD_INTERRUPTS (lockedState distributedTableId s))
        else finishRoundRobin
          (roundRobinShardLoop env distributedTableId shardCount replicationFactor
            (hashTokenIncrement shardCount) (env.GetTableDDLEvents distributedTableId)
            (env.TableOwner distributedTableId) (SortList (WorkerNodeList env))
            ((SortList (WorkerNodeList env)).length : Int)
            (env.ShardStorageType distributedTableId) shardCount.toNat 0
            (HOLD_INTERRUPTS (lockedState distributedTableId s))) := by
  simp only [CreateShardsWithRoundRobinPolicy, CheckHashPartitionedTable, EnsureTableOwner, hhash,
    hown, ne_eq, not_true_eq_false, if_false, if_true]
  rfl

/-- A table that is not hash partitioned is rejected before anything else. -/
theorem roundRobin_notHash (env : Env) (distributedTableId : Oid)
    (shardCount replicationFactor : Int) (s : State)
    (hhash : env.PartitionMethod distributedTableId ≠ DISTRIBUTE_BY_HASH) :
    CreateShardsWithRoundRobinPolicy env distributedTableId shardCount replicationFactor s
      = .error ⟨.ERRCODE_FEATURE_NOT_SUPPORTED, "unsupported table partition type: "
          ++ (env.PartitionMethod distributedTableId).toString, none⟩ s := by
  simp only [CreateShardsWithRoundRobinPolicy, CheckHashPartitionedTable, ne_eq, hhash,
    not_false_eq_true, if_true]

/-- A table that the caller does not own is rejected before any lock is taken. -/
theorem roundRobin_notOwner (env : Env) (distributedTableId : Oid)
    (shardCount replicationFactor : Int) (s : State)
    (hhash : env.PartitionMethod distributedTableId = DISTRIBUTE_BY_HASH)
    (hown : env.callerOwns distributedTableId ≠ true) :
    CreateShardsWithRoundRobinPolicy env distributedTableId shardCount replicationFactor s
      = .error ⟨.ERRCODE_INSUFFICIENT_PRIVILEGE,
          "must be owner of relation " ++ env.get_rel_name distributedTableId, none⟩ s := by
  simp only [CreateShardsWithRoundRobinPolicy, CheckHashPartitionedTable, EnsureTableOwner, hhash,
    ne_eq, not_true_eq_false, if_false]
  rw [if_neg hown]


/-- Taking the metadata lock of the table touches neither catalog, nor the shard
id sequence, nor any worker. -/
theorem untouched_lockedState (distributedTableId : Oid) (s : State) :
    Untouched s (lockedState distributedTableId s) :=
  ⟨rfl, rfl, rfl, rfl, rfl, rfl⟩

/-- Holding interrupts touches neither catalog, nor the shard id sequence, nor
any worker. -/
theorem untouched_holdInterrupts (distributedTableId : Oid) (s : State) :
    Untouched s (HOLD_INTERRUPTS (lockedState distributedTableId s)) :=
  ⟨rfl, rfl, rfl, rfl, rfl, rfl⟩

/-- Counterexample to claim C3 as stated: with two workers, `shardCount = 0` and
`replicationFactor = 5` the replication factor exceeds the worker count, yet
the call fails with "shard_count must be positive", not with the
insufficient-workers error. -/
theorem insufficientWorkers_masked_by_shardCount :
    (5 : Int) > ((SortList (WorkerNodeList exampleEnv)).length : Int) ∧
    CreateShardsWithRoundRobinPolicy exampleEnv 1 0 5 emptyState
      = .error shardCountError (lockedState 1 emptyState) ∧
    shardCountError ≠ insufficientWorkersError 5 2 := by
  decide

/-- Claim C3, amended: every call with `replicationFactor > workerCount` fails,
and at the point of failure no shard id has been allocated, no DDL has been
issued and no shard or placement row has been written; the error is the
insufficient-workers error whenever the earlier checks pass (hash partitioned,
owned by the caller, no existing shards, both arguments positive). -/
theorem insufficientWorkers_rejected (env : Env) (distributedTableId : Oid)
    (shardCount replicationFactor : Int) (s : State)
    (h : replicationFactor > ((SortList (WorkerNodeList env)).length : Int)) :
    (∃ e s', CreateShardsWithRoundRobinPolicy env distributedTableId shardCount
        replicationFactor s = .error e s' ∧ Untouched s s') ∧
    (env.PartitionMethod distributedTableId = DISTRIBUTE_BY_HASH →
      env.callerOwns distributedTableId = true →
      LoadShardList s distributedTableId = [] → 0 < shardCount → 0 < replicationFactor →
      CreateShardsWithRoundRobinPolicy env distributedTableId shardCount replicationFactor s
        = .error (insufficientWorkersError replicationFactor
            ((SortList (WorkerNodeList env)).length : Int))
          (HOLD_INTERRUPTS (lockedState distributedTableId s))) := by
  constructor
  · by_cases hhash : env.PartitionMethod distributedTableId = DISTRIBUTE_BY_HASH
    · by_cases hown : env.callerOwns distributedTableId = true
      · rw [roundRobin_checked env distributedTableId shardCount replicationFactor s hhash hown]
        by_cases hex : LoadShardList s distributedTableId ≠ []
        · rw [if_pos hex]
          exact ⟨_, _, rfl, untouched_lockedState distributedTableId s⟩
        · rw [if_neg hex]
          by_cases hsc : shardCount ≤ 0
          · rw [if_pos hsc]
            exact ⟨_, _, rfl, untouched_lockedState distributedTableId s⟩
          · rw [if_neg hsc]
            by_cases hrf : replicationFactor ≤ 0
            · rw [if_pos hrf]
              exact ⟨_, _, rfl, untouched_lockedState distributedTableId s⟩
            · rw [if_neg hrf, if_pos h]
              exact ⟨_, _, rfl, untouched_holdInterrupts distributedTableId s⟩
      · rw [roundRobin_notOwner env distributedTableId shardCount replicationFactor s hhash hown]
        exact ⟨_, _, rfl, rfl, rfl, rfl, rfl, rfl, rfl⟩
    · rw [roundRobin_notHash env distributedTableId shardCount replicationFactor s hhash]
      exact ⟨_, _, rfl, rfl, rfl, rfl, rfl, rfl, rfl⟩
  · intro hhash hown hex hsc hrf
    rw [roundRobin_checked env distributedTableId shardCount replicationFactor s hhash hown,
      if_neg (by simp [hex]), if_neg (by omega), if_neg (by omega), if_pos h]

/-- Witness for `insufficientWorkers_rejected`: three replicas on a cluster of
two workers. -/
theorem insufficientWorkers_rejected_witness :
    (3 : Int) > ((SortList (WorkerNodeList exampleEnv)).length : Int) ∧
    CreateShardsWithRoundRobinPolicy exampleEnv 1 4 3 emptyState
      = .error (insufficientWorkersError 3 ((SortList (WorkerNodeList exampleEnv)).length : Int))
          (HOLD_INTERRUPTS (lockedState 1 emptyState)) :=
  ⟨by decide,
    (insufficientWorkers_rejected exampleEnv 1 4 3 emptyState (by decide)).2
      (by decide) (by decide) (by decide) (by decide) (by decide)⟩

/-- Counterexample to claim C7 as stated: on a table that already has a shard,
`shardCount = 0` is answered with the already-sharded error, not with
"shard_count must be positive": the existing-shards check comes first. -/
theorem shardCount_masked_by_alreadySharded :
    exampleEnv.PartitionMethod 1 = DISTRIBUTE_BY_HASH ∧ exampleEnv.callerOwns 1 = true ∧
    CreateShardsWithRoundRobinPolicy exampleEnv 1 0 1 shardedState
      = .error (alreadyShardedError "orders") (lockedState 1 shardedState) ∧
    alreadyShardedError "orders" ≠ shardCountError := by
  decide

/-- Claim C7, amended: for a hash-partitioned table owned by the caller that has
no shards, `shardCount ≤ 0` fails with "shard_count must be positive" and
`shardCount > 0` with `replicationFactor ≤ 0` fails with "replication_factor
must be positive"; the existing-shards check takes effect before the argument
checks, so a table with shards yields the already-sharded error whatever the
arguments; in each of these failures only the table lock has been taken: no
shard id is allocated and no metadata row is written. -/
theorem argumentChecks_follow_existingShards (env : Env) (distributedTableId : Oid)
    (shardCount replicationFactor : Int) (s : State)
    (hhash : env.PartitionMethod distributedTableId = DISTRIBUTE_BY_HASH)
    (hown : env.callerOwns distributedTableId = true) :
    (LoadShardList s distributedTableId = [] → shardCount ≤ 0 →
      CreateShardsWithRoundRobinPolicy env distributedTableId shardCount replicationFactor s
        = .error shardCountError (lockedState distributedTableId s)) ∧
    (LoadShardList s distributedTableId = [] → 0 < shardCount → replicationFactor ≤ 0 →
      CreateShardsWithRoundRobinPolicy env distributedTableId shardCount replicationFactor s
        = .error replicationFactorError (lockedState distributedTableId s)) ∧
    (LoadShardList s distributedTableId ≠ [] →
      CreateShardsWithRoundRobinPolicy env distributedTableId shardCount replicationFactor s
        = .error (alreadyShardedError (env.get_rel_name distributedTableId))
            (lockedState distributedTableId s)) ∧
    Untouched s (lockedState distributedTableId s) := by
  rw [roundRobin_checked env distributedTableId shardCount replicationFactor s hhash hown]
  refine ⟨?_, ?_, ?_, untouched_lockedState distributedTableId s⟩
  · intro hex hsc
    rw [if_neg (by simp [hex]), if_pos hsc]
  · intro hex hsc hrf
    rw [if_neg (by simp [hex]), if_neg (by omega), if_pos hrf]
  · intro hex
    rw [if_pos hex]

/-- Witness for `argumentChecks_follow_existingShards`: `shardCount = 0` on a
table without shards. -/
theorem argumentChecks_follow_existingShards_witness :
    exampleEnv.PartitionMethod 1 = DISTRIBUTE_BY_HASH ∧ exampleEnv.callerOwns 1 = true ∧
    CreateShardsWithRoundRobinPolicy exampleEnv 1 0 2 emptyState
      = .error shardCountError (lockedState 1 emptyState) :=
  ⟨by decide, by decide,
    (argumentChecks_follow_existingShards exampleEnv 1 0 2 emptyState (by decide) (by decide)).1
      (by decide) (by decide)⟩


/-! ## The physical creator -/

/-- The walk over the candidates only sends commands and emits warnings. -/
theorem attemptPlacements_state (env : Env) (relationId : Oid) (shardId : Nat)
    (ddlEventList : List String) (newPlacementOwner : String) (required : Nat)
    (candidates created : List WorkerNode) (s : State) :
    ∃ cmds warns,
      (attemptPlacements env relationId shardId ddlEventList newPlacementOwner required
        candidates created s).2
      = { s with workerCommands := s.workerCommands ++ cmds, warnings := s.warnings ++ warns } := by
  induction candidates generalizing created s with
  | nil => exact ⟨[], [], by simp [attemptPlacements]⟩
  | cons w rest ih =>
    unfold attemptPlacements
    by_cases hreq : required ≤ created.length
    · rw [if_pos hreq]
      exact ⟨[], [], by simp⟩
    · rw [if_neg hreq]
      cases hc : env.shardCreated w.workerName w.workerPort shardId
      · simp only [WorkerCreateShard, hc]
        obtain ⟨cmds, warns, h⟩ := ih created
          { s with
            workerCommands := s.workerCommands ++
              [⟨w.workerName, w.workerPort, relationId, shardId, -1, newPlacementOwner,
                ddlEventList, env.GetTableForeignConstraintCommands relationId⟩]
            warnings := s.warnings ++
              ["could not create shard on \"" ++ w.workerName ++ ":" ++ toString w.workerPort
                ++ "\""] }
        refine ⟨[⟨w.workerName, w.workerPort, relationId, shardId, -1, newPlacementOwner,
          ddlEventList, env.GetTableForeignConstraintCommands relationId⟩] ++ cmds,
          ["could not create shard on \"" ++ w.workerName ++ ":" ++ toString w.workerPort
            ++ "\""] ++ warns, ?_⟩
        rw [h]
        simp only [List.append_assoc]
      · simp only [WorkerCreateShard, hc]
        obtain ⟨cmds, warns, h⟩ := ih (created ++ [w])
          { s with
            workerCommands := s.workerCommands ++
              [⟨w.workerName, w.workerPort, relationId, shardId, -1, newPlacementOwner,
                ddlEventList, env.GetTableForeignConstraintCommands relationId⟩] }
        refine ⟨[⟨w.workerName, w.workerPort, relationId, shardId, -1, newPlacementOwner,
          ddlEventList, env.GetTableForeignConstraintCommands relationId⟩] ++ cmds, warns, ?_⟩
        rw [h]
        simp only [List.append_assoc]

/-- The workers reported as created extend the given ones by candidates, in
the order of the walk. -/
theorem attemptPlacements_created (env : Env) (relationId : Oid) (shardId : Nat)
    (ddlEventList : List String) (newPlacementOwner : String) (required : Nat)
    (candidates created : List WorkerNode) (s : State) :
    ∃ more : List WorkerNode,
      (attemptPlacements env relationId shardId ddlEventList newPlacementOwner required
        candidates created s).1 = created ++ more ∧ more.Sublist candidates := by
  induction candidates generalizing created s with
  | nil => exact ⟨[], by simp [attemptPlacements], List.Sublist.refl _⟩
  | cons w rest ih =>
    unfold attemptPlacements
    by_cases hreq : required ≤ created.length
    · rw [if_pos hreq]
      exact ⟨[], by simp, List.nil_sublist _⟩
    · rw [if_neg hreq]
      cases hc : env.shardCreated w.workerName w.workerPort shardId
      · simp only [WorkerCreateShard, hc]
        obtain ⟨more, h, hsub⟩ := ih created
          { s with
            workerCommands := s.workerCommands ++
              [⟨w.workerName, w.workerPort, relationId, shardId, -1, newPlacementOwner,
                ddlEventList, env.GetTableForeignConstraintCommands relationId⟩]
            warnings := s.warnings ++
              ["could not create shard on \"" ++ w.workerName ++ ":" ++ toString w.workerPort
                ++ "\""] }
        exact ⟨more, h, hsub.cons w⟩
      · simp only [WorkerCreateShard, hc]
        obtain ⟨more, h, hsub⟩ := ih (created ++ [w])
          { s with
            workerCommands := s.workerCommands ++
              [⟨w.workerName, w.workerPort, relationId, shardId, -1, newPlacementOwner,
                ddlEventList, env.GetTableForeignConstraintCommands relationId⟩] }
        exact ⟨w :: more, by rw [h]; simp, hsub.cons₂ w⟩

/-- The walk stops as soon as the required number of replicas exists. -/
theorem attemptPlacements_length (env : Env) (relationId : Oid) (shardId : Nat)
    (ddlEventList : List String) (newPlacementOwner : String) (required : Nat)
    (candidates created : List WorkerNode) (s : State) (h : created.length ≤ required) :
    (attemptPlacements env relationId shardId ddlEventList newPlacementOwner required
      candidates created s).1.length ≤ required := by
  induction candidates generalizing created s with
  | nil => simpa [attemptPlacements] using h
  | cons w rest ih =>
    unfold attemptPlacements
    by_cases hreq : required ≤ created.length
    · rw [if_pos hreq]
      exact h
    · rw [if_neg hreq]
      cases hc : env.shardCreated w.workerName w.workerPort shardId
      · simp only [WorkerCreateShard, hc]
        exact ih created _ h
      · simp only [WorkerCreateShard, hc]
        exact ih (created ++ [w]) _ (by simp; omega)

/-- Writing the placement rows of a shard appends one row per worker and one
snapshot per row. -/
theorem insertPlacementRows_state (shardId : Nat) (created : List WorkerNode) (s : State) :
    insertPlacementRows shardId created s
      = { s with
          placementRows := s.placementRows ++ created.map (placementRowOf shardId)
          history := s.history ++ placementSnapshots s.shardRows shardId s.placementRows created } := by
  induction created generalizing s with
  | nil => simp [insertPlacementRows, placementSnapshots]
  | cons w rest ih =>
    unfold insertPlacementRows
    rw [ih]
    simp [InsertShardPlacementRow, placementSnapshots, placementRowOf]


/-- A call of `CreateShardPlacements` either returns with exactly
`replicationFactor` placement rows written for the shard, or fails without
having written any row; it never has undefined behaviour. -/
theorem CreateShardPlacements_cases (env : Env) (relationId : Oid) (shardId : Nat)
    (ddlEventList : List String) (newPlacementOwner : String)
    (workerNodeList : List WorkerNode) (workerStartIndex replicationFactor : Int) (s : State) :
    (∃ s', CreateShardPlacements env relationId shardId ddlEventList newPlacementOwner
        workerNodeList workerStartIndex replicationFactor s = .ok () s' ∧
      PlacementsCreated shardId workerNodeList workerStartIndex replicationFactor s s') ∨
    (∃ e s', CreateShardPlacements env relationId shardId ddlEventList newPlacementOwner
        workerNodeList workerStartIndex replicationFactor s = .error e s' ∧
      PlacementsFailed shardId workerStartIndex replicationFactor s s') := by
  have hstate := attemptPlacements_state env relationId shardId ddlEventList newPlacementOwner
    replicationFactor.toNat
    (placementCandidates workerNodeList workerStartIndex replicationFactor) []
    { s with placementCalls :=
        s.placementCalls ++ [⟨shardId, workerStartIndex, replicationFactor⟩] }
  have hcreated := attemptPlacements_created env relationId shardId ddlEventList
    newPlacementOwner replicationFactor.toNat
    (placementCandidates workerNodeList workerStartIndex replicationFactor) []
    { s with placementCalls :=
        s.placementCalls ++ [⟨shardId, workerStartIndex, replicationFactor⟩] }
  have hlen := attemptPlacements_length env relationId shardId ddlEventList newPlacementOwner
    replicationFactor.toNat
    (placementCandidates workerNodeList workerStartIndex replicationFactor) []
    { s with placementCalls :=
        s.placementCalls ++ [⟨shardId, workerStartIndex, replicationFactor⟩] }
    (Nat.zero_le _)
  unfold CreateShardPlacements
  generalize attemptPlacements env relationId shardId ddlEventList newPlacementOwner
    replicationFactor.toNat
    (placementCandidates workerNodeList workerStartIndex replicationFactor) []
    { s with placementCalls :=
        s.placementCalls ++ [⟨shardId, workerStartIndex, replicationFactor⟩] } = res at *
  obtain ⟨created, s1⟩ := res
  obtain ⟨cmds, warns, hs1⟩ := hstate
  obtain ⟨more, hmore, hsub⟩ := hcreated
  simp only at hs1 hmore hlen ⊢
  rw [List.nil_append] at hmore
  subst hmore
  subst hs1
  by_cases hlt : created.length < replicationFactor.toNat
  · right
    rw [if_pos hlt]
    exact ⟨_, _, rfl, ⟨rfl, rfl, rfl, rfl, rfl⟩⟩
  · left
    rw [if_neg hlt]
    refine ⟨_, rfl, ?_⟩
    rw [insertPlacementRows_state]
    exact ⟨rfl, rfl, rfl, rfl, rfl, rfl, ⟨cmds, rfl⟩, ⟨created, by omega, hsub, rfl, rfl⟩⟩


/-! ## The shard loop of `CreateShardsWithRoundRobinPolicy` -/

/-- One iteration of the loop, for a non-empty roster. -/
theorem roundRobinShardLoop_succ (env : Env) (distributedTableId : Oid)
    (shardCount replicationFactor : Int) (increment : Nat) (ddlCommandList : List String)
    (relationOwner : String) (workerNodeList : List WorkerNode) (workerNodeCount : Int)
    (shardStorageType : Char) (remaining : Nat) (shardIndex : Int) (s : State)
    (hW : workerNodeCount ≠ 0) :
    roundRobinShardLoop env distributedTableId shardCount replicationFactor increment
        ddlCommandList relationOwner workerNodeList workerNodeCount shardStorageType
        (remaining + 1) shardIndex s
      = match CreateShardPlacements env distributedTableId s.nextShardId ddlCommandList
            relationOwner workerNodeList
            (toInt32 (toUInt32 (Int.tmod shardIndex workerNodeCount))) replicationFactor
            (beforePlacements env shardIndex s) with
        | .error e s3 => .error e s3
        | .undefined s3 => .undefined s3
        | .ok _ s3 =>
          roundRobinShardLoop env distributedTableId shardCount replicationFactor increment
            ddlCommandList relationOwner workerNodeList workerNodeCount shardStorageType
            remaining (shardIndex + 1)
            (InsertShardRow distributedTableId s.nextShardId shardStorageType
              (roundRobinShardRow distributedTableId shardCount increment shardStorageType
                s.nextShardId shardIndex).shardMinValue
              (roundRobinShardRow distributedTableId shardCount increment shardStorageType
                s.nextShardId shardIndex).shardMaxValue s3) := by
  rw [roundRobinShardLoop]
  simp only [roundRobinNodeIndex, if_neg hW]
  rfl

/-- The start index handed to the physical creator is `shardIndex mod
workerNodeCount`: neither conversion changes the value. -/
theorem startIndex_eq_mod (shardIndex workerNodeCount : Int) (h0 : 0 ≤ shardIndex)
    (h1 : shardIndex ≤ 2147483647) (hW : 1 ≤ workerNodeCount) :
    toInt32 (toUInt32 (Int.tmod shardIndex workerNodeCount)) = shardIndex % workerNodeCount := by
  rw [Int.tmod_eq_emod h0 (by omega)]
  have hlt : shardIndex % workerNodeCount < workerNodeCount := Int.emod_lt_of_pos _ (by omega)
  have hnn : 0 ≤ shardIndex % workerNodeCount := Int.emod_nonneg _ (by omega)
  have hle : shardIndex % workerNodeCount ≤ shardIndex := by
    have hq : 0 ≤ shardIndex / workerNodeCount := Int.ediv_nonneg h0 (by omega)
    have hm : 0 ≤ workerNodeCount * (shardIndex / workerNodeCount) :=
      Int.mul_nonneg (by omega) hq
    rw [Int.emod_def]
    omega
  unfold toInt32 toUInt32
  generalize shardIndex % workerNodeCount = m at *
  split <;> omega


/-- The expected calls, one iteration peeled off. -/
theorem roundRobinCalls_succ (firstShardId : Nat) (firstIndex workerNodeCount : Int)
    (replicationFactor : Int) (k : Nat) :
    roundRobinCalls firstShardId firstIndex workerNodeCount replicationFactor (k + 1)
      = ⟨firstShardId, firstIndex % workerNodeCount, replicationFactor⟩ ::
        roundRobinCalls (firstShardId + 1) (firstIndex + 1) workerNodeCount replicationFactor k := by
  unfold roundRobinCalls
  rw [List.range_succ_eq_map, List.map_cons, List.map_map]
  simp only [Nat.cast_zero, add_zero, List.cons.injEq, true_and]
  apply List.map_congr_left
  intro j _
  simp only [Function.comp_apply, Nat.cast_succ, PlacementCall.mk.injEq, and_true]
  constructor
  · omega
  · congr 1
    omega

/-- The loop never divides by zero, and the calls of `CreateShardPlacements` it
makes are the expected ones: all of them when it returns, an initial segment
when it fails. -/
theorem roundRobinShardLoop_calls (env : Env) (distributedTableId : Oid)
    (shardCount replicationFactor : Int) (increment : Nat) (ddlCommandList : List String)
    (relationOwner : String) (workerNodeList : List WorkerNode) (workerNodeCount : Int)
    (shardStorageType : Char) (hW : 1 ≤ workerNodeCount) (remaining : Nat) (shardIndex : Int)
    (s : State) (h0 : 0 ≤ shardIndex) (h1 : shardIndex + remaining ≤ 2147483648) :
    (∀ s', roundRobinShardLoop env distributedTableId shardCount replicationFactor increment
        ddlCommandList relationOwner workerNodeList workerNodeCount shardStorageType
        remaining shardIndex s ≠ .undefined s') ∧
    ∃ k, k ≤ remaining ∧
      (roundRobinShardLoop env distributedTableId shardCount replicationFactor increment
        ddlCommandList relationOwner workerNodeList workerNodeCount shardStorageType
        remaining shardIndex s).state.placementCalls
        = s.placementCalls
          ++ roundRobinCalls s.nextShardId shardIndex workerNodeCount replicationFactor k ∧
      (∀ s', roundRobinShardLoop env distributedTableId shardCount replicationFactor increment
        ddlCommandList relationOwner workerNodeList workerNodeCount shardStorageType
        remaining shardIndex s = .ok () s' → k = remaining) := by
  induction remaining generalizing shardIndex s with
  | zero =>
    refine ⟨fun s' h => by simp [roundRobinShardLoop] at h, 0, le_refl 0, ?_, fun _ _ => rfl⟩
    simp [roundRobinShardLoop, Outcome.state, roundRobinCalls]
  | succ n ih =>
    rw [roundRobinShardLoop_succ _ _ _ _ _ _ _ _ _ _ _ _ _ (by omega),
      startIndex_eq_mod shardIndex workerNodeCount h0 (by omega) hW]
    rcases CreateShardPlacements_cases env distributedTableId s.nextShardId ddlCommandList
      relationOwner workerNodeList (shardIndex % workerNodeCount) replicationFactor
      (beforePlacements env shardIndex s) with ⟨s3, hok, hc⟩ | ⟨e, s3, herr, hf⟩
    · rw [hok]
      simp only
      obtain ⟨hund, k, hk, hcalls, hfull⟩ := ih (shardIndex + 1)
        (InsertShardRow distributedTableId s.nextShardId shardStorageType
          (roundRobinShardRow distributedTableId shardCount increment shardStorageType
            s.nextShardId shardIndex).shardMinValue
          (roundRobinShardRow distributedTableId shardCount increment shardStorageType
            s.nextShardId shardIndex).shardMaxValue s3) (by omega) (by push_cast at h1 ⊢; omega)
      refine ⟨hund, k + 1, by omega, ?_, fun s' h => by rw [hfull s' h]⟩
      rw [hcalls, roundRobinCalls_succ]
      have h1 : (InsertShardRow distributedTableId s.nextShardId shardStorageType
          (roundRobinShardRow distributedTableId shardCount increment shardStorageType
            s.nextShardId shardIndex).shardMinValue
          (roundRobinShardRow distributedTableId shardCount increment shardStorageType
            s.nextShardId shardIndex).shardMaxValue s3).placementCalls = s3.placementCalls := rfl
      have h2 : (InsertShardRow distributedTableId s.nextShardId shardStorageType
          (roundRobinShardRow distributedTableId shardCount increment shardStorageType
            s.nextShardId shardIndex).shardMinValue
          (roundRobinShardRow distributedTableId shardCount increment shardStorageType
            s.nextShardId shardIndex).shardMaxValue s3).nextShardId = s3.nextShardId := rfl
      have h3 : (beforePlacements env shardIndex s).placementCalls = s.placementCalls := rfl
      have h4 : (beforePlacements env shardIndex s).nextShardId = s.nextShardId + 1 := rfl
      rw [h1, h2, hc.placementCalls, hc.nextShardId, h3, h4]
      simp
    · rw [herr]
      simp only
      refine ⟨fun s' h => by simp at h, 1, by omega, ?_, fun s' h => by simp at h⟩
      have h3 : (beforePlacements env shardIndex s).placementCalls = s.placementCalls := rfl
      simp only [Outcome.state]
      rw [hf.placementCalls, h3, roundRobinCalls_succ]
      simp [roundRobinCalls]


/-- The epilogue of lines 211-217 makes no call of `CreateShardPlacements`. -/
theorem finishRoundRobin_placementCalls (o : Outcome Unit) :
    (finishRoundRobin o).state.placementCalls = o.state.placementCalls := by
  cases o with
  | ok v s =>
    simp only [finishRoundRobin, Outcome.state, RESUME_INTERRUPTS]
    split <;> rfl
  | error e s => rfl
  | undefined s => rfl

/-- The epilogue returns exactly when the loop did. -/
theorem finishRoundRobin_ok (o : Outcome Unit) (s' : State)
    (h : finishRoundRobin o = .ok () s') : ∃ s5, o = .ok () s5 := by
  cases o with
  | ok v s => exact ⟨s, rfl⟩
  | error e s => simp [finishRoundRobin] at h
  | undefined s => simp [finishRoundRobin] at h

/-- The epilogue has undefined behaviour only if the loop had. -/
theorem finishRoundRobin_undefined (o : Outcome Unit) (s' : State)
    (h : finishRoundRobin o = .undefined s') : o = .undefined s' := by
  cases o with
  | ok v s => simp [finishRoundRobin] at h
  | error e s => simp [finishRoundRobin] at h
  | undefined s => simpa [finishRoundRobin] using h

/-- With all checks passed the function is the loop followed by the epilogue. -/
theorem roundRobin_reaches_loop (env : Env) (distributedTableId : Oid)
    (shardCount replicationFactor : Int) (s : State)
    (hhash : env.PartitionMethod distributedTableId = DISTRIBUTE_BY_HASH)
    (hown : env.callerOwns distributedTableId = true)
    (hex : LoadShardList s distributedTableId = []) (hsc : 0 < shardCount)
    (hrf : 0 < replicationFactor)
    (hW : replicationFactor ≤ ((SortList (WorkerNodeList env)).length : Int)) :
    CreateShardsWithRoundRobinPolicy env distributedTableId shardCount replicationFactor s
      = finishRoundRobin
          (roundRobinShardLoop env distributedTableId shardCount replicationFactor
            (hashTokenIncrement shardCount) (env.GetTableDDLEvents distributedTableId)
            (env.TableOwner distributedTableId) (SortList (WorkerNodeList env))
            ((SortList (WorkerNodeList env)).length : Int)
            (env.ShardStorageType distributedTableId) shardCount.toNat 0
            (HOLD_INTERRUPTS (lockedState distributedTableId s))) := by
  rw [roundRobin_checked env distributedTableId shardCount replicationFactor s hhash hown,
    if_neg (by simp [hex]), if_neg (by omega), if_neg (by omega), if_neg (by omega)]

/-- Claim C9: in every run of `CreateShardsWithRoundRobinPolicy` that reaches the
shard loop with `W` workers, `W ≥ 1`, the remainder by `W` is never taken with a
zero divisor (no undefined behaviour), and the `i`-th call of
`CreateShardPlacements` made by the run receives the start index `i mod W`,
which lies in `[0, W)`; a run that returns has made `shardCount` such calls. -/
theorem roundRobin_startIndex (env : Env) (distributedTableId : Oid)
    (shardCount replicationFactor : Int) (s : State)
    (hhash : env.PartitionMethod distributedTableId = DISTRIBUTE_BY_HASH)
    (hown : env.callerOwns distributedTableId = true)
    (hex : LoadShardList s distributedTableId = []) (hsc : 0 < shardCount)
    (hmax : shardCount ≤ 2147483647) (hrf : 0 < replicationFactor)
    (hW : replicationFactor ≤ ((SortList (WorkerNodeList env)).length : Int)) :
    1 ≤ ((SortList (WorkerNodeList env)).length : Int) ∧
    (∀ s', CreateShardsWithRoundRobinPolicy env distributedTableId shardCount
      replicationFactor s ≠ .undefined s') ∧
    (∀ (i : Nat) (h : i < ((CreateShardsWithRoundRobinPolicy env distributedTableId shardCount
        replicationFactor s).state.placementCalls.drop s.placementCalls.length).length),
      (((CreateShardsWithRoundRobinPolicy env distributedTableId shardCount
        replicationFactor s).state.placementCalls.drop s.placementCalls.length).get
          ⟨i, h⟩).workerStartIndex = (i : Int) % ((SortList (WorkerNodeList env)).length : Int) ∧
      0 ≤ (i : Int) % ((SortList (WorkerNodeList env)).length : Int) ∧
      (i : Int) % ((SortList (WorkerNodeList env)).length : Int)
        < ((SortList (WorkerNodeList env)).length : Int)) ∧
    (∀ s', CreateShardsWithRoundRobinPolicy env distributedTableId shardCount
        replicationFactor s = .ok () s' →
      (s'.placementCalls.drop s.placementCalls.length).length = shardCount.toNat) := by
  have hW1 : 1 ≤ ((SortList (WorkerNodeList env)).length : Int) := by omega
  rw [roundRobin_reaches_loop env distributedTableId shardCount replicationFactor s hhash hown
    hex hsc hrf hW]
  obtain ⟨hund, k, hk, hcalls, hfull⟩ := roundRobinShardLoop_calls env distributedTableId
    shardCount replicationFactor (hashTokenIncrement shardCount)
    (env.GetTableDDLEvents distributedTableId) (env.TableOwner distributedTableId)
    (SortList (WorkerNodeList env)) ((SortList (WorkerNodeList env)).length : Int)
    (env.ShardStorageType distributedTableId) hW1 shardCount.toNat 0
    (HOLD_INTERRUPTS (lockedState distributedTableId s)) (le_refl 0) (by omega)
  have hcalls' : (HOLD_INTERRUPTS (lockedState distributedTableId s)).placementCalls
      = s.placementCalls := rfl
  rw [hcalls'] at hcalls
  refine ⟨hW1, fun s' h => hund s' (finishRoundRobin_undefined _ s' h), ?_, ?_⟩
  · intro i h
    have hdrop : (finishRoundRobin (roundRobinShardLoop env distributedTableId shardCount
        replicationFactor (hashTokenIncrement shardCount)
        (env.GetTableDDLEvents distributedTableId) (env.TableOwner distributedTableId)
        (SortList (WorkerNodeList env)) ((SortList (WorkerNodeList env)).length : Int)
        (env.ShardStorageType distributedTableId) shardCount.toNat 0
        (HOLD_INTERRUPTS (lockedState distributedTableId s)))).state.placementCalls.drop
          s.placementCalls.length
        = roundRobinCalls (HOLD_INTERRUPTS (lockedState distributedTableId s)).nextShardId 0
            ((SortList (WorkerNodeList env)).length : Int) replicationFactor k := by
      rw [finishRoundRobin_placementCalls, hcalls, List.drop_left]
    refine ⟨?_, Int.emod_nonneg _ (by omega), Int.emod_lt_of_pos _ (by omega)⟩
    simp only [List.get_eq_getElem]
    simp only [hdrop]
    simp [roundRobinCalls]
  · intro s' hs'
    obtain ⟨s5, hs5⟩ := finishRoundRobin_ok _ s' hs'
    have hk' := hfull s5 hs5
    have h1 : s'.placementCalls = (finishRoundRobin (roundRobinShardLoop env distributedTableId
        shardCount replicationFactor (hashTokenIncrement shardCount)
        (env.GetTableDDLEvents distributedTableId) (env.TableOwner distributedTableId)
        (SortList (WorkerNodeList env)) ((SortList (WorkerNodeList env)).length : Int)
        (env.ShardStorageType distributedTableId) shardCount.toNat 0
        (HOLD_INTERRUPTS (lockedState distributedTableId s)))).state.placementCalls := by
      rw [hs']
      rfl
    rw [h1, finishRoundRobin_placementCalls, hcalls, List.drop_left]
    simp [roundRobinCalls, hk']


/-- Witness for `roundRobin_startIndex`: three shards with one replica on the
cluster of two workers. -/
theorem roundRobin_startIndex_witness :
    exampleEnv.PartitionMethod 1 = DISTRIBUTE_BY_HASH ∧ exampleEnv.callerOwns 1 = true ∧
    LoadShardList emptyState 1 = [] ∧ (0 : Int) < 3 ∧ (3 : Int) ≤ 2147483647 ∧ (0 : Int) < 1 ∧
    (1 : Int) ≤ ((SortList (WorkerNodeList exampleEnv)).length : Int) ∧
    (∀ s', CreateShardsWithRoundRobinPolicy exampleEnv 1 3 1 emptyState ≠ .undefined s') ∧
    (∀ s', CreateShardsWithRoundRobinPolicy exampleEnv 1 3 1 emptyState = .ok () s' →
      (s'.placementCalls.drop emptyState.placementCalls.length).length = (3 : Int).toNat) :=
  ⟨by decide, by decide, by decide, by decide, by decide, by decide, by decide,
    (roundRobin_startIndex exampleEnv 1 3 1 emptyState (by decide) (by decide) (by decide)
      (by decide) (by decide) (by decide) (by decide)).2.1,
    (roundRobin_startIndex exampleEnv 1 3 1 emptyState (by decide) (by decide) (by decide)
      (by decide) (by decide) (by decide) (by decide)).2.2.2⟩

/-- A loop that returns has written one shard row per shard index, in order,
with consecutive shard ids. -/
theorem roundRobinShardLoop_ok_rows (env : Env) (distributedTableId : Oid)
    (shardCount replicationFactor : Int) (increment : Nat) (ddlCommandList : List String)
    (relationOwner : String) (workerNodeList : List WorkerNode) (workerNodeCount : Int)
    (shardStorageType : Char) (hW : workerNodeCount ≠ 0) (remaining : Nat) (shardIndex : Int)
    (s s' : State)
    (h : roundRobinShardLoop env distributedTableId shardCount replicationFactor increment
      ddlCommandList relationOwner workerNodeList workerNodeCount shardStorageType
      remaining shardIndex s = .ok () s') :
    s'.shardRows = s.shardRows ++ (List.range remaining).map
      (fun (j : Nat) => roundRobinShardRow distributedTableId shardCount increment
        shardStorageType (s.nextShardId + j) (shardIndex + (j : Int))) ∧
    s'.nextShardId = s.nextShardId + remaining := by
  induction remaining generalizing shardIndex s with
  | zero =>
    simp only [roundRobinShardLoop, Outcome.ok.injEq, true_and] at h
    subst h
    simp
  | succ n ih =>
    rw [roundRobinShardLoop_succ _ _ _ _ _ _ _ _ _ _ _ _ _ hW] at h
    rcases CreateShardPlacements_cases env distributedTableId s.nextShardId ddlCommandList
      relationOwner workerNodeList (toInt32 (toUInt32 (Int.tmod shardIndex workerNodeCount)))
      replicationFactor (beforePlacements env shardIndex s) with ⟨s3, hok, hc⟩ | ⟨e, s3, herr, _⟩
    · rw [hok] at h
      simp only at h
      obtain ⟨hrows, hnext⟩ := ih _ _ h
      have h1 : (InsertShardRow distributedTableId s.nextShardId shardStorageType
          (roundRobinShardRow distributedTableId shardCount increment shardStorageType
            s.nextShardId shardIndex).shardMinValue
          (roundRobinShardRow distributedTableId shardCount increment shardStorageType
            s.nextShardId shardIndex).shardMaxValue s3).shardRows
          = s3.shardRows ++ [roundRobinShardRow distributedTableId shardCount increment
              shardStorageType s.nextShardId shardIndex] := rfl
      have h2 : (InsertShardRow distributedTableId s.nextShardId shardStorageType
          (roundRobinShardRow distributedTableId shardCount increment shardStorageType
            s.nextShardId shardIndex).shardMinValue
          (roundRobinShardRow distributedTableId shardCount increment shardStorageType
            s.nextShardId shardIndex).shardMaxValue s3).nextShardId = s3.nextShardId := rfl
      have h3 : (beforePlacements env shardIndex s).shardRows = s.shardRows := rfl
      have h4 : (beforePlacements env shardIndex s).nextShardId = s.nextShardId + 1 := rfl
      rw [h1, h2, hc.shardRows, hc.nextShardId, h3, h4] at hrows
      rw [h2, hc.nextShardId, h4] at hnext
      refine ⟨?_, by omega⟩
      rw [hrows, List.range_succ_eq_map, List.map_cons, List.map_map, List.append_assoc]
      simp only [Nat.cast_zero, add_zero, List.singleton_append, List.cons.injEq, true_and,
        List.append_cancel_left_eq]
      apply List.map_congr_left
      intro j _
      simp only [Function.comp_apply, Nat.cast_succ]
      congr 1
      · omega
      · omega
    · rw [herr] at h
      simp at h


/-- A call that returns has passed every check. -/
theorem roundRobin_ok_checks (env : Env) (distributedTableId : Oid)
    (shardCount replicationFactor : Int) (s s' : State)
    (h : CreateShardsWithRoundRobinPolicy env distributedTableId shardCount replicationFactor s
      = .ok () s') :
    env.PartitionMethod distributedTableId = DISTRIBUTE_BY_HASH ∧
    env.callerOwns distributedTableId = true ∧ LoadShardList s distributedTableId = [] ∧
    0 < shardCount ∧ 0 < replicationFactor ∧
    replicationFactor ≤ ((SortList (WorkerNodeList env)).length : Int) := by
  by_cases hhash : env.PartitionMethod distributedTableId = DISTRIBUTE_BY_HASH
  · by_cases hown : env.callerOwns distributedTableId = true
    · rw [roundRobin_checked env distributedTableId shardCount replicationFactor s hhash hown]
        at h
      by_cases hex : LoadShardList s distributedTableId ≠ []
      · rw [if_pos hex] at h
        simp at h
      · rw [if_neg hex] at h
        by_cases hsc : shardCount ≤ 0
        · rw [if_pos hsc] at h
          simp at h
        · rw [if_neg hsc] at h
          by_cases hrf : replicationFactor ≤ 0
          · rw [if_pos hrf] at h
            simp at h
          · rw [if_neg hrf] at h
            by_cases hW : replicationFactor > ((SortList (WorkerNodeList env)).length : Int)
            · rw [if_pos hW] at h
              simp at h
            · exact ⟨hhash, hown, by simpa using hex, by omega, by omega, by omega⟩
    · rw [roundRobin_notOwner env distributedTableId shardCount replicationFactor s hhash hown]
        at h
      simp at h
  · rw [roundRobin_notHash env distributedTableId shardCount replicationFactor s hhash] at h
    simp at h

/-- The epilogue of lines 211-217 leaves the shard rows alone. -/
theorem finishRoundRobin_shardRows (o : Outcome Unit) :
    (finishRoundRobin o).state.shardRows = o.state.shardRows := by
  cases o with
  | ok v s =>
    simp only [finishRoundRobin, Outcome.state, RESUME_INTERRUPTS]
    split <;> rfl
  | error e s => rfl
  | undefined s => rfl

/-- After a call that returned, the table has shards. -/
theorem roundRobin_ok_hasShards (env : Env) (distributedTableId : Oid)
    (shardCount replicationFactor : Int) (s s' : State)
    (h : CreateShardsWithRoundRobinPolicy env distributedTableId shardCount replicationFactor s
      = .ok () s') :
    LoadShardList s' distributedTableId ≠ [] := by
  obtain ⟨hhash, hown, hex, hsc, hrf, hW⟩ :=
    roundRobin_ok_checks env distributedTableId shardCount replicationFactor s s' h
  rw [roundRobin_reaches_loop env distributedTableId shardCount replicationFactor s hhash hown
    hex hsc hrf hW] at h
  obtain ⟨s5, hs5⟩ := finishRoundRobin_ok _ s' h
  obtain ⟨hrows, -⟩ := roundRobinShardLoop_ok_rows env distributedTableId shardCount
    replicationFactor (hashTokenIncrement shardCount) (env.GetTableDDLEvents distributedTableId)
    (env.TableOwner distributedTableId) (SortList (WorkerNodeList env))
    ((SortList (WorkerNodeList env)).length : Int) (env.ShardStorageType distributedTableId)
    (by omega) shardCount.toNat 0 _ s5 hs5
  have hfin := finishRoundRobin_shardRows (roundRobinShardLoop env distributedTableId shardCount
    replicationFactor (hashTokenIncrement shardCount) (env.GetTableDDLEvents distributedTableId)
    (env.TableOwner distributedTableId) (SortList (WorkerNodeList env))
    ((SortList (WorkerNodeList env)).length : Int) (env.ShardStorageType distributedTableId)
    shardCount.toNat 0 (HOLD_INTERRUPTS (lockedState distributedTableId s)))
  rw [h, hs5] at hfin
  simp only [Outcome.state] at hfin
  obtain ⟨n, hn⟩ : ∃ n, shardCount.toNat = n + 1 := ⟨shardCount.toNat - 1, by omega⟩
  unfold LoadShardList
  rw [hfin, hrows, hn, List.range_succ_eq_map]
  simp [roundRobinShardRow]

/-- Claim C4: if a first call of `CreateShardsWithRoundRobinPolicy` on a table
returns, every second call on the same table, whatever its arguments, fails
with "has already had shards created for it", and at that point only the table
lock has been taken: the shard and placement rows are those left by the first
call, no shard id has been allocated and no DDL has been issued. -/
theorem roundRobin_at_most_once (env : Env) (distributedTableId : Oid)
    (shardCount replicationFactor shardCount2 replicationFactor2 : Int) (s s1 : State)
    (h : CreateShardsWithRoundRobinPolicy env distributedTableId shardCount replicationFactor s
      = .ok () s1) :
    CreateShardsWithRoundRobinPolicy env distributedTableId shardCount2 replicationFactor2 s1
      = .error (alreadyShardedError (env.get_rel_name distributedTableId))
          (lockedState distributedTableId s1) ∧
    (lockedState distributedTableId s1).shardRows = s1.shardRows ∧
    (lockedState distributedTableId s1).placementRows = s1.placementRows ∧
    Untouched s1 (lockedState distributedTableId s1) := by
  obtain ⟨hhash, hown, -, -, -, -⟩ :=
    roundRobin_ok_checks env distributedTableId shardCount replicationFactor s s1 h
  have hex := roundRobin_ok_hasShards env distributedTableId shardCount replicationFactor s s1 h
  refine ⟨?_, rfl, rfl, untouched_lockedState distributedTableId s1⟩
  rw [roundRobin_checked env distributedTableId shardCount2 replicationFactor2 s1 hhash hown,
    if_pos hex]

/-- Witness for `roundRobin_at_most_once`: two shards are created for table 1,
the second call asks for four. -/
theorem roundRobin_at_most_once_witness :
    CreateShardsWithRoundRobinPolicy exampleEnv 1 2 1 emptyState
      = .ok () (CreateShardsWithRoundRobinPolicy exampleEnv 1 2 1 emptyState).state ∧
    CreateShardsWithRoundRobinPolicy exampleEnv 1 4 2
        (CreateShardsWithRoundRobinPolicy exampleEnv 1 2 1 emptyState).state
      = .error (alreadyShardedError (exampleEnv.get_rel_name 1))
          (lockedState 1 (CreateShardsWithRoundRobinPolicy exampleEnv 1 2 1 emptyState).state) :=
  ⟨by decide,
    (roundRobin_at_most_once exampleEnv 1 2 1 4 2 emptyState
      (CreateShardsWithRoundRobinPolicy exampleEnv 1 2 1 emptyState).state (by decide)).1⟩


/-! ## `CreateReferenceTableShard` -/

/-- For a reference table the candidates are the whole roster, in its order. -/
theorem placementCandidates_all (workerNodeList : List WorkerNode) :
    placementCandidates workerNodeList 0 (workerNodeList.length : Int) = workerNodeList := by
  unfold placementCandidates
  simp

/-- A call that returns has passed the checks and has called the physical
creator once, for all workers. -/
theorem referenceTable_ok_inv (env : Env) (distributedTableId : Oid) (s s' : State)
    (h : CreateReferenceTableShard env distributedTableId s = .ok () s') :
    env.callerOwns distributedTableId = true ∧ LoadShardList s distributedTableId = [] ∧
    ∃ s5, CreateShardPlacements env distributedTableId s.nextShardId
        (env.GetTableDDLEvents distributedTableId) (env.TableOwner distributedTableId)
        (SortList (WorkerNodeList env)) 0 ((SortList (WorkerNodeList env)).length : Int)
        (AcquireLock (.shardDistributionMetadata s.nextShardId) .ExclusiveLock
          (GetNextShardId (lockedState distributedTableId s)).2) = .ok () s5 ∧
      s' = InsertShardRow distributedTableId s.nextShardId
        (env.ShardStorageType distributedTableId) none none s5 := by
  unfold CreateReferenceTableShard at h
  by_cases hown : env.callerOwns distributedTableId = true
  · simp only [EnsureTableOwner, hown, if_true] at h
    by_cases hex : LoadShardList (AcquireLock
        (.relationDistributionMetadata distributedTableId) .ExclusiveLock s)
        distributedTableId ≠ []
    · rw [if_pos hex] at h
      simp at h
    · rw [if_neg hex] at h
      refine ⟨hown, by simpa using hex, ?_⟩
      simp only [GetNextShardId] at h ⊢
      split at h
      · simp at h
      · simp at h
      · rename_i v s5 hcsp
        simp only [Outcome.ok.injEq, true_and] at h
        exact ⟨s5, hcsp, h.symm⟩
  · simp only [EnsureTableOwner, hown] at h
    simp at h

/-- Claim C6: if `CreateReferenceTableShard` returns for a table on a cluster
with `W` active workers, the table had no shard before and has exactly one
shard row afterwards, with NULL minimum and maximum; the physical creator was
called once, with start index 0 and replication factor `W`; and exactly `W`
placement rows were written for the shard, one for each worker of the roster. -/
theorem referenceTable_single_shard (env : Env) (distributedTableId : Oid) (s s' : State)
    (h : CreateReferenceTableShard env distributedTableId s = .ok () s') :
    LoadShardList s distributedTableId = [] ∧
    s'.shardRows = s.shardRows ++ [⟨distributedTableId, s.nextShardId,
      env.ShardStorageType distributedTableId, none, none⟩] ∧
    LoadShardList s' distributedTableId = [s.nextShardId] ∧
    s'.placementCalls = s.placementCalls
      ++ [⟨s.nextShardId, 0, ((WorkerNodeList env).length : Int)⟩] ∧
    s'.placementRows = s.placementRows
      ++ (SortList (WorkerNodeList env)).map (placementRowOf s.nextShardId) ∧
    (SortList (WorkerNodeList env)).Perm (WorkerNodeList env) ∧
    (s'.placementRows.drop s.placementRows.length).length = (WorkerNodeList env).length := by
  obtain ⟨-, hex, s5, hcsp, hs'⟩ := referenceTable_ok_inv env distributedTableId s s' h
  have hperm : (SortList (WorkerNodeList env)).Perm (WorkerNodeList env) :=
    List.perm_insertionSort _ _
  have hlen : (SortList (WorkerNodeList env)).length = (WorkerNodeList env).length :=
    hperm.length_eq
  rcases CreateShardPlacements_cases env distributedTableId s.nextShardId
    (env.GetTableDDLEvents distributedTableId) (env.TableOwner distributedTableId)
    (SortList (WorkerNodeList env)) 0 ((SortList (WorkerNodeList env)).length : Int)
    (AcquireLock (.shardDistributionMetadata s.nextShardId) .ExclusiveLock
      (GetNextShardId (lockedState distributedTableId s)).2)
    with ⟨s5', hok, hc⟩ | ⟨e, s5', herr, -⟩
  · rw [hok] at hcsp
    simp only [Outcome.ok.injEq, true_and] at hcsp
    subst hcsp
    obtain ⟨created, hcl, hsub, hrows, -⟩ := hc.written
    rw [placementCandidates_all] at hsub
    have hcreated : created = SortList (WorkerNodeList env) :=
      hsub.eq_of_length (by rw [hcl]; simp)
    subst hs'
    have hsr : s5'.shardRows = s.shardRows := hc.shardRows
    have hpr : s5'.placementRows
        = s.placementRows ++ (SortList (WorkerNodeList env)).map (placementRowOf s.nextShardId) := by
      rw [hrows, hcreated]
      rfl
    have hpc : s5'.placementCalls = s.placementCalls
        ++ [⟨s.nextShardId, 0, ((WorkerNodeList env).length : Int)⟩] := by
      rw [hc.placementCalls, hlen]
      rfl
    refine ⟨hex, ?_, ?_, hpc, hpr, hperm, ?_⟩
    · simp only [InsertShardRow, hsr]
    · unfold LoadShardList at hex ⊢
      simp only [InsertShardRow, hsr, List.filter_append, List.map_append, hex]
      simp
    · simp only [InsertShardRow, hpr, List.drop_left, List.length_map, hlen]
  · rw [herr] at hcsp
    simp at hcsp

/-- Witness for `referenceTable_single_shard`: the reference table 2 on the
cluster of two workers. -/
theorem referenceTable_single_shard_witness :
    CreateReferenceTableShard exampleEnv 2 emptyState
      = .ok () (CreateReferenceTableShard exampleEnv 2 emptyState).state ∧
    LoadShardList (CreateReferenceTableShard exampleEnv 2 emptyState).state 2
      = [emptyState.nextShardId] ∧
    (CreateReferenceTableShard exampleEnv 2 emptyState).state.placementRows
      = emptyState.placementRows
        ++ (SortList (WorkerNodeList exampleEnv)).map (placementRowOf emptyState.nextShardId) :=
  ⟨by decide,
    (referenceTable_single_shard exampleEnv 2 emptyState
      (CreateReferenceTableShard exampleEnv 2 emptyState).state (by decide)).2.2.1,
    (referenceTable_single_shard exampleEnv 2 emptyState
      (CreateReferenceTableShard exampleEnv 2 emptyState).state (by decide)).2.2.2.2.1⟩


/-! ## `CreateColocatedShards` -/

/-- The placement loop of one source shard either creates the shard on the node
of every source placement, or stops at the first node that fails, with the
colocation error, after having written the rows of the nodes before it. -/
theorem colocatedPlacementLoop_cases (env : Env) (targetRelationId sourceRelationId : Oid)
    (sourceShardIndex : Int) (newShardId : Nat) (owner : String)
    (ddlEvents constraintCommands : List String) (placements : List ShardPlacement)
    (s : State) :
    (∃ s', colocatedPlacementLoop env targetRelationId sourceRelationId sourceShardIndex
        newShardId owner ddlEvents constraintCommands placements s = .ok () s' ∧
      (∀ p ∈ placements, env.shardCreated p.nodeName p.nodePort newShardId = true) ∧
      ColocatedPlacementsWritten newShardId (placements.map placementNode) s s') ∨
    (∃ s' done p rest, colocatedPlacementLoop env targetRelationId sourceRelationId
        sourceShardIndex newShardId owner ddlEvents constraintCommands placements s
        = .error (colocationError (env.get_rel_name targetRelationId)
            (env.get_rel_name sourceRelationId)) s' ∧
      placements = done ++ p :: rest ∧
      (∀ q ∈ done, env.shardCreated q.nodeName q.nodePort newShardId = true) ∧
      env.shardCreated p.nodeName p.nodePort newShardId = false ∧
      ColocatedPlacementsWritten newShardId (done.map placementNode) s s') := by
  induction placements generalizing s with
  | nil =>
    left
    exact ⟨s, rfl, by simp, ⟨rfl, rfl, rfl, by simp, by simp [placementSnapshots]⟩⟩
  | cons p rest ih =>
    unfold colocatedPlacementLoop
    cases hc : env.shardCreated p.nodeName p.nodePort newShardId
    · right
      simp only [WorkerCreateShard, hc]
      exact ⟨_, [], p, rest, rfl, rfl, by simp, hc,
        ⟨rfl, rfl, rfl, by simp, by simp [placementSnapshots]⟩⟩
    · simp only [WorkerCreateShard, hc]
      rcases ih (InsertShardPlacementRow newShardId INVALID_PLACEMENT_ID FILE_FINALIZED 0
          p.nodeName p.nodePort
          { s with workerCommands := s.workerCommands ++
              [⟨p.nodeName, p.nodePort, targetRelationId, newShardId, sourceShardIndex, owner,
                ddlEvents, constraintCommands⟩] })
        with ⟨s', hok, hall, hw⟩ | ⟨s', done, q, rest', herr, hsplit, hall, hq, hw⟩
      · left
        refine ⟨s', hok, ?_, ?_⟩
        · intro q hq
          rcases List.mem_cons.mp hq with rfl | hq
          · exact hc
          · exact hall q hq
        · exact ⟨hw.shardRows, hw.nextShardId, hw.placementCalls,
            by rw [hw.placementRows]; simp [InsertShardPlacementRow, placementRowOf, placementNode],
            by rw [hw.history]; simp [InsertShardPlacementRow, placementSnapshots, placementRowOf,
              placementNode]⟩
      · right
        refine ⟨s', p :: done, q, rest', herr, by rw [hsplit]; rfl, ?_, hq, ?_⟩
        · intro q' hq'
          rcases List.mem_cons.mp hq' with rfl | hq'
          · exact hc
          · exact hall q' hq'
        · exact ⟨hw.shardRows, hw.nextShardId, hw.placementCalls,
            by rw [hw.placementRows]; simp [InsertShardPlacementRow, placementRowOf, placementNode],
            by rw [hw.history]; simp [InsertShardPlacementRow, placementSnapshots, placementRowOf,
              placementNode]⟩


/-- Rows written for a new shard id are invisible to a lookup by another id. -/
theorem filter_append_other (catalog extra : List ShardPlacement) (newShardId shardId : Nat)
    (hextra : ∀ p ∈ extra, p.shardId = newShardId) (hne : shardId ≠ newShardId) :
    (catalog ++ extra).filter (fun p => p.shardId = shardId)
      = catalog.filter (fun p => p.shardId = shardId) := by
  rw [List.filter_append]
  have : extra.filter (fun p => p.shardId = shardId) = [] := by
    rw [List.filter_eq_nil_iff]
    intro p hp
    have := hextra p hp
    simp only [decide_eq_true_eq]
    omega
  rw [this, List.append_nil]

/-- The rows written for one shard carry its id. -/
theorem placementRowOf_shardId (newShardId : Nat) (nodes : List WorkerNode) :
    ∀ p ∈ nodes.map (placementRowOf newShardId), p.shardId = newShardId := by
  intro p hp
  obtain ⟨w, -, rfl⟩ := List.mem_map.mp hp
  rfl

/-- The expected placement rows only depend on the placements of the source
shards. -/
theorem colocatedPlacementRows_congr (catalog catalog' : List ShardPlacement)
    (newShardId : Nat) (intervals : List ShardInterval)
    (h : ∀ iv ∈ intervals, catalog'.filter (fun p => p.shardId = iv.shardId)
      = catalog.filter (fun p => p.shardId = iv.shardId)) :
    colocatedPlacementRows catalog' newShardId intervals
      = colocatedPlacementRows catalog newShardId intervals := by
  induction intervals generalizing newShardId with
  | nil => rfl
  | cons iv rest ih =>
    simp only [colocatedPlacementRows, colocatedPlacementRowsOf]
    rw [h iv (List.mem_cons_self _ _), ih _ (fun iv' hiv' => h iv' (List.mem_cons_of_mem _ hiv'))]

/-- Whether all nodes create their shards only depends on the placements of the
source shards. -/
theorem AllCreated_congr (env : Env) (catalog catalog' : List ShardPlacement)
    (newShardId : Nat) (intervals : List ShardInterval)
    (h : ∀ iv ∈ intervals, catalog'.filter (fun p => p.shardId = iv.shardId)
      = catalog.filter (fun p => p.shardId = iv.shardId))
    (hall : AllCreated env catalog' newShardId intervals) :
    AllCreated env catalog newShardId intervals := by
  induction intervals generalizing newShardId with
  | nil => trivial
  | cons iv rest ih =>
    obtain ⟨h1, h2⟩ := hall
    refine ⟨?_, ih _ (fun iv' hiv' => h iv' (List.mem_cons_of_mem _ hiv')) h2⟩
    rw [← h iv (List.mem_cons_self _ _)]
    exact h1

/-- One iteration of the loop over the source shard intervals. -/
theorem colocatedShardLoop_cons (env : Env) (targetRelationId sourceRelationId : Oid)
    (owner : String) (ddlEvents constraintCommands : List String) (storageType : Char)
    (iv : ShardInterval) (rest : List ShardInterval) (s : State) :
    colocatedShardLoop env targetRelationId sourceRelationId owner ddlEvents constraintCommands
        storageType (iv :: rest) s
      = match colocatedPlacementLoop env targetRelationId sourceRelationId
            (ShardIndex (GetNextShardId s).2 iv) s.nextShardId owner ddlEvents
            constraintCommands (s.placementRows.filter (fun p => p.shardId = iv.shardId))
            (GetNextShardId s).2 with
        | .error e s2 => .error e s2
        | .undefined s2 => .undefined s2
        | .ok _ s2 =>
          colocatedShardLoop env targetRelationId sourceRelationId owner ddlEvents
            constraintCommands storageType rest
            (InsertShardRow targetRelationId s.nextShardId storageType
              (colocatedShardRow targetRelationId storageType s.nextShardId iv).shardMinValue
              (colocatedShardRow targetRelationId storageType s.nextShardId iv).shardMaxValue
              s2) := by
  rw [colocatedShardLoop]
  rfl


/-- The loop over the source shard intervals either writes the rows of every
source shard, or stops with the colocation error at the first node that fails.
The source shard ids lie below the shard id sequence. -/
theorem colocatedShardLoop_cases (env : Env) (targetRelationId sourceRelationId : Oid)
    (owner : String) (ddlEvents constraintCommands : List String) (storageType : Char)
    (intervals : List ShardInterval) (s : State)
    (hsrc : ∀ iv ∈ intervals, iv.shardId < s.nextShardId) :
    (∃ s', colocatedShardLoop env targetRelationId sourceRelationId owner ddlEvents
        constraintCommands storageType intervals s = .ok () s' ∧
      ColocatedDone env targetRelationId storageType intervals s s') ∨
    (∃ s' done iv rest pre p post, colocatedShardLoop env targetRelationId sourceRelationId
        owner ddlEvents constraintCommands storageType intervals s
        = .error (colocationError (env.get_rel_name targetRelationId)
            (env.get_rel_name sourceRelationId)) s' ∧
      ColocatedStopped env targetRelationId storageType intervals s s' done iv rest pre p
        post) := by
  induction intervals generalizing s with
  | nil =>
    left
    exact ⟨s, rfl, ⟨trivial, by simp [colocatedShardRows], by simp [colocatedPlacementRows],
      by simp⟩⟩
  | cons iv rest ih =>
    rw [colocatedShardLoop_cons]
    have hiv : iv.shardId < s.nextShardId := hsrc iv (List.mem_cons_self _ _)
    rcases colocatedPlacementLoop_cases env targetRelationId sourceRelationId
        (ShardIndex (GetNextShardId s).2 iv) s.nextShardId owner ddlEvents constraintCommands
        (s.placementRows.filter (fun p => p.shardId = iv.shardId)) (GetNextShardId s).2
      with ⟨s2, hok, hall, hw⟩ | ⟨s2, pre, p, post, herr, hsplit, hpre, hp, hw⟩
    · rw [hok]
      simp only
      have hrows2 : s2.placementRows = s.placementRows
          ++ colocatedPlacementRowsOf s.placementRows s.nextShardId iv := hw.placementRows
      have hnext2 : s2.nextShardId = s.nextShardId + 1 := hw.nextShardId
      have hshard2 : s2.shardRows = s.shardRows := hw.shardRows
      have hfilter : ∀ iv' ∈ rest,
          s2.placementRows.filter (fun p => p.shardId = iv'.shardId)
            = s.placementRows.filter (fun p => p.shardId = iv'.shardId) := by
        intro iv' hiv'
        rw [hrows2]
        apply filter_append_other _ _ s.nextShardId
        · exact placementRowOf_shardId _ _
        · have := hsrc iv' (List.mem_cons_of_mem _ hiv')
          omega
      rcases ih (InsertShardRow targetRelationId s.nextShardId storageType
          (colocatedShardRow targetRelationId storageType s.nextShardId iv).shardMinValue
          (colocatedShardRow targetRelationId storageType s.nextShardId iv).shardMaxValue s2)
          (by
            intro iv' hiv'
            have := hsrc iv' (List.mem_cons_of_mem _ hiv')
            show iv'.shardId < s2.nextShardId
            omega)
        with ⟨s', hok', hd⟩ | ⟨s', done, iv', rest', pre, p, post, herr', hst⟩
      · left
        refine ⟨s', hok', ?_, ?_, ?_, ?_⟩
        · refine ⟨hall, ?_⟩
          have h := hd.allCreated
          simp only [InsertShardRow, hnext2] at h
          exact AllCreated_congr env _ _ _ _ hfilter h
        · have h := hd.shardRows
          simp only [InsertShardRow, hnext2, hshard2] at h
          rw [h]
          simp [colocatedShardRows, colocatedShardRow]
        · have h := hd.placementRows
          simp only [InsertShardRow, hnext2] at h
          rw [h, colocatedPlacementRows_congr _ _ _ _ hfilter, hrows2]
          simp [colocatedPlacementRows]
        · have h := hd.nextShardId
          simp only [InsertShardRow, hnext2] at h
          rw [h]
          simp only [List.length_cons]
          omega
      · right
        refine ⟨s', iv :: done, iv', rest', pre, p, post, herr', ?_, ?_, ?_, ?_, ?_, ?_, ?_⟩
        · rw [hst.split]
          rfl
        · have h := hst.placements
          simp only [InsertShardRow] at h
          have hmem : iv' ∈ rest := by
            rw [hst.split]
            simp
          rw [← hfilter iv' hmem]
          exact h
        · intro q hq
          have h := hst.created q hq
          simp only [InsertShardRow, hnext2] at h
          simp only [List.length_cons]
          rw [show s.nextShardId + (done.length + 1) = s.nextShardId + 1 + done.length by omega]
          exact h
        · have h := hst.failed
          simp only [InsertShardRow, hnext2] at h
          simp only [List.length_cons]
          rw [show s.nextShardId + (done.length + 1) = s.nextShardId + 1 + done.length by omega]
          exact h
        · have h := hst.shardRows
          simp only [InsertShardRow, hnext2, hshard2] at h
          rw [h]
          simp [colocatedShardRows, colocatedShardRow]
        · have h := hst.placementRows
          simp only [InsertShardRow, hnext2] at h
          have hdone : ∀ iv'' ∈ done,
              s2.placementRows.filter (fun p => p.shardId = iv''.shardId)
                = s.placementRows.filter (fun p => p.shardId = iv''.shardId) := by
            intro iv'' hiv''
            apply hfilter
            rw [hst.split]
            exact List.mem_append_left _ hiv''
          rw [h, colocatedPlacementRows_congr _ _ _ _ hdone, hrows2]
          simp only [List.length_cons, colocatedPlacementRows, List.append_assoc]
          rw [show s.nextShardId + (done.length + 1) = s.nextShardId + 1 + done.length by omega]
        · have h := hst.nextShardId
          simp only [InsertShardRow, hnext2] at h
          rw [h]
          simp only [List.length_cons]
          omega
    · rw [herr]
      simp only
      right
      refine ⟨s2, [], iv, rest, pre, p, post, rfl, rfl, hsplit, ?_, ?_, ?_, ?_, ?_⟩
      · simpa using hpre
      · simpa using hp
      · rw [hw.shardRows]
        simp [colocatedShardRows, GetNextShardId]
      · rw [hw.placementRows]
        simp [colocatedPlacementRows, GetNextShardId]
      · rw [hw.nextShardId]
        simp [GetNextShardId]


/-- With the partition type and ownership checks passed, `CreateColocatedShards`
is the existing-shards check followed by the loop over the source shards. -/
theorem colocated_checked (env : Env) (targetRelationId sourceRelationId : Oid) (s : State)
    (hT : env.PartitionMethod targetRelationId = DISTRIBUTE_BY_HASH)
    (hS : env.PartitionMethod sourceRelationId = DISTRIBUTE_BY_HASH)
    (hown : env.callerOwns targetRelationId = true) :
    CreateColocatedShards env targetRelationId sourceRelationId s
      = if LoadShardList s targetRelationId ≠ [] then
          .error (alreadyShardedError (env.get_rel_name targetRelationId))
            (colocationLockedState targetRelationId sourceRelationId s)
        else
          colocatedShardLoop env targetRelationId sourceRelationId
            (env.TableOwner targetRelationId) (env.GetTableDDLEvents targetRelationId)
            (env.GetTableForeignConstraintCommands targetRelationId)
            (env.ShardStorageType targetRelationId)
            (LoadShardIntervalList s sourceRelationId)
            (colocationLockedState targetRelationId sourceRelationId s) := by
  simp only [CreateColocatedShards, CheckHashPartitionedTable, EnsureTableOwner, hT, hS, hown,
    ne_eq, not_true_eq_false, if_false, if_true]
  rfl

/-- A call of `CreateColocatedShards` that gets past the first three checks
has found both tables hash partitioned and the target owned by the caller. -/
theorem colocated_checks_of_not_early (env : Env) (targetRelationId sourceRelationId : Oid)
    (s : State) :
    (env.PartitionMethod targetRelationId = DISTRIBUTE_BY_HASH ∧
      env.PartitionMethod sourceRelationId = DISTRIBUTE_BY_HASH ∧
      env.callerOwns targetRelationId = true) ∨
    ∃ e, CreateColocatedShards env targetRelationId sourceRelationId s = .error e s ∧
      (e.sqlerrcode = .ERRCODE_FEATURE_NOT_SUPPORTED ∨
        e.sqlerrcode = .ERRCODE_INSUFFICIENT_PRIVILEGE) := by
  by_cases hT : env.PartitionMethod targetRelationId = DISTRIBUTE_BY_HASH
  · by_cases hS : env.PartitionMethod sourceRelationId = DISTRIBUTE_BY_HASH
    · by_cases hown : env.callerOwns targetRelationId = true
      · exact Or.inl ⟨hT, hS, hown⟩
      · right
        simp only [CreateColocatedShards, CheckHashPartitionedTable, EnsureTableOwner, hT, hS,
          hown, ne_eq, not_true_eq_false, if_false]
        exact ⟨_, rfl, Or.inr rfl⟩
    · right
      simp only [CreateColocatedShards, CheckHashPartitionedTable, hT, hS, ne_eq,
        not_true_eq_false, not_false_eq_true, if_false, if_true]
      exact ⟨_, rfl, Or.inl rfl⟩
  · right
    simp only [CreateColocatedShards, CheckHashPartitionedTable, hT, ne_eq, not_false_eq_true,
      if_true]
    exact ⟨_, rfl, Or.inl rfl⟩

/-- The source shard ids lie below a fresh shard id sequence. -/
theorem loadShardIntervalList_lt (s : State) (sourceRelationId : Oid) (hfresh : FreshSequence s) :
    ∀ iv ∈ LoadShardIntervalList s sourceRelationId, iv.shardId < s.nextShardId := by
  intro iv hiv
  unfold LoadShardIntervalList at hiv
  obtain ⟨r, hr, rfl⟩ := List.mem_map.mp hiv
  exact hfresh r (List.mem_of_mem_filter hr)

/-- Number of expected shard rows. -/
theorem colocatedShardRows_length (targetRelationId : Oid) (storageType : Char)
    (newShardId : Nat) (intervals : List ShardInterval) :
    (colocatedShardRows targetRelationId storageType newShardId intervals).length
      = intervals.length := by
  induction intervals generalizing newShardId with
  | nil => rfl
  | cons iv rest ih => simp [colocatedShardRows, ih]

/-- The expected shard row of the `i`-th source shard. -/
theorem colocatedShardRows_getElem? (targetRelationId : Oid) (storageType : Char)
    (newShardId : Nat) (intervals : List ShardInterval) (i : Nat) :
    (colocatedShardRows targetRelationId storageType newShardId intervals)[i]?
      = intervals[i]?.map (colocatedShardRow targetRelationId storageType (newShardId + i)) := by
  induction intervals generalizing newShardId i with
  | nil => simp [colocatedShardRows]
  | cons iv rest ih =>
    cases i with
    | zero => simp [colocatedShardRows]
    | succ i =>
      simp only [colocatedShardRows, List.getElem?_cons_succ]
      rw [ih, show newShardId + 1 + i = newShardId + (i + 1) by omega]

/-- The expected shard rows all belong to the target table. -/
theorem colocatedShardRows_relationId (targetRelationId : Oid) (storageType : Char)
    (newShardId : Nat) (intervals : List ShardInterval) :
    ∀ r ∈ colocatedShardRows targetRelationId storageType newShardId intervals,
      r.relationId = targetRelationId := by
  induction intervals generalizing newShardId with
  | nil => simp [colocatedShardRows]
  | cons iv rest ih =>
    intro r hr
    simp only [colocatedShardRows, List.mem_cons] at hr
    rcases hr with rfl | hr
    · rfl
    · exact ih _ r hr

/-- The expected placement rows carry the new shard ids, none below the first. -/
theorem colocatedPlacementRows_shardId_ge (catalog : List ShardPlacement) (newShardId : Nat)
    (intervals : List ShardInterval) :
    ∀ p ∈ colocatedPlacementRows catalog newShardId intervals, newShardId ≤ p.shardId := by
  induction intervals generalizing newShardId with
  | nil => simp [colocatedPlacementRows]
  | cons iv rest ih =>
    intro p hp
    simp only [colocatedPlacementRows, List.mem_append] at hp
    rcases hp with hp | hp
    · have := placementRowOf_shardId newShardId _ p hp
      omega
    · have := ih _ p hp
      omega

/-- The expected placement rows of the `i`-th new shard are the rows derived
from the placements of the `i`-th source shard. -/
theorem colocatedPlacementRows_filter (catalog : List ShardPlacement) (newShardId : Nat)
    (intervals : List ShardInterval) (i : Nat) (h : i < intervals.length) :
    (colocatedPlacementRows catalog newShardId intervals).filter
        (fun p => p.shardId = newShardId + i)
      = colocatedPlacementRowsOf catalog (newShardId + i) (intervals.get ⟨i, h⟩) := by
  induction intervals generalizing newShardId i with
  | nil => simp at h
  | cons iv rest ih =>
    simp only [colocatedPlacementRows, List.filter_append]
    cases i with
    | zero =>
      have h1 : (colocatedPlacementRowsOf catalog newShardId iv).filter
          (fun p => p.shardId = newShardId + 0)
          = colocatedPlacementRowsOf catalog newShardId iv := by
        rw [List.filter_eq_self]
        intro p hp
        simpa using placementRowOf_shardId newShardId _ p hp
      have h2 : (colocatedPlacementRows catalog (newShardId + 1) rest).filter
          (fun p => p.shardId = newShardId + 0) = [] := by
        rw [List.filter_eq_nil_iff]
        intro p hp
        have := colocatedPlacementRows_shardId_ge catalog (newShardId + 1) rest p hp
        simp only [decide_eq_true_eq]
        omega
      rw [h1, h2]
      simp
    | succ i =>
      have h1 : (colocatedPlacementRowsOf catalog newShardId iv).filter
          (fun p => p.shardId = newShardId + (i + 1)) = [] := by
        rw [List.filter_eq_nil_iff]
        intro p hp
        have := placementRowOf_shardId newShardId _ p hp
        simp only [decide_eq_true_eq]
        omega
      have h3 := ih (newShardId + 1) i (by simpa using h)
      rw [show newShardId + 1 + i = newShardId + (i + 1) by omega] at h3
      rw [h1, h3]
      simp

/-- The node of the row written for a worker is that worker. -/
theorem placementNode_placementRowOf (newShardId : Nat) (nodes : List WorkerNode) :
    (nodes.map (placementRowOf newShardId)).map placementNode = nodes := by
  induction nodes with
  | nil => rfl
  | cons w rest ih =>
    simp only [List.map_cons, ih]
    rfl


/-- A call of `CreateColocatedShards` that returns has passed the checks and
has run the loop over the source shards to its end. -/
theorem colocated_ok_inv (env : Env) (targetRelationId sourceRelationId : Oid) (s s' : State)
    (hfresh : FreshSequence s)
    (h : CreateColocatedShards env targetRelationId sourceRelationId s = .ok () s') :
    LoadShardList s targetRelationId = [] ∧
    ColocatedDone env targetRelationId (env.ShardStorageType targetRelationId)
      (LoadShardIntervalList s sourceRelationId)
      (colocationLockedState targetRelationId sourceRelationId s) s' := by
  rcases colocated_checks_of_not_early env targetRelationId sourceRelationId s
    with ⟨hT, hS, hown⟩ | ⟨e, herr, -⟩
  · rw [colocated_checked env targetRelationId sourceRelationId s hT hS hown] at h
    by_cases hex : LoadShardList s targetRelationId ≠ []
    · rw [if_pos hex] at h
      simp at h
    · rw [if_neg hex] at h
      refine ⟨by simpa using hex, ?_⟩
      rcases colocatedShardLoop_cases env targetRelationId sourceRelationId
          (env.TableOwner targetRelationId) (env.GetTableDDLEvents targetRelationId)
          (env.GetTableForeignConstraintCommands targetRelationId)
          (env.ShardStorageType targetRelationId) (LoadShardIntervalList s sourceRelationId)
          (colocationLockedState targetRelationId sourceRelationId s)
          (loadShardIntervalList_lt s sourceRelationId hfresh)
        with ⟨s'', hok, hd⟩ | ⟨s'', done, iv, rest, pre, p, post, herr, -⟩
      · rw [hok] at h
        simp only [Outcome.ok.injEq, true_and] at h
        subst h
        exact hd
      · rw [herr] at h
        simp at h
  · rw [herr] at h
    simp at h

/-- Claim C5: if `CreateColocatedShards(T, S)` returns (the shard ids in use lying
below the shard id sequence), then `T` had no shard before, `T` has exactly as
many shard rows as `S` has shard intervals, written in the source's order, and
for every index `i` the `i`-th shard row of `T` carries the minimum and maximum
of the `i`-th shard interval of `S`, and the placement rows written for it lie
on the nodes of the placements of the `i`-th shard of `S`, node for node. -/
theorem colocated_matches_source (env : Env) (targetRelationId sourceRelationId : Oid)
    (s s' : State) (hfresh : FreshSequence s)
    (h : CreateColocatedShards env targetRelationId sourceRelationId s = .ok () s') :
    LoadShardList s targetRelationId = [] ∧
    (LoadShardList s' targetRelationId).length
      = (LoadShardIntervalList s sourceRelationId).length ∧
    ∀ (i : Nat) (hi : i < (LoadShardIntervalList s sourceRelationId).length),
      (s'.shardRows.filter (fun r => r.relationId = targetRelationId))[i]?
        = some ⟨targetRelationId, s.nextShardId + i, env.ShardStorageType targetRelationId,
            IntegerToText (DatumGetInt32
              ((LoadShardIntervalList s sourceRelationId).get ⟨i, hi⟩).minValue),
            IntegerToText (DatumGetInt32
              ((LoadShardIntervalList s sourceRelationId).get ⟨i, hi⟩).maxValue)⟩ ∧
      ((s'.placementRows.drop s.placementRows.length).filter
          (fun p => p.shardId = s.nextShardId + i)).map placementNode
        = (ShardPlacementList s
            ((LoadShardIntervalList s sourceRelationId).get ⟨i, hi⟩).shardId).map
              placementNode := by
  obtain ⟨hex, hd⟩ := colocated_ok_inv env targetRelationId sourceRelationId s s' hfresh h
  have hrows : s'.shardRows = s.shardRows ++ colocatedShardRows targetRelationId
      (env.ShardStorageType targetRelationId) s.nextShardId
      (LoadShardIntervalList s sourceRelationId) := hd.shardRows
  have hplace : s'.placementRows = s.placementRows ++ colocatedPlacementRows s.placementRows
      s.nextShardId (LoadShardIntervalList s sourceRelationId) := hd.placementRows
  have hold : s.shardRows.filter (fun r => r.relationId = targetRelationId) = [] := by
    unfold LoadShardList at hex
    simpa using hex
  have hfilter : s'.shardRows.filter (fun r => r.relationId = targetRelationId)
      = colocatedShardRows targetRelationId (env.ShardStorageType targetRelationId)
          s.nextShardId (LoadShardIntervalList s sourceRelationId) := by
    rw [hrows, List.filter_append, hold, List.nil_append, List.filter_eq_self]
    intro r hr
    simpa using colocatedShardRows_relationId _ _ _ _ r hr
  refine ⟨hex, ?_, ?_⟩
  · unfold LoadShardList
    rw [List.length_map, hfilter, colocatedShardRows_length]
  · intro i hi
    constructor
    · rw [hfilter, colocatedShardRows_getElem?, List.getElem?_eq_getElem hi]
      rfl
    · rw [hplace, List.drop_left, colocatedPlacementRows_filter _ _ _ i hi]
      unfold colocatedPlacementRowsOf
      rw [placementNode_placementRowOf]
      rfl

/-- Witness for `colocated_matches_source`: table 2 is colocated with table 1,
which has two shards with two placements each. -/
theorem colocated_matches_source_witness :
    FreshSequence sourceState ∧
    CreateColocatedShards exampleEnv 2 1 sourceState
      = .ok () (CreateColocatedShards exampleEnv 2 1 sourceState).state ∧
    (LoadShardList (CreateColocatedShards exampleEnv 2 1 sourceState).state 2).length
      = (LoadShardIntervalList sourceState 1).length :=
  ⟨by decide, by decide,
    (colocated_matches_source exampleEnv 2 1 sourceState
      (CreateColocatedShards exampleEnv 2 1 sourceState).state (by decide) (by decide)).2.1⟩


/-- When every node creates its shards, the node of each placement of the `i`-th
source shard creates the `i`-th new shard. -/
theorem AllCreated_get (env : Env) (catalog : List ShardPlacement) (newShardId : Nat)
    (intervals : List ShardInterval) (hall : AllCreated env catalog newShardId intervals)
    (i : Nat) (hi : i < intervals.length) :
    ∀ p ∈ catalog.filter (fun p => p.shardId = (intervals.get ⟨i, hi⟩).shardId),
      env.shardCreated p.nodeName p.nodePort (newShardId + i) = true := by
  induction intervals generalizing newShardId i with
  | nil => simp at hi
  | cons iv rest ih =>
    obtain ⟨h1, h2⟩ := hall
    cases i with
    | zero => simpa using h1
    | succ i =>
      have h3 := ih (newShardId + 1) h2 i (by simpa using hi)
      rw [show newShardId + 1 + i = newShardId + (i + 1) by omega] at h3
      simpa using h3

/-- The expected shard rows carry consecutive ids from the first new id on. -/
theorem colocatedShardRows_shardId_lt (targetRelationId : Oid) (storageType : Char)
    (newShardId : Nat) (intervals : List ShardInterval) :
    ∀ r ∈ colocatedShardRows targetRelationId storageType newShardId intervals,
      newShardId ≤ r.shardId ∧ r.shardId < newShardId + intervals.length := by
  induction intervals generalizing newShardId with
  | nil => simp [colocatedShardRows]
  | cons iv rest ih =>
    intro r hr
    simp only [colocatedShardRows, List.mem_cons] at hr
    rcases hr with rfl | hr
    · simp [colocatedShardRow]
    · have := ih _ r hr
      simp only [List.length_cons]
      omega

/-- The expected placement rows carry ids below the next unused one. -/
theorem colocatedPlacementRows_shardId_lt (catalog : List ShardPlacement) (newShardId : Nat)
    (intervals : List ShardInterval) :
    ∀ p ∈ colocatedPlacementRows catalog newShardId intervals,
      p.shardId < newShardId + intervals.length := by
  induction intervals generalizing newShardId with
  | nil => simp [colocatedPlacementRows]
  | cons iv rest ih =>
    intro p hp
    simp only [colocatedPlacementRows, List.mem_append] at hp
    simp only [List.length_cons]
    rcases hp with hp | hp
    · have := placementRowOf_shardId newShardId _ p hp
      omega
    · have := ih _ p hp
      omega


/-- Counterexample to claim C8 as stated: the source shard has placements on
`worker-a` and `worker-b`, and only `worker-a` creates shards. The call fails
with the colocation error, and at that point the metadata holds a placement row
for the new shard id 102, written before `worker-b` failed. -/
theorem colocated_failure_keeps_placement_row :
    failingEnv.shardCreated "worker-b" 5432 102 = false ∧
    (∃ s', CreateColocatedShards failingEnv 2 1 sourceState
      = .error (colocationError "customers" "orders") s') ∧
    placementRowOf 102 ⟨"worker-a", 5432⟩ ∈
      (CreateColocatedShards failingEnv 2 1 sourceState).state.placementRows.drop
        sourceState.placementRows.length ∧
    (CreateColocatedShards failingEnv 2 1 sourceState).state.nextShardId = 103 := by
  refine ⟨by decide, ⟨(CreateColocatedShards failingEnv 2 1 sourceState).state, by decide⟩,
    by decide, by decide⟩

/-- Claim C8, amended: when `WorkerCreateShard` fails on a placement of a source
shard (checks passed, shard ids in use below the sequence), the call fails with
"could not be colocated with", naming the target and the source table; at the
point of failure the metadata written by the call holds no shard row for the
new shard id whose replica set was not completed, and the placement rows it
holds for that id are exactly those of the source placements that precede the
failing one. -/
theorem colocated_failure_no_shard_row (env : Env) (targetRelationId sourceRelationId : Oid)
    (s : State) (hfresh : FreshSequence s)
    (hT : env.PartitionMethod targetRelationId = DISTRIBUTE_BY_HASH)
    (hS : env.PartitionMethod sourceRelationId = DISTRIBUTE_BY_HASH)
    (hown : env.callerOwns targetRelationId = true)
    (hex : LoadShardList s targetRelationId = [])
    (i : Nat) (hi : i < (LoadShardIntervalList s sourceRelationId).length)
    (p : ShardPlacement)
    (hp : p ∈ ShardPlacementList s
      ((LoadShardIntervalList s sourceRelationId).get ⟨i, hi⟩).shardId)
    (hfail : env.shardCreated p.nodeName p.nodePort (s.nextShardId + i) = false) :
    ∃ (s' : State) (j : Nat) (pre : List ShardPlacement) (q : ShardPlacement)
      (post : List ShardPlacement) (hj : j < (LoadShardIntervalList s sourceRelationId).length),
      CreateColocatedShards env targetRelationId sourceRelationId s
        = .error (colocationError (env.get_rel_name targetRelationId)
            (env.get_rel_name sourceRelationId)) s' ∧
      s'.nextShardId = s.nextShardId + j + 1 ∧
      ShardPlacementList s ((LoadShardIntervalList s sourceRelationId).get ⟨j, hj⟩).shardId
        = pre ++ q :: post ∧
      (∀ x ∈ pre, env.shardCreated x.nodeName x.nodePort (s.nextShardId + j) = true) ∧
      env.shardCreated q.nodeName q.nodePort (s.nextShardId + j) = false ∧
      (∀ r ∈ s'.shardRows.drop s.shardRows.length, r.shardId ≠ s.nextShardId + j) ∧
      (s'.placementRows.drop s.placementRows.length).filter
          (fun x => x.shardId = s.nextShardId + j)
        = (pre.map placementNode).map (placementRowOf (s.nextShardId + j)) := by
  rw [colocated_checked env targetRelationId sourceRelationId s hT hS hown,
    if_neg (by simp [hex])]
  rcases colocatedShardLoop_cases env targetRelationId sourceRelationId
      (env.TableOwner targetRelationId) (env.GetTableDDLEvents targetRelationId)
      (env.GetTableForeignConstraintCommands targetRelationId)
      (env.ShardStorageType targetRelationId) (LoadShardIntervalList s sourceRelationId)
      (colocationLockedState targetRelationId sourceRelationId s)
      (loadShardIntervalList_lt s sourceRelationId hfresh)
    with ⟨s', -, hd⟩ | ⟨s', done, iv, rest, pre, q, post, herr, hst⟩
  · exfalso
    have hc := AllCreated_get env _ _ _ hd.allCreated i hi p hp
    have hc' : env.shardCreated p.nodeName p.nodePort (s.nextShardId + i) = true := hc
    rw [hfail] at hc'
    exact Bool.false_ne_true hc'
  · have hsplit := hst.split
    have hj : done.length < (LoadShardIntervalList s sourceRelationId).length := by
      rw [hsplit]
      simp
    have hget : (LoadShardIntervalList s sourceRelationId).get ⟨done.length, hj⟩ = iv := by
      have hsome : (LoadShardIntervalList s sourceRelationId)[done.length]? = some iv := by
        rw [hsplit, List.getElem?_append_right (le_refl _), Nat.sub_self,
          List.getElem?_cons_zero]
      simp only [List.get_eq_getElem]
      exact (List.getElem?_eq_some_iff.mp hsome).2
    have hrows : s'.shardRows = s.shardRows ++ colocatedShardRows targetRelationId
        (env.ShardStorageType targetRelationId) s.nextShardId done := hst.shardRows
    have hplace : s'.placementRows = s.placementRows
        ++ (colocatedPlacementRows s.placementRows s.nextShardId done
          ++ (pre.map placementNode).map (placementRowOf (s.nextShardId + done.length))) :=
      hst.placementRows
    refine ⟨s', done.length, pre, q, post, hj, herr, hst.nextShardId, ?_, hst.created,
      hst.failed, ?_, ?_⟩
    · rw [hget]
      exact hst.placements
    · intro r hr
      rw [hrows, List.drop_left] at hr
      have := colocatedShardRows_shardId_lt _ _ _ _ r hr
      omega
    · rw [hplace, List.drop_left, List.filter_append]
      have h1 : (colocatedPlacementRows s.placementRows s.nextShardId done).filter
          (fun x => x.shardId = s.nextShardId + done.length) = [] := by
        rw [List.filter_eq_nil_iff]
        intro x hx
        have := colocatedPlacementRows_shardId_lt _ _ _ x hx
        simp only [decide_eq_true_eq]
        omega
      rw [h1, List.nil_append, List.filter_eq_self]
      intro x hx
      simpa using placementRowOf_shardId _ _ x hx

/-- Witness for `colocated_failure_no_shard_row`: on the cluster where only
`worker-a` creates shards, the first source shard has a placement on
`worker-b`. -/
theorem colocated_failure_no_shard_row_witness :
    FreshSequence sourceState ∧
    failingEnv.PartitionMethod 2 = DISTRIBUTE_BY_HASH ∧
    failingEnv.PartitionMethod 1 = DISTRIBUTE_BY_HASH ∧ failingEnv.callerOwns 2 = true ∧
    LoadShardList sourceState 2 = [] ∧
    failingEnv.shardCreated "worker-b" 5432 (sourceState.nextShardId + 0) = false ∧
    ∃ (s' : State) (j : Nat) (pre : List ShardPlacement) (q : ShardPlacement)
      (post : List ShardPlacement) (hj : j < (LoadShardIntervalList sourceState 1).length),
      CreateColocatedShards failingEnv 2 1 sourceState
        = .error (colocationError (failingEnv.get_rel_name 2) (failingEnv.get_rel_name 1)) s' ∧
      s'.nextShardId = sourceState.nextShardId + j + 1 ∧
      ShardPlacementList sourceState ((LoadShardIntervalList sourceState 1).get ⟨j, hj⟩).shardId
        = pre ++ q :: post ∧
      (∀ x ∈ pre, failingEnv.shardCreated x.nodeName x.nodePort (sourceState.nextShardId + j)
        = true) ∧
      failingEnv.shardCreated q.nodeName q.nodePort (sourceState.nextShardId + j) = false ∧
      (∀ r ∈ s'.shardRows.drop sourceState.shardRows.length,
        r.shardId ≠ sourceState.nextShardId + j) ∧
      (s'.placementRows.drop sourceState.placementRows.length).filter
          (fun x => x.shardId = sourceState.nextShardId + j)
        = (pre.map placementNode).map (placementRowOf (sourceState.nextShardId + j)) :=
  ⟨by decide, by decide, by decide, by decide, by decide, by decide,
    colocated_failure_no_shard_row failingEnv 2 1 sourceState (by decide) (by decide)
      (by decide) (by decide) (by decide) 0 (by decide) ⟨100, 0, 1, 0, "worker-b", 5432⟩
      (by decide) (by decide)⟩


/-! ## The order of the catalog writes -/

/-- The catalog contents recorded while the placement rows of a shard are
written: the shard rows are untouched and the placement rows grow by a prefix
of the new rows. -/
theorem mem_placementSnapshots (shardRows : List ShardRow) (shardId : Nat)
    (placementRows : List ShardPlacement) (nodes : List WorkerNode) (m : Metadata)
    (hm : m ∈ placementSnapshots shardRows shardId placementRows nodes) :
    m.shardRows = shardRows ∧
    ∃ pre suf, nodes = pre ++ suf ∧
      m.placementRows = placementRows ++ pre.map (placementRowOf shardId) := by
  induction nodes generalizing placementRows with
  | nil => simp [placementSnapshots] at hm
  | cons w rest ih =>
    simp only [placementSnapshots, List.mem_cons] at hm
    rcases hm with rfl | hm
    · exact ⟨rfl, [w], rest, rfl, rfl⟩
    · obtain ⟨h1, pre, suf, h2, h3⟩ := ih _ hm
      exact ⟨h1, w :: pre, suf, by rw [h2]; rfl, by rw [h3]; simp⟩

/-- Before the operation has written anything the invariant holds. -/
theorem LoopInvariant_init (full : List ShardPlacement → Prop) (s0 s : State)
    (hrows : s.shardRows = s0.shardRows) (hplace : s.placementRows = s0.placementRows)
    (hhist : s.history = s0.history) : LoopInvariant full s0 s := by
  refine ⟨by rw [hrows], by rw [hplace], by rw [hhist], ?_, ?_, ⟨?_, ?_, ?_⟩⟩
  · rw [hrows]
    simp
  · rw [hplace]
    simp
  · rw [hhist, List.drop_length]
    simp only [RecordsWrites, State.metadata, hrows, hplace]
  · rw [hhist]
    simp
  · rw [hrows]
    simp

/-- The write-order property only looks at the catalogs and their history. -/
theorem PlacementsPrecedeShardRows_congr (full : List ShardPlacement → Prop)
    (s0 s s' : State) (hrows : s'.shardRows = s.shardRows)
    (hplace : s'.placementRows = s.placementRows) (hhist : s'.history = s.history)
    (h : PlacementsPrecedeShardRows full s0 s) : PlacementsPrecedeShardRows full s0 s' := by
  obtain ⟨hrec, h1, h2⟩ := h
  refine ⟨?_, ?_, ?_⟩
  · have hmeta : s'.metadata = s.metadata := by
      simp only [State.metadata, hrows, hplace]
    rw [hhist, hmeta]
    exact hrec
  · rw [hhist, hrows, hplace]
    exact h1
  · rw [hrows, hplace]
    exact h2

/-- The invariant only looks at the catalogs, their history and the sequence. -/
theorem LoopInvariant_congr (full : List ShardPlacement → Prop) (s0 s s' : State)
    (hrows : s'.shardRows = s.shardRows) (hplace : s'.placementRows = s.placementRows)
    (hhist : s'.history = s.history) (hnext : s.nextShardId ≤ s'.nextShardId)
    (h : LoopInvariant full s0 s) : LoopInvariant full s0 s' := by
  refine ⟨by rw [hrows]; exact h.rowsLen, by rw [hplace]; exact h.placementsLen,
    by rw [hhist]; exact h.historyLen, ?_, ?_,
    PlacementsPrecedeShardRows_congr full s0 s s' hrows hplace hhist h.order⟩
  · rw [hrows]
    intro r hr
    have := h.rowsBelow r hr
    omega
  · rw [hplace]
    intro p hp
    have := h.placementsBelow p hp
    omega


/-- Two recorded runs of writes compose. -/
theorem RecordsWrites_append (a b c : Metadata) (l l' : List Metadata)
    (h : RecordsWrites a l b) (h' : RecordsWrites b l' c) : RecordsWrites a (l ++ l') c := by
  induction l generalizing a with
  | nil =>
    simp only [RecordsWrites] at h
    subst h
    exact h'
  | cons m rest ih => exact ⟨h.1, ih m h.2⟩

/-- The snapshots taken while the placement rows of a shard are written record
these writes. -/
theorem placementSnapshots_records (shardRows : List ShardRow) (shardId : Nat)
    (placementRows : List ShardPlacement) (nodes : List WorkerNode) :
    RecordsWrites ⟨shardRows, placementRows⟩
      (placementSnapshots shardRows shardId placementRows nodes)
      ⟨shardRows, placementRows ++ nodes.map (placementRowOf shardId)⟩ := by
  induction nodes generalizing placementRows with
  | nil => simp [placementSnapshots, RecordsWrites]
  | cons w rest ih =>
    refine ⟨Or.inr ⟨_, rfl, rfl⟩, ?_⟩
    have := ih (placementRows ++ [placementRowOf shardId w])
    simpa using this

/-- Writing the placement rows of the shard whose id was just taken from the
sequence keeps the write-order property: no shard row has that id yet. -/
theorem order_after_placements (full : List ShardPlacement → Prop) (s0 s s2 : State)
    (nodes : List WorkerNode) (h : LoopInvariant full s0 s)
    (hrows : s2.shardRows = s.shardRows)
    (hplace : s2.placementRows
      = s.placementRows ++ nodes.map (placementRowOf s.nextShardId))
    (hhist : s2.history
      = s.history ++ placementSnapshots s.shardRows s.nextShardId s.placementRows nodes) :
    PlacementsPrecedeShardRows full s0 s2 := by
  have hother : ∀ r ∈ s.shardRows.drop s0.shardRows.length,
      ∀ (catalog : List ShardPlacement) (extra : List WorkerNode),
        (catalog ++ extra.map (placementRowOf s.nextShardId)).filter
            (fun p => p.shardId = r.shardId)
          = catalog.filter (fun p => p.shardId = r.shardId) := by
    intro r hr catalog extra
    apply filter_append_other _ _ s.nextShardId _ (placementRowOf_shardId _ _)
    have := h.rowsBelow r hr
    omega
  refine ⟨?_, ?_, ?_⟩
  · rw [hhist, List.drop_append_of_le_length h.historyLen]
    have hmeta : s2.metadata
        = ⟨s.shardRows, s.placementRows ++ nodes.map (placementRowOf s.nextShardId)⟩ := by
      simp only [State.metadata, hrows, hplace]
    rw [hmeta]
    exact RecordsWrites_append _ _ _ _ _ h.order.recorded
      (placementSnapshots_records s.shardRows s.nextShardId s.placementRows nodes)
  · rw [hhist, List.drop_append_of_le_length h.historyLen, hrows, hplace]
    intro m hm
    rcases List.mem_append.mp hm with hm | hm
    · obtain ⟨hsub, hord⟩ := h.order.snapshots m hm
      refine ⟨hsub, ?_⟩
      intro r hr
      rw [hord r hr, hother r (hsub r hr)]
    · obtain ⟨hmrows, pre, suf, -, hmplace⟩ := mem_placementSnapshots _ _ _ _ m hm
      refine ⟨by rw [hmrows]; exact fun r hr => hr, ?_⟩
      intro r hr
      rw [hmrows] at hr
      rw [hmplace, hother r hr, hother r hr]
  · rw [hrows, hplace, List.drop_append_of_le_length h.placementsLen]
    intro r hr
    rw [hother r hr]
    exact h.order.complement r hr

/-- Writing the shard row after the placement rows of its shard re-establishes
the invariant at the head of the loop. -/
theorem invariant_after_shard_row (full : List ShardPlacement → Prop) (s0 s s2 : State)
    (nodes : List WorkerNode) (relationId : Oid) (storageType : Char)
    (minValue maxValue : Option String) (h : LoopInvariant full s0 s)
    (hrows : s2.shardRows = s.shardRows)
    (hplace : s2.placementRows
      = s.placementRows ++ nodes.map (placementRowOf s.nextShardId))
    (hhist : s2.history
      = s.history ++ placementSnapshots s.shardRows s.nextShardId s.placementRows nodes)
    (hnext : s2.nextShardId = s.nextShardId + 1)
    (hfull : full (nodes.map (placementRowOf s.nextShardId))) :
    LoopInvariant full s0
      (InsertShardRow relationId s.nextShardId storageType minValue maxValue s2) := by
  have hord := order_after_placements full s0 s s2 nodes h hrows hplace hhist
  have hlen2 : s0.history.length ≤ s2.history.length := by
    rw [hhist, List.length_append]
    have := h.historyLen
    omega
  have hnew : ((s.placementRows ++ nodes.map (placementRowOf s.nextShardId)).drop
      s0.placementRows.length).filter (fun p => p.shardId = s.nextShardId)
      = nodes.map (placementRowOf s.nextShardId) := by
    rw [List.drop_append_of_le_length h.placementsLen, List.filter_append]
    have h1 : (s.placementRows.drop s0.placementRows.length).filter
        (fun p => p.shardId = s.nextShardId) = [] := by
      rw [List.filter_eq_nil_iff]
      intro p hp
      have := h.placementsBelow p hp
      simp only [decide_eq_true_eq]
      omega
    rw [h1, List.nil_append, List.filter_eq_self]
    intro p hp
    simpa using placementRowOf_shardId _ _ p hp
  refine ⟨?_, ?_, ?_, ?_, ?_, ⟨?_, ?_, ?_⟩⟩
  · simp only [InsertShardRow, hrows, List.length_append]
    have := h.rowsLen
    omega
  · simp only [InsertShardRow, hplace, List.length_append]
    have := h.placementsLen
    omega
  · simp only [InsertShardRow, List.length_append]
    omega
  · simp only [InsertShardRow, hrows, hnext, List.drop_append_of_le_length h.rowsLen]
    intro r hr
    rcases List.mem_append.mp hr with hr | hr
    · have := h.rowsBelow r hr
      omega
    · simp only [List.mem_singleton] at hr
      subst hr
      simp
  · simp only [InsertShardRow, hplace, hnext, List.drop_append_of_le_length h.placementsLen]
    intro p hp
    rcases List.mem_append.mp hp with hp | hp
    · have := h.placementsBelow p hp
      omega
    · have := placementRowOf_shardId _ _ p hp
      omega
  · simp only [InsertShardRow, List.drop_append_of_le_length hlen2]
    refine RecordsWrites_append _ _ _ _ _ hord.recorded
      ⟨Or.inl ⟨⟨relationId, s.nextShardId, storageType, minValue, maxValue⟩, ?_, ?_⟩, ?_⟩
    · simp only [State.metadata]
    · simp only [State.metadata]
    · simp only [RecordsWrites, State.metadata]
  · simp only [InsertShardRow, List.drop_append_of_le_length hlen2]
    intro m hm
    rcases List.mem_append.mp hm with hm | hm
    · obtain ⟨hsub, hwo⟩ := hord.snapshots m hm
      refine ⟨?_, hwo⟩
      intro r hr
      have := hsub r hr
      rw [hrows] at this ⊢
      rw [List.drop_append_of_le_length h.rowsLen]
      exact List.mem_append_left _ this
    · simp only [List.mem_singleton] at hm
      subst hm
      exact ⟨fun r hr => hr, fun r _ => rfl⟩
  · simp only [InsertShardRow, hrows, List.drop_append_of_le_length h.rowsLen]
    intro r hr
    rcases List.mem_append.mp hr with hr | hr
    · have := hord.complement r (by rw [hrows]; exact hr)
      exact this
    · simp only [List.mem_singleton] at hr
      subst hr
      rw [hplace]
      simp only
      rw [hnew]
      exact hfull


/-- The shard loop of `CreateShardsWithRoundRobinPolicy` keeps the write-order
property, with `replicationFactor` placement rows for every shard row. -/
theorem roundRobinShardLoop_order (env : Env) (distributedTableId : Oid)
    (shardCount replicationFactor : Int) (increment : Nat) (ddlCommandList : List String)
    (relationOwner : String) (workerNodeList : List WorkerNode) (workerNodeCount : Int)
    (shardStorageType : Char) (s0 : State) (remaining : Nat) (shardIndex : Int) (s : State)
    (h : LoopInvariant (fun l => l.length = replicationFactor.toNat) s0 s) :
    PlacementsPrecedeShardRows (fun l => l.length = replicationFactor.toNat) s0
      (roundRobinShardLoop env distributedTableId shardCount replicationFactor increment
        ddlCommandList relationOwner workerNodeList workerNodeCount shardStorageType
        remaining shardIndex s).state := by
  induction remaining generalizing shardIndex s with
  | zero => exact h.order
  | succ n ih =>
    by_cases hW : workerNodeCount = 0
    · rw [roundRobinShardLoop]
      simp only [roundRobinNodeIndex, if_pos hW]
      exact h.order
    · rw [roundRobinShardLoop_succ _ _ _ _ _ _ _ _ _ _ _ _ _ hW]
      rcases CreateShardPlacements_cases env distributedTableId s.nextShardId ddlCommandList
        relationOwner workerNodeList (toInt32 (toUInt32 (Int.tmod shardIndex workerNodeCount)))
        replicationFactor (beforePlacements env shardIndex s)
        with ⟨s3, hok, hc⟩ | ⟨e, s3, herr, hf⟩
      · rw [hok]
        simp only
        obtain ⟨created, hlen, -, hplace, hhist⟩ := hc.written
        apply ih
        exact invariant_after_shard_row _ s0 s s3 created _ _ _ _ h hc.shardRows hplace hhist
          hc.nextShardId (by simp [hlen])
      · rw [herr]
        exact PlacementsPrecedeShardRows_congr _ s0 s s3 hf.shardRows hf.placementRows
          hf.history h.order

/-- The epilogue of lines 211-217 leaves the catalogs and their history alone. -/
theorem finishRoundRobin_catalogs (o : Outcome Unit) :
    (finishRoundRobin o).state.shardRows = o.state.shardRows ∧
    (finishRoundRobin o).state.placementRows = o.state.placementRows ∧
    (finishRoundRobin o).state.history = o.state.history := by
  cases o with
  | ok v s =>
    simp only [finishRoundRobin, Outcome.state, RESUME_INTERRUPTS]
    split <;> exact ⟨rfl, rfl, rfl⟩
  | error e s => exact ⟨rfl, rfl, rfl⟩
  | undefined s => exact ⟨rfl, rfl, rfl⟩

/-- Every run of `CreateShardsWithRoundRobinPolicy` has the write-order property. -/
theorem roundRobin_order (env : Env) (distributedTableId : Oid)
    (shardCount replicationFactor : Int) (s : State) :
    PlacementsPrecedeShardRows (fun l => l.length = replicationFactor.toNat) s
      (CreateShardsWithRoundRobinPolicy env distributedTableId shardCount replicationFactor
        s).state := by
  have hinit : ∀ s' : State, s'.shardRows = s.shardRows → s'.placementRows = s.placementRows →
      s'.history = s.history →
      PlacementsPrecedeShardRows (fun l => l.length = replicationFactor.toNat) s s' :=
    fun s' h1 h2 h3 => (LoopInvariant_init _ s s' h1 h2 h3).order
  by_cases hhash : env.PartitionMethod distributedTableId = DISTRIBUTE_BY_HASH
  · by_cases hown : env.callerOwns distributedTableId = true
    · rw [roundRobin_checked env distributedTableId shardCount replicationFactor s hhash hown]
      split
      · exact hinit _ rfl rfl rfl
      · split
        · exact hinit _ rfl rfl rfl
        · split
          · exact hinit _ rfl rfl rfl
          · split
            · exact hinit _ rfl rfl rfl
            · obtain ⟨h1, h2, h3⟩ := finishRoundRobin_catalogs
                (roundRobinShardLoop env distributedTableId shardCount replicationFactor
                  (hashTokenIncrement shardCount) (env.GetTableDDLEvents distributedTableId)
                  (env.TableOwner distributedTableId) (SortList (WorkerNodeList env))
                  ((SortList (WorkerNodeList env)).length : Int)
                  (env.ShardStorageType distributedTableId) shardCount.toNat 0
                  (HOLD_INTERRUPTS (lockedState distributedTableId s)))
              exact PlacementsPrecedeShardRows_congr _ s _ _ h1 h2 h3
                (roundRobinShardLoop_order env distributedTableId shardCount replicationFactor
                  _ _ _ _ _ _ s _ _ _ (LoopInvariant_init _ s _ rfl rfl rfl))
    · rw [roundRobin_notOwner env distributedTableId shardCount replicationFactor s hhash hown]
      exact hinit _ rfl rfl rfl
  · rw [roundRobin_notHash env distributedTableId shardCount replicationFactor s hhash]
    exact hinit _ rfl rfl rfl

/-- The loop over the source shards of `CreateColocatedShards` keeps the
write-order property. -/
theorem colocatedShardLoop_order (env : Env) (targetRelationId sourceRelationId : Oid)
    (owner : String) (ddlEvents constraintCommands : List String) (storageType : Char)
    (s0 : State) (intervals : List ShardInterval) (s : State)
    (h : LoopInvariant (fun _ => True) s0 s) :
    PlacementsPrecedeShardRows (fun _ => True) s0
      (colocatedShardLoop env targetRelationId sourceRelationId owner ddlEvents
        constraintCommands storageType intervals s).state := by
  induction intervals generalizing s with
  | nil => exact h.order
  | cons iv rest ih =>
    rw [colocatedShardLoop_cons]
    rcases colocatedPlacementLoop_cases env targetRelationId sourceRelationId
        (ShardIndex (GetNextShardId s).2 iv) s.nextShardId owner ddlEvents constraintCommands
        (s.placementRows.filter (fun p => p.shardId = iv.shardId)) (GetNextShardId s).2
      with ⟨s2, hok, -, hw⟩ | ⟨s2, pre, p, post, herr, -, -, -, hw⟩
    · rw [hok]
      simp only
      apply ih
      exact invariant_after_shard_row _ s0 s s2 _ _ _ _ _ h hw.shardRows hw.placementRows
        hw.history hw.nextShardId trivial
    · rw [herr]
      exact order_after_placements _ s0 s s2 _ h hw.shardRows hw.placementRows hw.history

/-- Every run of `CreateColocatedShards` has the write-order property. -/
theorem colocated_order (env : Env) (targetRelationId sourceRelationId : Oid) (s : State) :
    PlacementsPrecedeShardRows (fun _ => True) s
      (CreateColocatedShards env targetRelationId sourceRelationId s).state := by
  have hinit : ∀ s' : State, s'.shardRows = s.shardRows → s'.placementRows = s.placementRows →
      s'.history = s.history → LoopInvariant (fun _ => True) s s' :=
    fun s' h1 h2 h3 => LoopInvariant_init _ s s' h1 h2 h3
  rcases colocated_checks_of_not_early env targetRelationId sourceRelationId s
    with ⟨hT, hS, hown⟩ | ⟨e, herr, -⟩
  · rw [colocated_checked env targetRelationId sourceRelationId s hT hS hown]
    split
    · exact LoopInvariant.order (hinit _ rfl rfl rfl)
    · exact colocatedShardLoop_order env targetRelationId sourceRelationId _ _ _ _ s _ _
        (hinit _ rfl rfl rfl)
  · rw [herr]
    exact LoopInvariant.order (hinit _ rfl rfl rfl)

/-- With the ownership check passed, `CreateReferenceTableShard` is the
existing-shards check followed by one shard creation. -/
theorem referenceTable_checked (env : Env) (distributedTableId : Oid) (s : State)
    (hown : env.callerOwns distributedTableId = true) :
    CreateReferenceTableShard env distributedTableId s
      = if LoadShardList s distributedTableId ≠ [] then
          .error (alreadyShardedError (env.get_rel_name distributedTableId))
            (lockedState distributedTableId s)
        else
          match CreateShardPlacements env distributedTableId s.nextShardId
              (env.GetTableDDLEvents distributedTableId) (env.TableOwner distributedTableId)
              (SortList (WorkerNodeList env)) 0 ((SortList (WorkerNodeList env)).length : Int)
              (AcquireLock (.shardDistributionMetadata s.nextShardId) .ExclusiveLock
                (GetNextShardId (lockedState distributedTableId s)).2) with
          | .error e s5 => .error e s5
          | .undefined s5 => .undefined s5
          | .ok _ s5 =>
            .ok () (InsertShardRow distributedTableId s.nextShardId
              (env.ShardStorageType distributedTableId) none none s5) := by
  simp only [CreateReferenceTableShard, EnsureTableOwner, hown, if_true]
  rfl

/-- Every run of `CreateReferenceTableShard` has the write-order property, with
one placement row per worker for the shard row. -/
theorem referenceTable_order (env : Env) (distributedTableId : Oid) (s : State) :
    PlacementsPrecedeShardRows (fun l => l.length = (WorkerNodeList env).length) s
      (CreateReferenceTableShard env distributedTableId s).state := by
  have hperm : (SortList (WorkerNodeList env)).length = (WorkerNodeList env).length :=
    (List.perm_insertionSort _ _).length_eq
  have hinit : ∀ s' : State, s'.shardRows = s.shardRows → s'.placementRows = s.placementRows →
      s'.history = s.history →
      LoopInvariant (fun l => l.length = (WorkerNodeList env).length) s s' :=
    fun s' h1 h2 h3 => LoopInvariant_init _ s s' h1 h2 h3
  by_cases hown : env.callerOwns distributedTableId = true
  · rw [referenceTable_checked env distributedTableId s hown]
    split
    · exact LoopInvariant.order (hinit _ rfl rfl rfl)
    · rcases CreateShardPlacements_cases env distributedTableId s.nextShardId
        (env.GetTableDDLEvents distributedTableId) (env.TableOwner distributedTableId)
        (SortList (WorkerNodeList env)) 0 ((SortList (WorkerNodeList env)).length : Int)
        (AcquireLock (.shardDistributionMetadata s.nextShardId) .ExclusiveLock
          (GetNextShardId (lockedState distributedTableId s)).2)
        with ⟨s5, hok, hc⟩ | ⟨e, s5, herr, hf⟩
      · rw [hok]
        simp only [Outcome.state]
        obtain ⟨created, hlen, -, hplace, hhist⟩ := hc.written
        exact (invariant_after_shard_row _ s s s5 created _ _ _ _
          (hinit s rfl rfl rfl) hc.shardRows hplace hhist hc.nextShardId
          (by simp [hlen, hperm])).order
      · rw [herr]
        exact PlacementsPrecedeShardRows_congr _ s s s5 hf.shardRows hf.placementRows
          hf.history (hinit s rfl rfl rfl).order
  · simp only [CreateReferenceTableShard, EnsureTableOwner, hown]
    exact LoopInvariant.order (hinit _ rfl rfl rfl)

/-- The catalog contents recorded by a run that creates two shards with one
replica each: a placement row, then its shard row, twice. -/
theorem roundRobin_history_example :
    ((CreateShardsWithRoundRobinPolicy exampleEnv 1 2 1 emptyState).state.history.map
      (fun m => (m.shardRows.map (fun r => r.shardId), m.placementRows.map (fun p => p.shardId))))
      = [([], [100]), ([100], [100]), ([100], [100, 101]), ([100, 101], [100, 101])] := by
  decide

/-- Claim C10: the history of a run of `CreateShardsWithRoundRobinPolicy`,
`CreateColocatedShards` or `CreateReferenceTableShard` (whether the run returns
or fails) records every catalog content the run goes through, one write at a
time, and in each of them every shard row written by the run already has all
the placement rows that the run ever writes for its shard id: no placement row
of a shard is written after its shard row. For the round-robin function each
written shard row has `replicationFactor` placement rows written by the run,
for the reference table one per worker. -/
theorem placements_precede_shard_rows (env : Env) (s : State) :
    (∀ (distributedTableId : Oid) (shardCount replicationFactor : Int),
      PlacementsPrecedeShardRows (fun l => l.length = replicationFactor.toNat) s
        (CreateShardsWithRoundRobinPolicy env distributedTableId shardCount
          replicationFactor s).state) ∧
    (∀ (targetRelationId sourceRelationId : Oid),
      PlacementsPrecedeShardRows (fun _ => True) s
        (CreateColocatedShards env targetRelationId sourceRelationId s).state) ∧
    (∀ (distributedTableId : Oid),
      PlacementsPrecedeShardRows (fun l => l.length = (WorkerNodeList env).length) s
        (CreateReferenceTableShard env distributedTableId s).state) :=
  ⟨fun distributedTableId shardCount replicationFactor =>
      roundRobin_order env distributedTableId shardCount replicationFactor s,
    fun targetRelationId sourceRelationId =>
      colocated_order env targetRelationId sourceRelationId s,
    fun distributedTableId => referenceTable_order env distributedTableId s⟩

/-! ## What a returning round-robin call has stored -/

/-- A call of `CreateShardsWithRoundRobinPolicy` that returns has stored, for the
shard indexes in order, the decimal texts of the ranges of `hashTokenRanges`,
under consecutive new shard ids; the shard ids in use stay below the sequence. -/
theorem roundRobin_ok_shardRows (env : Env) (distributedTableId : Oid)
    (shardCount replicationFactor : Int) (s s' : State)
    (h : CreateShardsWithRoundRobinPolicy env distributedTableId shardCount replicationFactor s
      = .ok () s') :
    (s'.shardRows.drop s.shardRows.length).map (fun r => (r.shardMinValue, r.shardMaxValue))
      = (hashTokenRanges shardCount).map (fun r => (IntegerToText r.1, IntegerToText r.2)) ∧
    (s'.shardRows.drop s.shardRows.length).map (fun r => r.shardId)
      = (List.range shardCount.toNat).map (fun j => s.nextShardId + j) ∧
    (FreshSequence s → FreshSequence s') := by
  obtain ⟨hhash, hown, hex, hsc, hrf, hW⟩ :=
    roundRobin_ok_checks env distributedTableId shardCount replicationFactor s s' h
  rw [roundRobin_reaches_loop env distributedTableId shardCount replicationFactor s hhash hown
    hex hsc hrf hW] at h
  obtain ⟨s5, hs5⟩ := finishRoundRobin_ok _ s' h
  obtain ⟨hrows, hnext⟩ := roundRobinShardLoop_ok_rows env distributedTableId shardCount
    replicationFactor (hashTokenIncrement shardCount) (env.GetTableDDLEvents distributedTableId)
    (env.TableOwner distributedTableId) (SortList (WorkerNodeList env))
    ((SortList (WorkerNodeList env)).length : Int) (env.ShardStorageType distributedTableId)
    (by omega) shardCount.toNat 0 _ s5 hs5
  have hfin := finishRoundRobin_shardRows (roundRobinShardLoop env distributedTableId shardCount
    replicationFactor (hashTokenIncrement shardCount) (env.GetTableDDLEvents distributedTableId)
    (env.TableOwner distributedTableId) (SortList (WorkerNodeList env))
    ((SortList (WorkerNodeList env)).length : Int) (env.ShardStorageType distributedTableId)
    shardCount.toNat 0 (HOLD_INTERRUPTS (lockedState distributedTableId s)))
  rw [h, hs5] at hfin
  simp only [Outcome.state] at hfin
  have hnext' : s'.nextShardId = s.nextShardId + shardCount.toNat := by
    rw [hs5] at h
    simp only [finishRoundRobin, RESUME_INTERRUPTS, Outcome.ok.injEq, true_and] at h
    rw [← h]
    split <;> exact hnext
  have hrows' : s'.shardRows = s.shardRows ++ (List.range shardCount.toNat).map
      (fun (j : Nat) => roundRobinShardRow distributedTableId shardCount
        (hashTokenIncrement shardCount) (env.ShardStorageType distributedTableId)
        (s.nextShardId + j) (0 + (j : Int))) := by
    rw [hfin, hrows]
    rfl
  refine ⟨?_, ?_, ?_⟩
  · rw [hrows', List.drop_left, List.map_map]
    unfold hashTokenRanges
    rw [List.map_map]
    apply List.map_congr_left
    intro j _
    simp [roundRobinShardRow]
  · rw [hrows', List.drop_left, List.map_map]
    apply List.map_congr_left
    intro j _
    simp [roundRobinShardRow]
  · intro hfresh r hr
    rw [hrows'] at hr
    rw [hnext']
    rcases List.mem_append.mp hr with hr | hr
    · have := hfresh r hr
      omega
    · obtain ⟨j, hj, rfl⟩ := List.mem_map.mp hr
      have := List.mem_range.mp hj
      simp only [roundRobinShardRow]
      omega


/-! ## The shard id sequence stays ahead of the shard ids in use -/

/-- A returning `CreateColocatedShards` keeps the shard ids in use below the
shard id sequence. -/
theorem colocated_ok_fresh (env : Env) (targetRelationId sourceRelationId : Oid) (s s' : State)
    (hfresh : FreshSequence s)
    (h : CreateColocatedShards env targetRelationId sourceRelationId s = .ok () s') :
    FreshSequence s' := by
  obtain ⟨-, hd⟩ := colocated_ok_inv env targetRelationId sourceRelationId s s' hfresh h
  have hrows : s'.shardRows = s.shardRows ++ colocatedShardRows targetRelationId
      (env.ShardStorageType targetRelationId) s.nextShardId
      (LoadShardIntervalList s sourceRelationId) := hd.shardRows
  have hnext : s'.nextShardId
      = s.nextShardId + (LoadShardIntervalList s sourceRelationId).length := hd.nextShardId
  intro r hr
  rw [hrows] at hr
  rw [hnext]
  rcases List.mem_append.mp hr with hr | hr
  · have := hfresh r hr
    omega
  · exact (colocatedShardRows_shardId_lt _ _ _ _ r hr).2

/-- A returning `CreateReferenceTableShard` keeps the shard ids in use below the
shard id sequence. -/
theorem referenceTable_ok_fresh (env : Env) (distributedTableId : Oid) (s s' : State)
    (hfresh : FreshSequence s)
    (h : CreateReferenceTableShard env distributedTableId s = .ok () s') :
    FreshSequence s' := by
  obtain ⟨-, -, s5, hcsp, hs'⟩ := referenceTable_ok_inv env distributedTableId s s' h
  rcases CreateShardPlacements_cases env distributedTableId s.nextShardId
    (env.GetTableDDLEvents distributedTableId) (env.TableOwner distributedTableId)
    (SortList (WorkerNodeList env)) 0 ((SortList (WorkerNodeList env)).length : Int)
    (AcquireLock (.shardDistributionMetadata s.nextShardId) .ExclusiveLock
      (GetNextShardId (lockedState distributedTableId s)).2)
    with ⟨s5', hok, hc⟩ | ⟨e, s5', herr, -⟩
  · rw [hok] at hcsp
    simp only [Outcome.ok.injEq, true_and] at hcsp
    subst hcsp
    subst hs'
    have hrows : s5'.shardRows = s.shardRows := hc.shardRows
    have hnext : s5'.nextShardId = s.nextShardId + 1 := hc.nextShardId
    intro r hr
    simp only [InsertShardRow, hrows, hnext, List.mem_append, List.mem_singleton] at hr ⊢
    rcases hr with hr | hr
    · have := hfresh r hr
      omega
    · subst hr
      simp
  · rw [herr] at hcsp
    simp at hcsp

/-! ## Cancel requests during `CreateShardsWithRoundRobinPolicy` -/

/-- The walk over the candidates neither reads the cancel-pending flag nor
depends on the arrival of cancel requests. -/
theorem attemptPlacements_withCancelPending (env : Env) (relationId : Oid) (shardId : Nat)
    (ddlEventList : List String) (newPlacementOwner : String) (required : Nat)
    (candidates created : List WorkerNode) (s : State) (pending : Bool) :
    attemptPlacements env.withoutCancelRequests relationId shardId ddlEventList
        newPlacementOwner required candidates created (s.withCancelPending pending)
      = ((attemptPlacements env relationId shardId ddlEventList newPlacementOwner required
            candidates created s).1,
          (attemptPlacements env relationId shardId ddlEventList newPlacementOwner required
            candidates created s).2.withCancelPending pending) := by
  induction candidates generalizing created s with
  | nil => rfl
  | cons w rest ih =>
    unfold attemptPlacements
    by_cases hreq : required ≤ created.length
    · rw [if_pos hreq, if_pos hreq]
    · rw [if_neg hreq, if_neg hreq]
      have henv : env.withoutCancelRequests.shardCreated w.workerName w.workerPort shardId
          = env.shardCreated w.workerName w.workerPort shardId := rfl
      cases hc : env.shardCreated w.workerName w.workerPort shardId
      · simp only [WorkerCreateShard, henv, hc]
        exact ih created
          { s with
            workerCommands := s.workerCommands ++
              [⟨w.workerName, w.workerPort, relationId, shardId, -1, newPlacementOwner,
                ddlEventList, env.GetTableForeignConstraintCommands relationId⟩]
            warnings := s.warnings ++
              ["could not create shard on \"" ++ w.workerName ++ ":" ++ toString w.workerPort
                ++ "\""] }
      · simp only [WorkerCreateShard, henv, hc]
        exact ih (created ++ [w])
          { s with
            workerCommands := s.workerCommands ++
              [⟨w.workerName, w.workerPort, relationId, shardId, -1, newPlacementOwner,
                ddlEventList, env.GetTableForeignConstraintCommands relationId⟩] }

/-- Writing placement rows does not touch the cancel-pending flag. -/
theorem insertPlacementRows_withCancelPending (shardId : Nat) (created : List WorkerNode)
    (s : State) (pending : Bool) :
    insertPlacementRows shardId created (s.withCancelPending pending)
      = (insertPlacementRows shardId created s).withCancelPending pending := by
  induction created generalizing s with
  | nil => rfl
  | cons w rest ih =>
    unfold insertPlacementRows
    exact ih (InsertShardPlacementRow shardId INVALID_PLACEMENT_ID FILE_FINALIZED 0 w.workerName
      w.workerPort s)

/-- `CreateShardPlacements` neither reads the cancel-pending flag nor depends
on the arrival of cancel requests. -/
theorem CreateShardPlacements_withCancelPending (env : Env) (relationId : Oid) (shardId : Nat)
    (ddlEventList : List String) (newPlacementOwner : String)
    (workerNodeList : List WorkerNode) (workerStartIndex replicationFactor : Int) (s : State)
    (pending : Bool) :
    CreateShardPlacements env.withoutCancelRequests relationId shardId ddlEventList
        newPlacementOwner workerNodeList workerStartIndex replicationFactor
        (s.withCancelPending pending)
      = (CreateShardPlacements env relationId shardId ddlEventList newPlacementOwner
          workerNodeList workerStartIndex replicationFactor s).mapState
          (fun t => t.withCancelPending pending) := by
  have h := attemptPlacements_withCancelPending env relationId shardId ddlEventList
    newPlacementOwner replicationFactor.toNat
    (placementCandidates workerNodeList workerStartIndex replicationFactor) []
    { s with placementCalls :=
        s.placementCalls ++ [⟨shardId, workerStartIndex, replicationFactor⟩] } pending
  unfold CreateShardPlacements
  have hstate : ({ s.withCancelPending pending with placementCalls :=
        (s.withCancelPending pending).placementCalls
          ++ [⟨shardId, workerStartIndex, replicationFactor⟩] } : State)
      = ({ s with placementCalls :=
          s.placementCalls ++ [⟨shardId, workerStartIndex, replicationFactor⟩] } :
          State).withCancelPending pending := rfl
  rw [hstate, h]
  simp only
  split
  · rfl
  · simp only [Outcome.mapState, insertPlacementRows_withCancelPending]

/-- The shard loop neither reads the cancel-pending flag nor depends on the
arrival of cancel requests: without any cancel request it runs to the same
outcome, the flag apart. -/
theorem roundRobinShardLoop_withoutCancelRequests (env : Env) (distributedTableId : Oid)
    (shardCount replicationFactor : Int) (increment : Nat) (ddlCommandList : List String)
    (relationOwner : String) (workerNodeList : List WorkerNode) (workerNodeCount : Int)
    (shardStorageType : Char) (remaining : Nat) (shardIndex : Int) (s : State) :
    roundRobinShardLoop env.withoutCancelRequests distributedTableId shardCount
        replicationFactor increment ddlCommandList relationOwner workerNodeList workerNodeCount
        shardStorageType remaining shardIndex (s.withCancelPending false)
      = (roundRobinShardLoop env distributedTableId shardCount replicationFactor increment
          ddlCommandList relationOwner workerNodeList workerNodeCount shardStorageType
          remaining shardIndex s).mapState (fun t => t.withCancelPending false) := by
  induction remaining generalizing shardIndex s with
  | zero => rfl
  | succ n ih =>
    by_cases hW : workerNodeCount = 0
    · rw [roundRobinShardLoop, roundRobinShardLoop]
      simp only [roundRobinNodeIndex, if_pos hW]
      rfl
    · rw [roundRobinShardLoop_succ _ _ _ _ _ _ _ _ _ _ _ _ _ hW,
        roundRobinShardLoop_succ _ _ _ _ _ _ _ _ _ _ _ _ _ hW]
      have hbefore : beforePlacements env.withoutCancelRequests shardIndex
          (s.withCancelPending false)
          = (beforePlacements env shardIndex s).withCancelPending false := rfl
      have hnext : (s.withCancelPending false).nextShardId = s.nextShardId := rfl
      rw [hbefore, hnext, CreateShardPlacements_withCancelPending]
      cases hcsp : CreateShardPlacements env distributedTableId s.nextShardId ddlCommandList
        relationOwner workerNodeList (toInt32 (toUInt32 (Int.tmod shardIndex workerNodeCount)))
        replicationFactor (beforePlacements env shardIndex s) with
      | ok v s3 =>
        simp only [Outcome.mapState]
        exact ih (shardIndex + 1)
          (InsertShardRow distributedTableId s.nextShardId shardStorageType
            (roundRobinShardRow distributedTableId shardCount increment shardStorageType
              s.nextShardId shardIndex).shardMinValue
            (roundRobinShardRow distributedTableId shardCount increment shardStorageType
              s.nextShardId shardIndex).shardMaxValue s3)
      | error e s3 => rfl
      | undefined s3 => rfl

/-- When the loop returns, the cancel-pending flag is set exactly if it was set
before the loop or a cancel request arrived during one of its iterations; the
interrupt hold-off count is unchanged. -/
theorem roundRobinShardLoop_cancelPending (env : Env) (distributedTableId : Oid)
    (shardCount replicationFactor : Int) (increment : Nat) (ddlCommandList : List String)
    (relationOwner : String) (workerNodeList : List WorkerNode) (workerNodeCount : Int)
    (shardStorageType : Char) (hW : workerNodeCount ≠ 0) (remaining : Nat) (shardIndex : Int)
    (s s5 : State)
    (h : roundRobinShardLoop env distributedTableId shardCount replicationFactor increment
      ddlCommandList relationOwner workerNodeList workerNodeCount shardStorageType
      remaining shardIndex s = .ok () s5) :
    s5.QueryCancelPending
      = (s.QueryCancelPending ||
          (List.range remaining).any (fun (j : Nat) => env.cancelRequested (shardIndex + j))) ∧
    s5.InterruptHoldoffCount = s.InterruptHoldoffCount := by
  induction remaining generalizing shardIndex s with
  | zero =>
    simp only [roundRobinShardLoop, Outcome.ok.injEq, true_and] at h
    subst h
    simp
  | succ n ih =>
    rw [roundRobinShardLoop_succ _ _ _ _ _ _ _ _ _ _ _ _ _ hW] at h
    rcases CreateShardPlacements_cases env distributedTableId s.nextShardId ddlCommandList
      relationOwner workerNodeList (toInt32 (toUInt32 (Int.tmod shardIndex workerNodeCount)))
      replicationFactor (beforePlacements env shardIndex s) with ⟨s3, hok, hc⟩ | ⟨e, s3, herr, _⟩
    · rw [hok] at h
      simp only at h
      obtain ⟨hflag, hhold⟩ := ih _ _ h
      have h1 : (InsertShardRow distributedTableId s.nextShardId shardStorageType
          (roundRobinShardRow distributedTableId shardCount increment shardStorageType
            s.nextShardId shardIndex).shardMinValue
          (roundRobinShardRow distributedTableId shardCount increment shardStorageType
            s.nextShardId shardIndex).shardMaxValue s3).QueryCancelPending
          = s3.QueryCancelPending := rfl
      have h2 : (InsertShardRow distributedTableId s.nextShardId shardStorageType
          (roundRobinShardRow distributedTableId shardCount increment shardStorageType
            s.nextShardId shardIndex).shardMinValue
          (roundRobinShardRow distributedTableId shardCount increment shardStorageType
            s.nextShardId shardIndex).shardMaxValue s3).InterruptHoldoffCount
          = s3.InterruptHoldoffCount := rfl
      have h3 : (beforePlacements env shardIndex s).QueryCancelPending
          = (s.QueryCancelPending || env.cancelRequested shardIndex) := rfl
      have h4 : (beforePlacements env shardIndex s).InterruptHoldoffCount
          = s.InterruptHoldoffCount := rfl
      rw [h1, hc.cancel, h3] at hflag
      rw [h2, hc.holdoff, h4] at hhold
      refine ⟨?_, hhold⟩
      have hshift : ((List.range n).any
            fun (j : Nat) => env.cancelRequested (shardIndex + 1 + j))
          = (List.map Nat.succ (List.range n)).any
              (fun (j : Nat) => env.cancelRequested (shardIndex + j)) := by
        rw [List.any_map]
        congr 1
        funext j
        simp only [Function.comp_apply, Nat.succ_eq_add_one, Nat.cast_add, Nat.cast_one]
        congr 1
        ring
      rw [hflag, hshift, List.range_succ_eq_map, List.any_cons, Bool.or_assoc]
      simp only [Nat.cast_zero, add_zero]
    · rw [herr] at h
      simp at h

/-- The warning about a worker that could not create a shard is not the
warning about ignored cancel requests. -/
theorem createWarning_ne_cancelWarning (workerName : String) (workerPort : Nat) :
    "could not create shard on \"" ++ workerName ++ ":" ++ toString workerPort ++ "\""
      ≠ cancelWarning := by
  intro h
  have hdata := congrArg String.data h
  simp only [String.data_append] at hdata
  have h2 : cancelWarning.data
      = 'c' :: 'a' :: ("ncel requests are ignored during shard creation" : String).data := by
    decide
  rw [h2] at hdata
  simp only [List.cons_append, List.cons.injEq] at hdata
  exact absurd hdata.2.1 (by decide)

/-- The walk over the candidates only adds warnings about workers that could
not create the shard. -/
theorem attemptPlacements_warnings (env : Env) (relationId : Oid) (shardId : Nat)
    (ddlEventList : List String) (newPlacementOwner : String) (required : Nat)
    (candidates created : List WorkerNode) (s : State) :
    ∃ warns,
      (attemptPlacements env relationId shardId ddlEventList newPlacementOwner required
        candidates created s).2.warnings = s.warnings ++ warns ∧
      ∀ w ∈ warns, w ≠ cancelWarning := by
  induction candidates generalizing created s with
  | nil => exact ⟨[], by simp [attemptPlacements], by simp⟩
  | cons w rest ih =>
    unfold attemptPlacements
    by_cases hreq : required ≤ created.length
    · rw [if_pos hreq]
      exact ⟨[], by simp, by simp⟩
    · rw [if_neg hreq]
      cases hc : env.shardCreated w.workerName w.workerPort shardId
      · simp only [WorkerCreateShard, hc]
        obtain ⟨warns, h, hne⟩ := ih created
          { s with
            workerCommands := s.workerCommands ++
              [⟨w.workerName, w.workerPort, relationId, shardId, -1, newPlacementOwner,
                ddlEventList, env.GetTableForeignConstraintCommands relationId⟩]
            warnings := s.warnings ++
              ["could not create shard on \"" ++ w.workerName ++ ":" ++ toString w.workerPort
                ++ "\""] }
        refine ⟨["could not create shard on \"" ++ w.workerName ++ ":" ++ toString w.workerPort
          ++ "\""] ++ warns, ?_, ?_⟩
        · rw [h]
          simp only [List.append_assoc]
        · intro x hx
          rcases List.mem_append.mp hx with hx | hx
          · simp only [List.mem_singleton] at hx
            subst hx
            exact createWarning_ne_cancelWarning w.workerName w.workerPort
          · exact hne x hx
      · simp only [WorkerCreateShard, hc]
        exact ih (created ++ [w])
          { s with
            workerCommands := s.workerCommands ++
              [⟨w.workerName, w.workerPort, relationId, shardId, -1, newPlacementOwner,
                ddlEventList, env.GetTableForeignConstraintCommands relationId⟩] }

/-- `CreateShardPlacements` only adds warnings about workers that could not
create the shard. -/
theorem CreateShardPlacements_warnings (env : Env) (relationId : Oid) (shardId : Nat)
    (ddlEventList : List String) (newPlacementOwner : String)
    (workerNodeList : List WorkerNode) (workerStartIndex replicationFactor : Int) (s : State) :
    ∃ warns,
      (CreateShardPlacements env relationId shardId ddlEventList newPlacementOwner
        workerNodeList workerStartIndex replicationFactor s).state.warnings
        = s.warnings ++ warns ∧
      ∀ w ∈ warns, w ≠ cancelWarning := by
  obtain ⟨warns, h, hne⟩ := attemptPlacements_warnings env relationId shardId ddlEventList
    newPlacementOwner replicationFactor.toNat
    (placementCandidates workerNodeList workerStartIndex replicationFactor) []
    { s with placementCalls :=
        s.placementCalls ++ [⟨shardId, workerStartIndex, replicationFactor⟩] }
  refine ⟨warns, ?_, hne⟩
  unfold CreateShardPlacements
  simp only
  split
  · exact h
  · rw [insertPlacementRows_state]
    exact h

/-- The shard loop only adds warnings about workers that could not create a
shard. -/
theorem roundRobinShardLoop_warnings (env : Env) (distributedTableId : Oid)
    (shardCount replicationFactor : Int) (increment : Nat) (ddlCommandList : List String)
    (relationOwner : String) (workerNodeList : List WorkerNode) (workerNodeCount : Int)
    (shardStorageType : Char) (remaining : Nat) (shardIndex : Int) (s : State) :
    ∃ warns,
      (roundRobinShardLoop env distributedTableId shardCount replicationFactor increment
        ddlCommandList relationOwner workerNodeList workerNodeCount shardStorageType
        remaining shardIndex s).state.warnings = s.warnings ++ warns ∧
      ∀ w ∈ warns, w ≠ cancelWarning := by
  induction remaining generalizing shardIndex s with
  | zero => exact ⟨[], by simp [roundRobinShardLoop, Outcome.state], by simp⟩
  | succ n ih =>
    by_cases hW : workerNodeCount = 0
    · rw [roundRobinShardLoop]
      simp only [roundRobinNodeIndex, if_pos hW]
      exact ⟨[], by simp [Outcome.state], by simp⟩
    · rw [roundRobinShardLoop_succ _ _ _ _ _ _ _ _ _ _ _ _ _ hW]
      obtain ⟨warns, h, hne⟩ := CreateShardPlacements_warnings env distributedTableId
        s.nextShardId ddlCommandList relationOwner workerNodeList
        (toInt32 (toUInt32 (Int.tmod shardIndex workerNodeCount))) replicationFactor
        (beforePlacements env shardIndex s)
      have hbefore : (beforePlacements env shardIndex s).warnings = s.warnings := rfl
      rw [hbefore] at h
      cases hcsp : CreateShardPlacements env distributedTableId s.nextShardId ddlCommandList
        relationOwner workerNodeList (toInt32 (toUInt32 (Int.tmod shardIndex workerNodeCount)))
        replicationFactor (beforePlacements env shardIndex s) with
      | ok v s3 =>
        rw [hcsp] at h
        simp only [Outcome.state] at h
        simp only
        obtain ⟨warns', h', hne'⟩ := ih (shardIndex + 1)
          (InsertShardRow distributedTableId s.nextShardId shardStorageType
            (roundRobinShardRow distributedTableId shardCount increment shardStorageType
              s.nextShardId shardIndex).shardMinValue
            (roundRobinShardRow distributedTableId shardCount increment shardStorageType
              s.nextShardId shardIndex).shardMaxValue s3)
        have hins : (InsertShardRow distributedTableId s.nextShardId shardStorageType
            (roundRobinShardRow distributedTableId shardCount increment shardStorageType
              s.nextShardId shardIndex).shardMinValue
            (roundRobinShardRow distributedTableId shardCount increment shardStorageType
              s.nextShardId shardIndex).shardMaxValue s3).warnings = s3.warnings := rfl
        rw [hins, h] at h'
        refine ⟨warns ++ warns', by rw [h', List.append_assoc], ?_⟩
        intro x hx
        rcases List.mem_append.mp hx with hx | hx
        · exact hne x hx
        · exact hne' x hx
      | error e s3 =>
        rw [hcsp] at h
        exact ⟨warns, h, hne⟩
      | undefined s3 =>
        rw [hcsp] at h
        exact ⟨warns, h, hne⟩

/-- A loop of `k + m` iterations is a loop of `k` iterations followed, when it
returns, by a loop of `m` iterations from the state and shard index reached. -/
theorem roundRobinShardLoop_add (env : Env) (distributedTableId : Oid)
    (shardCount replicationFactor : Int) (increment : Nat) (ddlCommandList : List String)
    (relationOwner : String) (workerNodeList : List WorkerNode) (workerNodeCount : Int)
    (shardStorageType : Char) (k m : Nat) (shardIndex : Int) (s : State) :
    roundRobinShardLoop env distributedTableId shardCount replicationFactor increment
        ddlCommandList relationOwner workerNodeList workerNodeCount shardStorageType
        (k + m) shardIndex s
      = match roundRobinShardLoop env distributedTableId shardCount replicationFactor increment
            ddlCommandList relationOwner workerNodeList workerNodeCount shardStorageType
            k shardIndex s with
        | .ok _ sk =>
          roundRobinShardLoop env distributedTableId shardCount replicationFactor increment
            ddlCommandList relationOwner workerNodeList workerNodeCount shardStorageType
            m (shardIndex + k) sk
        | .error e sk => .error e sk
        | .undefined sk => .undefined sk := by
  induction k generalizing shardIndex s with
  | zero =>
    simp only [Nat.zero_add, roundRobinShardLoop, Nat.cast_zero, add_zero]
  | succ n ih =>
    rw [show n + 1 + m = (n + m) + 1 by omega]
    by_cases hW : workerNodeCount = 0
    · rw [roundRobinShardLoop, roundRobinShardLoop]
      simp only [roundRobinNodeIndex, if_pos hW]
    · rw [roundRobinShardLoop_succ _ _ _ _ _ _ _ _ _ _ _ _ _ hW,
        roundRobinShardLoop_succ _ _ _ _ _ _ _ _ _ _ _ _ _ hW]
      cases hcsp : CreateShardPlacements env distributedTableId s.nextShardId ddlCommandList
        relationOwner workerNodeList (toInt32 (toUInt32 (Int.tmod shardIndex workerNodeCount)))
        replicationFactor (beforePlacements env shardIndex s) with
      | ok v s3 =>
        simp only
        rw [ih]
        simp only [Nat.cast_add, Nat.cast_one]
        rw [show shardIndex + 1 + (n : Int) = shardIndex + ((n : Int) + 1) by ring]
      | error e s3 => rfl
      | undefined s3 => rfl

/-- When a loop returns, each of its initial segments has returned as well,
and after each of them interrupts are still held as they were before. -/
theorem roundRobinShardLoop_prefix_ok (env : Env) (distributedTableId : Oid)
    (shardCount replicationFactor : Int) (increment : Nat) (ddlCommandList : List String)
    (relationOwner : String) (workerNodeList : List WorkerNode) (workerNodeCount : Int)
    (shardStorageType : Char) (hW : workerNodeCount ≠ 0) (remaining : Nat) (shardIndex : Int)
    (s s5 : State)
    (h : roundRobinShardLoop env distributedTableId shardCount replicationFactor increment
      ddlCommandList relationOwner workerNodeList workerNodeCount shardStorageType
      remaining shardIndex s = .ok () s5) (k : Nat) (hk : k ≤ remaining) :
    ∃ sk, roundRobinShardLoop env distributedTableId shardCount replicationFactor increment
        ddlCommandList relationOwner workerNodeList workerNodeCount shardStorageType
        k shardIndex s = .ok () sk ∧
      sk.InterruptHoldoffCount = s.InterruptHoldoffCount := by
  obtain ⟨m, rfl⟩ : ∃ m, remaining = k + m := ⟨remaining - k, by omega⟩
  rw [roundRobinShardLoop_add] at h
  cases hloop : roundRobinShardLoop env distributedTableId shardCount replicationFactor
    increment ddlCommandList relationOwner workerNodeList workerNodeCount shardStorageType
    k shardIndex s with
  | ok v sk =>
    exact ⟨sk, rfl, (roundRobinShardLoop_cancelPending env distributedTableId shardCount
      replicationFactor increment ddlCommandList relationOwner workerNodeList workerNodeCount
      shardStorageType hW k shardIndex s sk hloop).2⟩
  | error e sk =>
    rw [hloop] at h
    simp at h
  | undefined sk =>
    rw [hloop] at h
    simp at h

/-- The epilogue of lines 211-217 after a loop that returned. -/
theorem finishRoundRobin_of_ok (s5 : State) :
    finishRoundRobin (.ok () s5)
      = .ok () (RESUME_INTERRUPTS
          (if s5.QueryCancelPending = true then
            { s5 with
              warnings := s5.warnings ++ [cancelWarning]
              QueryCancelPending := false }
          else s5)) := rfl

/-- Claim C11: in every run of `CreateShardsWithRoundRobinPolicy` whose shard loop
completes, the call returns success with all `shardCount` shards created and none
of the earlier shard rows removed; after every number of iterations of the loop
interrupts are still held (the hold-off count of line 150 is positive), so a
pending cancel request is not processed there; on return the cancel-pending
flag is false and the hold-off count is restored; the flag tested after the
loop is set exactly when a cancel request was pending before the loop or
arrived during one of its iterations, and the warning "cancel requests are
ignored during shard creation" is emitted exactly in that case, once; and the
cancel requests change nothing else: without any cancel request the call
returns with the same shard rows, placement rows and worker commands. -/
theorem cancel_requests_deferred (env : Env) (distributedTableId : Oid)
    (shardCount replicationFactor : Int) (s s5 : State)
    (hhash : env.PartitionMethod distributedTableId = DISTRIBUTE_BY_HASH)
    (hown : env.callerOwns distributedTableId = true)
    (hex : LoadShardList s distributedTableId = []) (hsc : 0 < shardCount)
    (hrf : 0 < replicationFactor)
    (hW : replicationFactor ≤ ((SortList (WorkerNodeList env)).length : Int))
    (hloop : roundRobinShardLoop env distributedTableId shardCount replicationFactor
      (hashTokenIncrement shardCount) (env.GetTableDDLEvents distributedTableId)
      (env.TableOwner distributedTableId) (SortList (WorkerNodeList env))
      ((SortList (WorkerNodeList env)).length : Int) (env.ShardStorageType distributedTableId)
      shardCount.toNat 0 (HOLD_INTERRUPTS (lockedState distributedTableId s)) = .ok () s5) :
    ∃ s', CreateShardsWithRoundRobinPolicy env distributedTableId shardCount replicationFactor s
        = .ok () s' ∧
      s'.QueryCancelPending = false ∧
      s'.InterruptHoldoffCount = s.InterruptHoldoffCount ∧
      (∀ k : Nat, k ≤ shardCount.toNat →
        ∃ sk, roundRobinShardLoop env distributedTableId shardCount replicationFactor
            (hashTokenIncrement shardCount) (env.GetTableDDLEvents distributedTableId)
            (env.TableOwner distributedTableId) (SortList (WorkerNodeList env))
            ((SortList (WorkerNodeList env)).length : Int)
            (env.ShardStorageType distributedTableId) k 0
            (HOLD_INTERRUPTS (lockedState distributedTableId s)) = .ok () sk ∧
          0 < sk.InterruptHoldoffCount) ∧
      (s5.QueryCancelPending = true ↔
        (s.QueryCancelPending = true ∨
          ∃ i : Nat, i < shardCount.toNat ∧ env.cancelRequested (i : Int) = true)) ∧
      s'.warnings
        = s5.warnings ++ (if s5.QueryCancelPending = true then [cancelWarning] else []) ∧
      s'.warnings.count cancelWarning
        = s.warnings.count cancelWarning + (if s5.QueryCancelPending = true then 1 else 0) ∧
      s.shardRows <+: s'.shardRows ∧
      (s'.shardRows.drop s.shardRows.length).map (fun r => r.shardId)
        = (List.range shardCount.toNat).map (fun j => s.nextShardId + j) ∧
      ∃ t', CreateShardsWithRoundRobinPolicy env.withoutCancelRequests distributedTableId
          shardCount replicationFactor (s.withCancelPending false) = .ok () t' ∧
        t'.shardRows = s'.shardRows ∧ t'.placementRows = s'.placementRows ∧
        t'.workerCommands = s'.workerCommands := by
  have hrun := roundRobin_reaches_loop env distributedTableId shardCount replicationFactor s
    hhash hown hex hsc hrf hW
  rw [hloop, finishRoundRobin_of_ok] at hrun
  have hWne : ((SortList (WorkerNodeList env)).length : Int) ≠ 0 := by omega
  obtain ⟨hflag, hhold⟩ := roundRobinShardLoop_cancelPending env distributedTableId shardCount
    replicationFactor (hashTokenIncrement shardCount) (env.GetTableDDLEvents distributedTableId)
    (env.TableOwner distributedTableId) (SortList (WorkerNodeList env))
    ((SortList (WorkerNodeList env)).length : Int) (env.ShardStorageType distributedTableId)
    hWne shardCount.toNat 0 _ s5 hloop
  obtain ⟨hrows, -⟩ := roundRobinShardLoop_ok_rows env distributedTableId shardCount
    replicationFactor (hashTokenIncrement shardCount) (env.GetTableDDLEvents distributedTableId)
    (env.TableOwner distributedTableId) (SortList (WorkerNodeList env))
    ((SortList (WorkerNodeList env)).length : Int) (env.ShardStorageType distributedTableId)
    hWne shardCount.toNat 0 _ s5 hloop
  obtain ⟨warns, hwarns, hne⟩ := roundRobinShardLoop_warnings env distributedTableId shardCount
    replicationFactor (hashTokenIncrement shardCount) (env.GetTableDDLEvents distributedTableId)
    (env.TableOwner distributedTableId) (SortList (WorkerNodeList env))
    ((SortList (WorkerNodeList env)).length : Int) (env.ShardStorageType distributedTableId)
    shardCount.toNat 0 (HOLD_INTERRUPTS (lockedState distributedTableId s))
  rw [hloop] at hwarns
  have hwarns' : s5.warnings = s.warnings ++ warns := hwarns
  have hcount : warns.count cancelWarning = 0 :=
    List.count_eq_zero.mpr (fun hmem => hne cancelWarning hmem rfl)
  have hflag' : s5.QueryCancelPending
      = (s.QueryCancelPending ||
          (List.range shardCount.toNat).any (fun (j : Nat) => env.cancelRequested (0 + j))) :=
    hflag
  have hhold' : s5.InterruptHoldoffCount = s.InterruptHoldoffCount + 1 := hhold
  have hrows' : s5.shardRows = s.shardRows ++ (List.range shardCount.toNat).map
      (fun (j : Nat) => roundRobinShardRow distributedTableId shardCount
        (hashTokenIncrement shardCount) (env.ShardStorageType distributedTableId)
        (s.nextShardId + j) (0 + (j : Int))) := hrows
  have hids := (roundRobin_ok_shardRows env distributedTableId shardCount replicationFactor s _
    hrun).2.1
  have hquiet := roundRobinShardLoop_withoutCancelRequests env distributedTableId shardCount
    replicationFactor (hashTokenIncrement shardCount) (env.GetTableDDLEvents distributedTableId)
    (env.TableOwner distributedTableId) (SortList (WorkerNodeList env))
    ((SortList (WorkerNodeList env)).length : Int) (env.ShardStorageType distributedTableId)
    shardCount.toNat 0 (HOLD_INTERRUPTS (lockedState distributedTableId s))
  rw [hloop] at hquiet
  have hrunQuiet := roundRobin_reaches_loop env.withoutCancelRequests distributedTableId
    shardCount replicationFactor (s.withCancelPending false) hhash hown hex hsc hrf hW
  have hquiet' : roundRobinShardLoop env.withoutCancelRequests distributedTableId shardCount
      replicationFactor (hashTokenIncrement shardCount)
      (env.withoutCancelRequests.GetTableDDLEvents distributedTableId)
      (env.withoutCancelRequests.TableOwner distributedTableId)
      (SortList (WorkerNodeList env.withoutCancelRequests))
      ((SortList (WorkerNodeList env.withoutCancelRequests)).length : Int)
      (env.withoutCancelRequests.ShardStorageType distributedTableId) shardCount.toNat 0
      (HOLD_INTERRUPTS (lockedState distributedTableId (s.withCancelPending false)))
      = .ok () (s5.withCancelPending false) := hquiet
  rw [hquiet', finishRoundRobin_of_ok] at hrunQuiet
  have hheld : ∀ k : Nat, k ≤ shardCount.toNat →
      ∃ sk, roundRobinShardLoop env distributedTableId shardCount replicationFactor
          (hashTokenIncrement shardCount) (env.GetTableDDLEvents distributedTableId)
          (env.TableOwner distributedTableId) (SortList (WorkerNodeList env))
          ((SortList (WorkerNodeList env)).length : Int)
          (env.ShardStorageType distributedTableId) k 0
          (HOLD_INTERRUPTS (lockedState distributedTableId s)) = .ok () sk ∧
        0 < sk.InterruptHoldoffCount := by
    intro k hk
    obtain ⟨sk, hsk, hcnt⟩ := roundRobinShardLoop_prefix_ok env distributedTableId shardCount
      replicationFactor (hashTokenIncrement shardCount)
      (env.GetTableDDLEvents distributedTableId) (env.TableOwner distributedTableId)
      (SortList (WorkerNodeList env)) ((SortList (WorkerNodeList env)).length : Int)
      (env.ShardStorageType distributedTableId) hWne shardCount.toNat 0 _ s5 hloop k hk
    have hcnt' : sk.InterruptHoldoffCount = s.InterruptHoldoffCount + 1 := hcnt
    exact ⟨sk, hsk, by omega⟩
  refine ⟨_, hrun, ?_, ?_, hheld, ?_, ?_, ?_, ?_, hids, _, hrunQuiet, ?_, ?_, ?_⟩
  · cases hp : s5.QueryCancelPending
    · simp [RESUME_INTERRUPTS, hp]
    · simp [RESUME_INTERRUPTS]
  · cases hp : s5.QueryCancelPending
    · simp [RESUME_INTERRUPTS, hhold']
    · simp [RESUME_INTERRUPTS, hhold']
  · rw [hflag']
    simp only [Bool.or_eq_true, List.any_eq_true, List.mem_range, zero_add]
  · cases hp : s5.QueryCancelPending
    · simp [RESUME_INTERRUPTS, hp]
    · simp [RESUME_INTERRUPTS]
  · cases hp : s5.QueryCancelPending
    · simp [RESUME_INTERRUPTS, hp, hwarns', hcount]
    · simp [RESUME_INTERRUPTS, hwarns', hcount]
  · cases hp : s5.QueryCancelPending
    · simp [RESUME_INTERRUPTS, hp, hrows']
    · simp [RESUME_INTERRUPTS, hrows']
  · cases hp : s5.QueryCancelPending
    · simp [RESUME_INTERRUPTS, State.withCancelPending, hp]
    · simp [RESUME_INTERRUPTS, State.withCancelPending]
  · cases hp : s5.QueryCancelPending
    · simp [RESUME_INTERRUPTS, State.withCancelPending, hp]
    · simp [RESUME_INTERRUPTS, State.withCancelPending]
  · cases hp : s5.QueryCancelPending
    · simp [RESUME_INTERRUPTS, State.withCancelPending, hp]
    · simp [RESUME_INTERRUPTS, State.withCancelPending]

/-- Witness for `cancel_requests_deferred`: two shards with one replica, a
cancel request arrives while the second shard is created. The call returns,
the flag is cleared and the warning is the only one emitted. -/
theorem cancel_requests_deferred_witness :
    cancellingEnv.PartitionMethod 1 = DISTRIBUTE_BY_HASH ∧ cancellingEnv.callerOwns 1 = true ∧
    LoadShardList emptyState 1 = [] ∧ (0 : Int) < 2 ∧ (0 : Int) < 1 ∧
    (1 : Int) ≤ ((SortList (WorkerNodeList cancellingEnv)).length : Int) ∧
    roundRobinShardLoop cancellingEnv 1 2 1 (hashTokenIncrement 2)
      (cancellingEnv.GetTableDDLEvents 1) (cancellingEnv.TableOwner 1)
      (SortList (WorkerNodeList cancellingEnv))
      ((SortList (WorkerNodeList cancellingEnv)).length : Int)
      (cancellingEnv.ShardStorageType 1) (2 : Int).toNat 0
      (HOLD_INTERRUPTS (lockedState 1 emptyState)) = .ok () cancelledLoopState ∧
    cancelledLoopState.QueryCancelPending = true ∧
    (CreateShardsWithRoundRobinPolicy cancellingEnv 1 2 1 emptyState).state.warnings
      = [cancelWarning] ∧
    ∃ s', CreateShardsWithRoundRobinPolicy cancellingEnv 1 2 1 emptyState = .ok () s' ∧
      s'.QueryCancelPending = false ∧
      s'.warnings.count cancelWarning
        = emptyState.warnings.count cancelWarning
          + (if cancelledLoopState.QueryCancelPending = true then 1 else 0) :=
  ⟨by decide, by decide, by decide, by decide, by decide, by decide, by decide, by decide,
    by decide,
    match cancel_requests_deferred cancellingEnv 1 2 1 emptyState cancelledLoopState
      (by decide) (by decide) (by decide) (by decide) (by decide) (by decide) (by decide) with
    | ⟨s', hrun, hflag, _, _, _, _, hcount, _⟩ => ⟨s', hrun, hflag, hcount⟩⟩

end CitusShards
